import Mathlib

/-!
pm-report: aggregation, roster synchronisation and colour assignment.

A shallow embedding of the Go sources `services/report.go`,
`services/project_config.go`, `services/excel.go`, `models/*.go` and
`utils/string.go`, followed by theorems about them.

Conventions of the embedding

* Go `int` and `int64` are `GoInt64`: the integers of `[-2^63, 2^63)` with
  wrapping (two's complement) arithmetic, as on a 64-bit target.
* A Go `map[string]V` is a `GoMap V`: a list of entries with pairwise distinct
  keys.  The order of the list carries no meaning: a `range` over a map visits
  the entries in the order chosen by `Runtime.rangeOrder`, which is only known
  to be a permutation.
* `sort.Slice` and `strings.ToLower` belong to the Go library; they are fields
  of `Runtime`, the first with the contract of its documentation (the result is
  a sorted permutation, ties in no particular order).
* A Go `string` is a Lean `String`; Go compares strings byte by byte, which for
  UTF-8 text is the lexicographic order of the characters (`stringLess`).
-/

namespace PmReport

/-! ## Machine integers -/

/-- Reduction of an integer to the signed 64-bit range. -/
def wrapInt64 (x : Int) : Int :=
  (x + 9223372036854775808) % 18446744073709551616 - 9223372036854775808

theorem wrapInt64_lo (x : Int) : -9223372036854775808 ≤ wrapInt64 x := by
  unfold wrapInt64; omega

theorem wrapInt64_hi (x : Int) : wrapInt64 x < 9223372036854775808 := by
  unfold wrapInt64; omega

theorem wrapInt64_of_fits (x : Int) (h₁ : -9223372036854775808 ≤ x)
    (h₂ : x < 9223372036854775808) : wrapInt64 x = x := by
  unfold wrapInt64; omega

theorem wrapInt64_add_wrap (a b : Int) : wrapInt64 (a + wrapInt64 b) = wrapInt64 (a + b) := by
  unfold wrapInt64; omega

/-- Go `int64` (and `int` on a 64-bit target). -/
abbrev GoInt64 : Type := { x : Int // -9223372036854775808 ≤ x ∧ x < 9223372036854775808 }

namespace GoInt64

/-- Conversion of an integer constant (reduced to the 64-bit range). -/
def ofInt (x : Int) : GoInt64 := ⟨wrapInt64 x, wrapInt64_lo x, wrapInt64_hi x⟩

instance : OfNat GoInt64 n := ⟨ofInt n⟩

/-- Go `a + b`. -/
def add (a b : GoInt64) : GoInt64 := ofInt (a.val + b.val)

/-- Go `a - b`. -/
def sub (a b : GoInt64) : GoInt64 := ofInt (a.val - b.val)

/-- Go `a * b`. -/
def mul (a b : GoInt64) : GoInt64 := ofInt (a.val * b.val)

/-- Go `a / b`: the quotient truncated towards zero. -/
def div (a b : GoInt64) : GoInt64 := ofInt (Int.tdiv a.val b.val)

instance : Add GoInt64 := ⟨add⟩

theorem val_zero : (0 : GoInt64).val = 0 := rfl

theorem val_add (a b : GoInt64) : (a + b).val = wrapInt64 (a.val + b.val) := rfl

theorem val_ofInt (x : Int) : (ofInt x).val = wrapInt64 x := rfl

instance : AddCommMonoid GoInt64 where
  add := add
  zero := 0
  add_assoc a b c := by
    apply Subtype.ext
    show wrapInt64 (wrapInt64 (a.val + b.val) + c.val) = wrapInt64 (a.val + wrapInt64 (b.val + c.val))
    unfold wrapInt64; omega
  zero_add a := by
    apply Subtype.ext
    show wrapInt64 (wrapInt64 0 + a.val) = a.val
    have := a.property
    unfold wrapInt64; omega
  add_zero a := by
    apply Subtype.ext
    show wrapInt64 (a.val + wrapInt64 0) = a.val
    have := a.property
    unfold wrapInt64; omega
  add_comm a b := by
    apply Subtype.ext
    show wrapInt64 (a.val + b.val) = wrapInt64 (b.val + a.val)
    rw [Int.add_comm]
  nsmul := nsmulRec

end GoInt64

/-! ## Go maps -/

/-- Value stored under a key in a list of entries (the first entry with that key). -/
def lookupEntries {β : Type} : List (String × β) → String → Option β
  | [], _ => none
  | (k', v) :: rest, k => if k' = k then some v else lookupEntries rest k

/-- Assignment `m[k] = v` on a list of entries: the entry of `k` is replaced,
or a new entry is added. -/
def setEntries {β : Type} : List (String × β) → String → β → List (String × β)
  | [], k, v => [(k, v)]
  | (k', v') :: rest, k, v =>
    if k' = k then (k, v) :: rest else (k', v') :: setEntries rest k v

theorem keys_setEntries {β : Type} (l : List (String × β)) (k : String) (v : β) :
    (setEntries l k v).map Prod.fst =
      if k ∈ l.map Prod.fst then l.map Prod.fst else l.map Prod.fst ++ [k] := by
  induction l with
  | nil => simp [setEntries]
  | cons p rest ih =>
    obtain ⟨k', v'⟩ := p
    by_cases h : k' = k
    · subst h; simp [setEntries]
    · have h' : ¬ k = k' := fun e => h e.symm
      simp only [setEntries, h, if_false, List.map_cons, ih, List.mem_cons, h', false_or]
      split <;> simp

theorem nodup_setEntries {β : Type} (l : List (String × β)) (k : String) (v : β)
    (h : (l.map Prod.fst).Nodup) : ((setEntries l k v).map Prod.fst).Nodup := by
  rw [keys_setEntries]
  split
  · exact h
  · rename_i hk
    rw [List.nodup_append]
    refine ⟨h, List.nodup_singleton k, ?_⟩
    intro a ha hb
    simp only [List.mem_singleton] at hb
    subst hb
    exact hk ha

theorem lookup_setEntries {β : Type} (l : List (String × β)) (k : String) (v : β) (k' : String) :
    lookupEntries (setEntries l k v) k' = if k = k' then some v else lookupEntries l k' := by
  induction l with
  | nil => simp [setEntries, lookupEntries]
  | cons p rest ih =>
    obtain ⟨k₀, v₀⟩ := p
    by_cases h : k₀ = k
    · subst h
      by_cases h' : k₀ = k' <;> simp [setEntries, lookupEntries, h']
    · by_cases h' : k₀ = k'
      · subst h'
        have : ¬ k = k₀ := fun e => h e.symm
        simp [setEntries, lookupEntries, h, this]
      · simp [setEntries, lookupEntries, h, h', ih]

/-- Go `map[string]β`. -/
structure GoMap (β : Type) where
  entries : List (String × β)
  nodup : (entries.map Prod.fst).Nodup

namespace GoMap

/-- The map `map[string]β{}` (a nil map reads the same). -/
def empty {β : Type} : GoMap β := ⟨[], List.nodup_nil⟩

/-- Go `v, ok := m[k]`. -/
def get? {β : Type} (m : GoMap β) (k : String) : Option β := lookupEntries m.entries k

/-- Go `m[k] = v`. -/
def set {β : Type} (m : GoMap β) (k : String) (v : β) : GoMap β :=
  ⟨setEntries m.entries k v, nodup_setEntries m.entries k v m.nodup⟩

theorem get?_empty {β : Type} (k : String) : (empty : GoMap β).get? k = none := rfl

theorem get?_set {β : Type} (m : GoMap β) (k : String) (v : β) (k' : String) :
    (m.set k v).get? k' = if k = k' then some v else m.get? k' :=
  lookup_setEntries m.entries k v k'

end GoMap

/-! ## Go strings -/

/-- Lexicographic comparison of two lists of characters. -/
def ltChars : List Char → List Char → Bool
  | [], [] => false
  | [], _ :: _ => true
  | _ :: _, [] => false
  | a :: as, b :: bs => if a < b then true else if b < a then false else ltChars as bs

/-- Go `a < b` on strings. -/
def stringLess (a b : String) : Bool := ltChars a.data b.data

theorem ltChars_iff (l₁ l₂ : List Char) : ltChars l₁ l₂ = true ↔ l₁ < l₂ := by
  induction l₁ generalizing l₂ with
  | nil =>
    cases l₂ with
    | nil => simp [ltChars]
    | cons b bs => simpa [ltChars] using List.nil_lt_cons b bs
  | cons a as ih =>
    cases l₂ with
    | nil => simp [ltChars]
    | cons b bs =>
      simp only [ltChars]
      rcases lt_trichotomy a b with h | h | h
      · simpa [h] using (List.Lex.rel h : List.Lex (· < ·) (a :: as) (b :: bs))
      · subst h
        simp only [lt_self_iff_false, if_false, ih]
        exact (List.Lex.cons_iff (r := (· < ·))).symm
      · have h' : ¬ a < b := not_lt_of_lt h
        simp only [h', h, if_false, if_true]
        constructor
        · intro hf; cases hf
        · intro hl
          cases hl with
          | cons hh => exact absurd h (lt_irrefl _)
          | rel hh => exact absurd hh h'

theorem stringLess_iff (a b : String) : stringLess a b = true ↔ a < b := by
  rw [String.lt_iff_toList_lt]
  exact ltChars_iff a.data b.data

theorem stringLess_eq_false_iff (a b : String) : stringLess a b = false ↔ b ≤ a := by
  rw [← not_lt, ← stringLess_iff]
  cases stringLess a b <;> simp

/-- ASCII lower-casing: what `strings.ToLower` does on ASCII text. -/
def asciiLower (s : String) : String := String.mk (s.data.map Char.toLower)

instance {ε α : Type} [DecidableEq ε] [DecidableEq α] : DecidableEq (Except ε α)
  | Except.ok a, Except.ok b => decidable_of_iff (a = b) (by simp)
  | Except.error a, Except.error b => decidable_of_iff (a = b) (by simp)
  | Except.ok _, Except.error _ => isFalse (by simp)
  | Except.error _, Except.ok _ => isFalse (by simp)

/-! ## The Go library -/

/-- Requirement of `sort.Slice` on its `less` argument: a strict weak ordering. -/
structure StrictWeakOrder {α : Type} (less : α → α → Bool) : Prop where
  irrefl : ∀ a, less a a = false
  trans : ∀ a b c, less a b = true → less b c = true → less a c = true
  incomp : ∀ a b c, less a b = false → less b c = false → less a c = false

/-- The parts of the Go runtime and library whose behaviour the program does not
fix: the order in which `range` visits a map (any permutation; `site` tells the
executions of a `range` statement apart), the algorithm of `sort.Slice` (a
sorted permutation, not stable) and the Unicode tables of `strings.ToLower`. -/
structure Runtime where
  rangeOrder : {β : Type} → List String → List (String × β) → List (String × β)
  rangeOrder_perm : ∀ {β : Type} (site : List String) (l : List (String × β)),
    (rangeOrder site l).Perm l
  sortSlice : {α : Type} → (α → α → Bool) → List α → List α
  sortSlice_perm : ∀ {α : Type} (less : α → α → Bool) (l : List α), (sortSlice less l).Perm l
  sortSlice_sorted : ∀ {α : Type} (less : α → α → Bool), StrictWeakOrder less →
    ∀ l : List α, (sortSlice less l).Pairwise (fun a b => less b a = false)
  toLower : String → String

theorem StrictWeakOrder.total {α : Type} {less : α → α → Bool} (h : StrictWeakOrder less)
    (a b : α) : less b a = false ∨ less a b = false := by
  cases hba : less b a
  · exact Or.inl rfl
  · right
    cases hab : less a b
    · rfl
    · have := h.trans a b a hab hba
      rw [h.irrefl] at this
      exact absurd this (by simp)

theorem insertionSort_sorted {α : Type} (less : α → α → Bool) (h : StrictWeakOrder less)
    (l : List α) :
    (List.insertionSort (fun a b => less b a = false) l).Pairwise
      (fun a b => less b a = false) := by
  haveI : IsTotal α (fun a b => less b a = false) := ⟨fun a b => h.total a b⟩
  haveI : IsTrans α (fun a b => less b a = false) :=
    ⟨fun a b c hab hbc => h.incomp c b a hbc hab⟩
  exact List.sorted_insertionSort _ l

/-- A runtime: maps are visited in the order of their entries, slices are
sorted by insertion (for up to 12 elements `sort.Slice` does just that). -/
def Runtime.insertion : Runtime where
  rangeOrder := fun _ l => l
  rangeOrder_perm := fun _ l => List.Perm.refl l
  sortSlice := fun less l => List.insertionSort (fun a b => less b a = false) l
  sortSlice_perm := fun _ l => List.perm_insertionSort _ l
  sortSlice_sorted := fun less h l => insertionSort_sorted less h l
  toLower := asciiLower

/-- A runtime: maps are visited in the reverse order of their entries, slices
are reversed and then sorted by insertion (so that ties come out reversed). -/
def Runtime.reversing : Runtime where
  rangeOrder := fun _ l => l.reverse
  rangeOrder_perm := fun _ l => List.reverse_perm l
  sortSlice := fun less l => List.insertionSort (fun a b => less b a = false) l.reverse
  sortSlice_perm := fun _ l => (List.perm_insertionSort _ l.reverse).trans (List.reverse_perm l)
  sortSlice_sorted := fun less h l => insertionSort_sorted less h l.reverse
  toLower := asciiLower

/-- Go `for k, v := range m`: the entries in the order of this execution. -/
def GoMap.range {β : Type} (rt : Runtime) (site : List String) (m : GoMap β) :
    List (String × β) :=
  rt.rangeOrder site m.entries

/-! ## Data model (`models/report.go`, `models/project_config.go`) -/

/-- Modelled from the spec: the author of a raw time entry (`models.TempoResult`
is declared in a file that is not part of the sources at hand); the spec gives a
raw entry an account id and a display name. -/
structure TempoAuthor where
  AccountId : String
  DisplayName : String
deriving DecidableEq, Repr

/-- Modelled from the spec: the issue of a raw time entry, with its key. -/
structure TempoIssue where
  Key : String
deriving DecidableEq, Repr

/-- Modelled from the spec: a raw time entry {account id, display name, issue
key, entry date, seconds spent}, with the field names `getUsers`, `getIssues`
and `getEfforts` read. -/
structure TempoResult where
  Author : TempoAuthor
  Issue : TempoIssue
  StartDate : String
  TimeSpentSeconds : GoInt64
deriving DecidableEq, Repr

structure Effort where
  Date : String
  TimeSpentSeconds : GoInt64
deriving DecidableEq, Repr

structure Issue where
  Key : String
  Efforts : List Effort
deriving DecidableEq, Repr

structure User where
  AccountId : String
  Name : String
  Position : String
  Rate : GoInt64
  Issues : List Issue
deriving DecidableEq, Repr

structure Project where
  Key : String
  DisplayName : String
  Owner : String
  Manager : String
  Users : List User
deriving DecidableEq, Repr

/-- Calendar date of a `time.Time` (the program only handles whole days). -/
structure Time where
  Year : Int
  Month : Nat
  Day : Nat
deriving DecidableEq, Repr

structure Report where
  DateFrom : Time
  DateTo : Time
  Projects : List Project
deriving DecidableEq, Repr

structure UserConfig where
  Position : String
  Rate : GoInt64
deriving DecidableEq, Repr

structure ProjectConfig where
  Key : String
  DisplayName : String
  Owner : String
  Manager : String
  UserNameToConfig : GoMap UserConfig

structure ProjectConfigWrapper where
  ProjectConfigs : List ProjectConfig

/-- `ProjectConfigWrapper.Get`: the first project config with the key, or nil. -/
def ProjectConfigWrapper.Get (s : ProjectConfigWrapper) (projectKey : String) :
    Option ProjectConfig :=
  s.ProjectConfigs.find? (fun config => decide (config.Key = projectKey))

/-! ## Aggregation (`services/report.go`) -/

/-- One iteration of the loop of `getEfforts` over the results. -/
def getEffortsStep (dateToEffort : GoMap Effort) (result : TempoResult) : GoMap Effort :=
  let date := result.StartDate
  let timeSpentSeconds :=
    match dateToEffort.get? date with
    | some effort => effort.TimeSpentSeconds + result.TimeSpentSeconds
    | none => result.TimeSpentSeconds
  dateToEffort.set date { Date := result.StartDate, TimeSpentSeconds := timeSpentSeconds }

/-- `ReportService.getEfforts`. -/
def getEfforts (rt : Runtime) (site : List String) (results : List TempoResult) :
    Except String (List Effort) :=
  let dateToEffort := results.foldl getEffortsStep GoMap.empty
  let efforts := (dateToEffort.range rt site).map (fun entry => entry.2)
  Except.ok efforts

/-- One iteration of the grouping loops of `getUsers` (by account id) and
`getIssues` (by issue key). -/
def groupStep (key : TempoResult → String) (m : GoMap (List TempoResult))
    (result : TempoResult) : GoMap (List TempoResult) :=
  match m.get? (key result) with
  | some group => m.set (key result) (group ++ [result])
  | none => m.set (key result) [result]

/-- Body of the loop of `getIssues` over the map of issue keys. -/
def getIssuesLoop (rt : Runtime) (site : List String) :
    List (String × List TempoResult) → Except String (List Issue)
  | [] => Except.ok []
  | (issueKey, results) :: rest =>
    match getEfforts rt (site ++ [issueKey]) results with
    | Except.error err => Except.error err
    | Except.ok efforts =>
      match getIssuesLoop rt site rest with
      | Except.error err => Except.error err
      | Except.ok issues => Except.ok ({ Key := issueKey, Efforts := efforts } :: issues)

/-- `ReportService.getIssues`. -/
def getIssues (rt : Runtime) (site : List String) (results : List TempoResult) :
    Except String (List Issue) :=
  let issueKeyToResults := results.foldl (groupStep (fun result => result.Issue.Key)) GoMap.empty
  getIssuesLoop rt site (issueKeyToResults.range rt site)

/-- Go `projectConfig.UserNameToConfig[name]`: the zero value when the key is absent. -/
def userConfigOf (projectConfig : ProjectConfig) (name : String) : UserConfig :=
  match projectConfig.UserNameToConfig.get? name with
  | some userConfig => userConfig
  | none => { Position := "", Rate := 0 }

/-- Body of the loop of `getUsers` over the map of account ids. -/
def getUsersLoop (rt : Runtime) (projectConfig : ProjectConfig) :
    List (String × List TempoResult) → Except String (List User)
  | [] => Except.ok []
  | (accountId, userResults) :: rest =>
    match getIssues rt [accountId] userResults with
    | Except.error err => Except.error err
    | Except.ok issues =>
      match userResults with
      | [] => Except.error "index out of range [0] with length 0"
      | first :: _ =>
        let author := first.Author
        let userConfig := userConfigOf projectConfig author.DisplayName
        let user : User :=
          { AccountId := author.AccountId
            Name := author.DisplayName
            Position := userConfig.Position
            Rate := userConfig.Rate
            Issues := issues }
        match getUsersLoop rt projectConfig rest with
        | Except.error err => Except.error err
        | Except.ok users => Except.ok (user :: users)

/-- The `less` function that `getUsers` hands to `sort.Slice`. -/
def userLess (rt : Runtime) (a b : User) : Bool :=
  stringLess (rt.toLower a.Name) (rt.toLower b.Name)

/-- `ReportService.getUsers`. -/
def getUsers (rt : Runtime) (results : List TempoResult) (projectConfig : ProjectConfig) :
    Except String (List User) :=
  let userIdToTempoResult :=
    results.foldl (groupStep (fun result => result.Author.AccountId)) GoMap.empty
  match getUsersLoop rt projectConfig (userIdToTempoResult.range rt []) with
  | Except.error err => Except.error err
  | Except.ok users => Except.ok (rt.sortSlice (userLess rt) users)

/-! ## Roster synchronisation (`services/project_config.go`) -/

/-- One iteration of the loop "actual users from report" of `updateProjectConfigs`. -/
def updateFromReport (updatedUserConfigs : GoMap UserConfig) (reportUser : User) :
    GoMap UserConfig :=
  updatedUserConfigs.set reportUser.Name
    { Position := reportUser.Position, Rate := reportUser.Rate }

/-- One iteration of the loop "missing users from config" of `updateProjectConfigs`. -/
def updateFromConfig (updatedUserConfigs : GoMap UserConfig) (entry : String × UserConfig) :
    GoMap UserConfig :=
  match updatedUserConfigs.get? entry.1 with
  | some _ => updatedUserConfigs
  | none =>
    updatedUserConfigs.set entry.1 { Position := entry.2.Position, Rate := entry.2.Rate }

/-- Body of the loop of `updateProjectConfigs` over the projects of the report. -/
def updateProjectConfig (rt : Runtime) (projectConfigWrapper : ProjectConfigWrapper)
    (reportProject : Project) : ProjectConfig :=
  let updatedUserConfigs := reportProject.Users.foldl updateFromReport GoMap.empty
  let updatedUserConfigs :=
    match projectConfigWrapper.Get reportProject.Key with
    | some projectConfig =>
      (projectConfig.UserNameToConfig.range rt [reportProject.Key]).foldl
        updateFromConfig updatedUserConfigs
    | none => updatedUserConfigs
  { Key := reportProject.Key
    DisplayName := reportProject.DisplayName
    Owner := reportProject.Owner
    Manager := reportProject.Manager
    UserNameToConfig := updatedUserConfigs }

/-- `ProjectConfigService.updateProjectConfigs`. -/
def updateProjectConfigs (rt : Runtime) (projectConfigWrapper : ProjectConfigWrapper)
    (report : Report) : ProjectConfigWrapper :=
  { ProjectConfigs := report.Projects.map (updateProjectConfig rt projectConfigWrapper) }

/-! ## Report creation (`services/report.go`, `utils/string.go`) -/

/-- Go `strings.Split(value, ",")` on the characters of `value`. -/
def splitOnComma : List Char → List (List Char)
  | [] => [[]]
  | c :: cs =>
    if c = ',' then [] :: splitOnComma cs
    else
      match splitOnComma cs with
      | [] => [[c]]
      | item :: items => (c :: item) :: items

/-- Go `strings.Trim(item, " ")`. -/
def trimSpaces (item : List Char) : List Char :=
  ((item.dropWhile (fun c => c = ' ')).reverse.dropWhile (fun c => c = ' ')).reverse

/-- `utils.ToList`. -/
def ToList (value : String) : List String :=
  (splitOnComma value.data).map (fun item => String.mk (trimSpaces item))

structure TokenTempoAppConfig where
  Token : String
  Projects : String
deriving DecidableEq, Repr

/-- The collaborators of `ReportService` that perform input and output: the
result of `ProjectConfigService.Get` (reading the roster file), of
`TempoService.GetTempoWorklogs` for a token, project key and date range, and of
`ProjectConfigService.saveProjectConfigs` (writing the roster file). -/
structure Services where
  Get : Except String ProjectConfigWrapper
  GetTempoWorklogs : String → String → Time → Time → Except String (List TempoResult)
  saveProjectConfigs : ProjectConfigWrapper → Except String Unit

/-- `ReportService.getProject`. -/
def getProject (rt : Runtime) (services : Services) (token : String)
    (projectConfig : ProjectConfig) (dateFrom dateTo : Time) : Except String Project :=
  match services.GetTempoWorklogs token projectConfig.Key dateFrom dateTo with
  | Except.error err => Except.error err
  | Except.ok tempoResults =>
    match getUsers rt tempoResults projectConfig with
    | Except.error err => Except.error err
    | Except.ok users =>
      Except.ok
        { Key := projectConfig.Key
          DisplayName := projectConfig.DisplayName
          Owner := projectConfig.Owner
          Manager := projectConfig.Manager
          Users := users }

/-- The (token, project key) pairs that the nested loops of `Create` visit, in order. -/
def projectPairs (tokens : List TokenTempoAppConfig) : List (String × String) :=
  tokens.flatMap (fun token => (ToList token.Projects).map (fun projectKey => (token.Token, projectKey)))

/-- The project config that `Create` hands to `getProject` for a project key. -/
def projectConfigFor (projectConfigWrapper : ProjectConfigWrapper) (projectKey : String) :
    ProjectConfig :=
  match projectConfigWrapper.Get projectKey with
  | some projectConfig => projectConfig
  | none =>
    { Key := projectKey, DisplayName := "", Owner := "", Manager := ""
      UserNameToConfig := GoMap.empty }

/-- Body of the loops of `Create` over the tokens and their project keys. -/
def createProjects (rt : Runtime) (services : Services)
    (projectConfigWrapper : ProjectConfigWrapper) (dateFrom dateTo : Time) :
    List (String × String) → Except String (List Project)
  | [] => Except.ok []
  | (token, projectKey) :: rest =>
    match getProject rt services token (projectConfigFor projectConfigWrapper projectKey)
        dateFrom dateTo with
    | Except.error err => Except.error err
    | Except.ok project =>
      match createProjects rt services projectConfigWrapper dateFrom dateTo rest with
      | Except.error err => Except.error err
      | Except.ok projects => Except.ok (project :: projects)

/-- What a call of `Create` leaves behind: its result, and the roster handed to
the roster writer if `ProjectConfigService.Save` was reached. -/
structure CreateOutcome where
  result : Except String Report
  saved : Option ProjectConfigWrapper

/-- `ReportService.Create` (with `ProjectConfigService.Save` inlined). -/
def Create (rt : Runtime) (services : Services) (tokens : List TokenTempoAppConfig)
    (dateFrom dateTo : Time) : CreateOutcome :=
  match services.Get with
  | Except.error err => { result := Except.error err, saved := none }
  | Except.ok projectConfigWrapper =>
    match createProjects rt services projectConfigWrapper dateFrom dateTo
        (projectPairs tokens) with
    | Except.error err => { result := Except.error err, saved := none }
    | Except.ok projects =>
      let report : Report := { DateFrom := dateFrom, DateTo := dateTo, Projects := projects }
      let updatedProjectConfigWrapper := updateProjectConfigs rt projectConfigWrapper report
      match services.saveProjectConfigs updatedProjectConfigWrapper with
      | Except.error err =>
        { result := Except.error err, saved := some updatedProjectConfigWrapper }
      | Except.ok _ => { result := Except.ok report, saved := some updatedProjectConfigWrapper }

/-! ## Colours (`services/excel.go`) -/

/-- Value of a hexadecimal digit. -/
def hexDigitValue (c : Char) : Option Nat :=
  if '0' ≤ c ∧ c ≤ '9' then some (c.toNat - '0'.toNat)
  else if 'a' ≤ c ∧ c ≤ 'f' then some (c.toNat - 'a'.toNat + 10)
  else if 'A' ≤ c ∧ c ≤ 'F' then some (c.toNat - 'A'.toNat + 10)
  else none

/-- Value of a sequence of hexadecimal digits, continuing from `acc`. -/
def parseHexDigits : List Char → Nat → Option Nat
  | [], acc => some acc
  | c :: cs, acc =>
    match hexDigitValue c with
    | some d => parseHexDigits cs (acc * 16 + d)
    | none => none

/-- Go `new(big.Int).SetString(s, 16)`: an optional sign and then hexadecimal
digits, at least one, and nothing else; `none` when `SetString` fails. -/
def setString16 (s : List Char) : Option Int :=
  match s with
  | [] => none
  | c :: cs =>
    if c = '+' then
      if cs = [] then none else (parseHexDigits cs 0).map (fun n => Int.ofNat n)
    else if c = '-' then
      if cs = [] then none else (parseHexDigits cs 0).map (fun n => -Int.ofNat n)
    else (parseHexDigits (c :: cs) 0).map (fun n => Int.ofNat n)

/-- Go `fmt.Sprintf("%x", n)` for `n ≥ 0`. -/
def formatHex (n : Nat) : List Char := Nat.toDigits 16 n

/-- `ExcelService.shadeColorPart`; `none` when `SetString` fails, which leaves
the value of `number` unspecified. -/
def shadeColorPart (colorPart : List Char) (percent : GoInt64) : Option (List Char) :=
  match setString16 colorPart with
  | none => none
  | some number =>
    let shaded := GoInt64.div (GoInt64.mul (GoInt64.ofInt number) (GoInt64.sub 100 percent)) 100
    let shaded := if shaded.val ≤ 0 then 0 else shaded
    let result := formatHex shaded.val.toNat
    let result := if result.length = 1 then '0' :: result else result
    some result

/-- `ExcelService.shadeColor`.  Go slices the bytes of `color`; on seven ASCII
characters these are the characters.  The result is `none` where Go panics (a
slice out of range) or reads an unspecified `number`: with a character that is
not ASCII among the first seven some part of the colour is no hexadecimal
number, and with fewer than seven the slices are out of range. -/
def shadeColor (color : String) (percent : GoInt64) : Option String :=
  match color.data with
  | [] => some color
  | c0 :: r1 :: r2 :: g1 :: g2 :: b1 :: b2 :: _ =>
    if [c0, r1, r2, g1, g2, b1, b2].all (fun c => decide (c.toNat < 128)) then
      match shadeColorPart [r1, r2] percent, shadeColorPart [g1, g2] percent,
        shadeColorPart [b1, b2] percent with
      | some r, some g, some b => some (String.mk ('#' :: (r ++ g ++ b)))
      | _, _, _ => none
    else none
  | _ => none

/-- The list of hardcoded colors for projects in report. -/
def projectColors : List String := ["#46bdc6", "#92d050", "#b6d7a8", "#d9ead3"]

/-- One iteration of the first loop of `getProjectKeyToColor`, on the state
`(managerToColor, colorIndex)`. -/
def assignManagerColor (state : GoMap String × Nat) (project : Project) : GoMap String × Nat :=
  if project.Manager.data = [] then state
  else
    match state.1.get? project.Manager with
    | some _ => state
    | none =>
      let managerToColor := state.1.set project.Manager (projectColors.getD state.2 "")
      let colorIndex := state.2 + 1
      (managerToColor, if colorIndex ≥ projectColors.length then 0 else colorIndex)

/-- One iteration of the second loop of `getProjectKeyToColor`. -/
def assignProjectColor (managerToColor : GoMap String) (projectKeyToColor : GoMap String)
    (project : Project) : GoMap String :=
  match managerToColor.get? project.Manager with
  | some color => projectKeyToColor.set project.Key color
  | none => projectKeyToColor

/-- `ExcelService.getProjectKeyToColor`. -/
def getProjectKeyToColor (projects : List Project) : GoMap String :=
  let managerToColor := (projects.foldl assignManagerColor (GoMap.empty, 0)).1
  projects.foldl (assignProjectColor managerToColor) GoMap.empty

/-! ## Lemmas on maps and on the aggregation -/

theorem lookupEntries_eq_none {β : Type} (l : List (String × β)) (k : String) :
    lookupEntries l k = none ↔ k ∉ l.map Prod.fst := by
  induction l with
  | nil => simp [lookupEntries]
  | cons p rest ih =>
    obtain ⟨k', v⟩ := p
    by_cases h : k' = k
    · simp [lookupEntries, h]
    · have h' : ¬ k = k' := fun e => h e.symm
      simp [lookupEntries, h, h', ih]

theorem filter_key_entries {β : Type} (l : List (String × β)) (h : (l.map Prod.fst).Nodup)
    (k : String) :
    l.filter (fun kv => decide (kv.1 = k)) = (lookupEntries l k).toList.map (fun v => (k, v)) := by
  induction l with
  | nil => simp [lookupEntries]
  | cons p rest ih =>
    obtain ⟨k', v⟩ := p
    simp only [List.map_cons, List.nodup_cons] at h
    by_cases hk : k' = k
    · subst hk
      have hnone : rest.filter (fun kv => decide (kv.1 = k')) = [] := by
        rw [List.filter_eq_nil_iff]
        intro kv hkv
        simp only [decide_eq_true_eq]
        intro e
        exact h.1 (e ▸ List.mem_map_of_mem Prod.fst hkv)
      simp [lookupEntries, List.filter_cons, hnone]
    · simp [lookupEntries, List.filter_cons, hk, ih h.2]

theorem mem_iff_lookupEntries {β : Type} (l : List (String × β)) (h : (l.map Prod.fst).Nodup)
    (k : String) (v : β) : (k, v) ∈ l ↔ lookupEntries l k = some v := by
  have hf := filter_key_entries l h k
  constructor
  · intro hm
    have : (k, v) ∈ l.filter (fun kv => decide (kv.1 = k)) := by
      simp [List.mem_filter, hm]
    rw [hf] at this
    cases hl : lookupEntries l k with
    | none => simp [hl] at this
    | some w => simp [hl] at this; rw [this]
  · intro hl
    have : (k, v) ∈ l.filter (fun kv => decide (kv.1 = k)) := by
      rw [hf, hl]; simp
    exact (List.mem_filter.mp this).1

theorem GoMap.mem_entries_iff {β : Type} (m : GoMap β) (k : String) (v : β) :
    (k, v) ∈ m.entries ↔ m.get? k = some v :=
  mem_iff_lookupEntries m.entries m.nodup k v

theorem GoMap.mem_range_iff {β : Type} (rt : Runtime) (site : List String) (m : GoMap β)
    (kv : String × β) : kv ∈ m.range rt site ↔ m.get? kv.1 = some kv.2 := by
  unfold GoMap.range
  rw [(rt.rangeOrder_perm site m.entries).mem_iff]
  exact m.mem_entries_iff kv.1 kv.2

/-- Selecting from the values produced by a `range` over a map those that
belong to one key yields the value of that key, if any, and nothing else. -/
theorem GoMap.filter_range {β γ : Type} (rt : Runtime) (site : List String) (m : GoMap β)
    (f : String × β → γ) (p : γ → Bool) (k : String)
    (hp : ∀ kv ∈ m.entries, p (f kv) = decide (kv.1 = k)) :
    ((m.range rt site).map f).filter p = (m.get? k).toList.map (fun v => f (k, v)) := by
  have hperm : (((m.range rt site).map f).filter p).Perm ((m.entries.map f).filter p) :=
    ((rt.rangeOrder_perm site m.entries).map f).filter p
  have heq : (m.entries.map f).filter p = (m.get? k).toList.map (fun v => f (k, v)) := by
    rw [List.filter_map]
    have : m.entries.filter (p ∘ f) = m.entries.filter (fun kv => decide (kv.1 = k)) :=
      List.filter_congr (fun kv hkv => by simp [hp kv hkv])
    rw [this, filter_key_entries m.entries m.nodup k, List.map_map]
    rfl
  rw [heq] at hperm
  cases hg : m.get? k with
  | none =>
    rw [hg] at hperm
    simpa using hperm
  | some v =>
    rw [hg] at hperm
    simpa using hperm


/-- The entries of `l` whose key is `k`, in their order. -/
def withKey (key : TempoResult → String) (k : String) (l : List TempoResult) :
    List TempoResult :=
  l.filter (fun r => decide (key r = k))

theorem get?_groupFold (key : TempoResult → String) (l : List TempoResult)
    (acc : GoMap (List TempoResult)) (k : String) :
    (l.foldl (groupStep key) acc).get? k =
      match acc.get? k with
      | some g => some (g ++ withKey key k l)
      | none => if withKey key k l = [] then none else some (withKey key k l) := by
  induction l generalizing acc with
  | nil => cases h : acc.get? k <;> simp [withKey, h]
  | cons r rest ih =>
    rw [List.foldl_cons, ih]
    by_cases hk : key r = k
    · subst hk
      cases h : acc.get? (key r) with
      | none => simp [groupStep, h, GoMap.get?_set, withKey, List.filter_cons]
      | some g => simp [groupStep, h, GoMap.get?_set, withKey, List.filter_cons]
    · have hstep : (groupStep key acc r).get? k = acc.get? k := by
        unfold groupStep
        cases acc.get? (key r) <;> simp [GoMap.get?_set, hk]
      rw [hstep]
      simp [withKey, List.filter_cons, hk]

theorem get?_group (key : TempoResult → String) (l : List TempoResult) (k : String) :
    (l.foldl (groupStep key) GoMap.empty).get? k =
      if withKey key k l = [] then none else some (withKey key k l) := by
  rw [get?_groupFold, GoMap.get?_empty]

/-- Seconds held by an optional effort. -/
def secondsOf : Option Effort → GoInt64
  | some e => e.TimeSpentSeconds
  | none => 0

theorem get?_effortsFold (l : List TempoResult) (acc : GoMap Effort) (d : String) :
    (l.foldl getEffortsStep acc).get? d =
      if withKey (fun r => r.StartDate) d l = [] then acc.get? d
      else some { Date := d,
                  TimeSpentSeconds := secondsOf (acc.get? d) +
                    ((withKey (fun r => r.StartDate) d l).map (fun r => r.TimeSpentSeconds)).sum } := by
  induction l generalizing acc with
  | nil => simp [withKey]
  | cons r rest ih =>
    rw [List.foldl_cons, ih]
    by_cases hk : r.StartDate = d
    · subst hk
      have hstep : (getEffortsStep acc r).get? r.StartDate =
          some { Date := r.StartDate,
                 TimeSpentSeconds := secondsOf (acc.get? r.StartDate) + r.TimeSpentSeconds } := by
        unfold getEffortsStep
        cases h : acc.get? r.StartDate <;> simp [GoMap.get?_set, secondsOf, h]
      rw [hstep]
      by_cases hr : withKey (fun r => r.StartDate) r.StartDate rest = []
      · simp only [withKey, List.filter_cons, decide_True, if_true] at hr ⊢
        simp [hr, secondsOf]
      · simp only [withKey, List.filter_cons, decide_True, if_true] at hr ⊢
        simp [hr, secondsOf, add_assoc]
    · have hstep : (getEffortsStep acc r).get? d = acc.get? d := by
        unfold getEffortsStep
        simp [GoMap.get?_set, hk]
      rw [hstep]
      simp [withKey, List.filter_cons, hk]

theorem get?_efforts (l : List TempoResult) (d : String) :
    (l.foldl getEffortsStep GoMap.empty).get? d =
      if withKey (fun r => r.StartDate) d l = [] then none
      else some { Date := d,
                  TimeSpentSeconds :=
                    ((withKey (fun r => r.StartDate) d l).map (fun r => r.TimeSpentSeconds)).sum } := by
  rw [get?_effortsFold, GoMap.get?_empty]
  simp [secondsOf]


theorem GoInt64.val_sum (l : List GoInt64) :
    (l.sum).val = wrapInt64 ((l.map (fun x => x.val)).sum) := by
  induction l with
  | nil => rfl
  | cons a rest ih =>
    rw [List.sum_cons, GoInt64.val_add, ih, wrapInt64_add_wrap, List.map_cons, List.sum_cons]

theorem GoInt64.val_sum_of_fits (l : List GoInt64)
    (h₁ : -9223372036854775808 ≤ (l.map (fun x => x.val)).sum)
    (h₂ : (l.map (fun x => x.val)).sum < 9223372036854775808) :
    (l.sum).val = (l.map (fun x => x.val)).sum := by
  rw [GoInt64.val_sum, wrapInt64_of_fits _ h₁ h₂]

/-- The efforts that `getEfforts` returns. -/
def effortsList (rt : Runtime) (site : List String) (results : List TempoResult) : List Effort :=
  ((results.foldl getEffortsStep GoMap.empty).range rt site).map (fun entry => entry.2)

theorem getEfforts_eq (rt : Runtime) (site : List String) (results : List TempoResult) :
    getEfforts rt site results = Except.ok (effortsList rt site results) := rfl

theorem effortsList_filter (rt : Runtime) (site : List String) (results : List TempoResult)
    (d : String) :
    (effortsList rt site results).filter (fun e => decide (e.Date = d)) =
      if withKey (fun r => r.StartDate) d results = [] then []
      else [{ Date := d,
              TimeSpentSeconds :=
                ((withKey (fun r => r.StartDate) d results).map (fun r => r.TimeSpentSeconds)).sum }] := by
  unfold effortsList
  rw [GoMap.filter_range rt site _ (fun entry : String × Effort => entry.2)
    (fun e : Effort => decide (e.Date = d)) d]
  · rw [get?_efforts]
    split <;> simp
  · intro kv hkv
    have h := (GoMap.mem_entries_iff _ kv.1 kv.2).mp hkv
    rw [get?_efforts] at h
    split at h
    · cases h
    · simp only [Option.some.injEq] at h
      rw [← h]

/-- The issue that `getIssues` builds from an entry of its map. -/
def issueOf (rt : Runtime) (site : List String) (kv : String × List TempoResult) : Issue :=
  { Key := kv.1, Efforts := effortsList rt (site ++ [kv.1]) kv.2 }

theorem getIssuesLoop_eq (rt : Runtime) (site : List String)
    (l : List (String × List TempoResult)) :
    getIssuesLoop rt site l = Except.ok (l.map (issueOf rt site)) := by
  induction l with
  | nil => rfl
  | cons kv rest ih =>
    obtain ⟨k, rs⟩ := kv
    simp only [getIssuesLoop, getEfforts_eq, ih, List.map_cons, issueOf]

/-- The issues that `getIssues` returns. -/
def issuesList (rt : Runtime) (site : List String) (results : List TempoResult) : List Issue :=
  ((results.foldl (groupStep (fun result => result.Issue.Key)) GoMap.empty).range rt site).map
    (issueOf rt site)

theorem getIssues_eq (rt : Runtime) (site : List String) (results : List TempoResult) :
    getIssues rt site results = Except.ok (issuesList rt site results) :=
  getIssuesLoop_eq rt site _

theorem issuesList_filter (rt : Runtime) (site : List String) (results : List TempoResult)
    (k : String) :
    (issuesList rt site results).filter (fun i => decide (i.Key = k)) =
      if withKey (fun r => r.Issue.Key) k results = [] then []
      else [{ Key := k,
              Efforts := effortsList rt (site ++ [k]) (withKey (fun r => r.Issue.Key) k results) }] := by
  unfold issuesList
  rw [GoMap.filter_range rt site _ (issueOf rt site) (fun i : Issue => decide (i.Key = k)) k]
  · rw [get?_group]
    split <;> simp [issueOf]
  · intro kv _
    rfl


/-- The user that `getUsers` builds from an entry of its map whose first result is `first`. -/
def userOf (rt : Runtime) (projectConfig : ProjectConfig) (accountId : String)
    (userResults : List TempoResult) (first : TempoResult) : User :=
  { AccountId := first.Author.AccountId
    Name := first.Author.DisplayName
    Position := (userConfigOf projectConfig first.Author.DisplayName).Position
    Rate := (userConfigOf projectConfig first.Author.DisplayName).Rate
    Issues := issuesList rt [accountId] userResults }

/-- On groups that are not empty the loop of `getUsers` fails nowhere; every user
it builds comes from one group and its first result. -/
theorem getUsersLoop_ok (rt : Runtime) (projectConfig : ProjectConfig)
    (l : List (String × List TempoResult)) (hne : ∀ kv ∈ l, kv.2 ≠ []) :
    ∃ users, getUsersLoop rt projectConfig l = Except.ok users ∧
      List.Forall₂ (fun kv u => ∃ first rest, kv.2 = first :: rest ∧
        u = userOf rt projectConfig kv.1 kv.2 first) l users := by
  induction l with
  | nil => exact ⟨[], rfl, List.Forall₂.nil⟩
  | cons kv rest ih =>
    obtain ⟨k, rs⟩ := kv
    obtain ⟨users, hu, hall⟩ := ih (fun kv hkv => hne kv (List.mem_cons_of_mem _ hkv))
    cases rs with
    | nil => exact absurd rfl (hne (k, []) (List.mem_cons_self _ _))
    | cons first more =>
      refine ⟨userOf rt projectConfig k (first :: more) first :: users, ?_, ?_⟩
      · simp only [getUsersLoop, getIssues_eq, hu, userOf]
      · exact List.Forall₂.cons ⟨first, more, rfl, rfl⟩ hall

theorem forall₂_mem_right {α β : Type} {R : α → β → Prop} {l : List α} {u : List β}
    (h : List.Forall₂ R l u) : ∀ b ∈ u, ∃ a ∈ l, R a b := by
  induction h with
  | nil => intro b hb; cases hb
  | cons hr _ ih =>
    intro b hb
    rcases List.mem_cons.mp hb with rfl | hb'
    · exact ⟨_, List.mem_cons_self _ _, hr⟩
    · obtain ⟨a, ha, hab⟩ := ih b hb'
      exact ⟨a, List.mem_cons_of_mem _ ha, hab⟩

theorem forall₂_mem_left {α β : Type} {R : α → β → Prop} {l : List α} {u : List β}
    (h : List.Forall₂ R l u) : ∀ a ∈ l, ∃ b ∈ u, R a b := by
  induction h with
  | nil => intro a ha; cases ha
  | cons hr _ ih =>
    intro a ha
    rcases List.mem_cons.mp ha with rfl | ha'
    · exact ⟨_, List.mem_cons_self _ _, hr⟩
    · obtain ⟨b, hb, hab⟩ := ih a ha'
      exact ⟨b, List.mem_cons_of_mem _ hb, hab⟩

/-- The groups by account id are the non-empty lists of the results of an account. -/
theorem userGroups (rt : Runtime) (results : List TempoResult) :
    ∀ kv ∈ (results.foldl (groupStep (fun r => r.Author.AccountId)) GoMap.empty).range rt [],
      kv.2 = withKey (fun r => r.Author.AccountId) kv.1 results ∧ kv.2 ≠ [] := by
  intro kv hkv
  have h := (GoMap.mem_range_iff rt [] _ kv).mp hkv
  rw [get?_group] at h
  split at h
  · cases h
  · rename_i hne
    simp only [Option.some.injEq] at h
    exact ⟨h.symm, h ▸ hne⟩

/-- The result of `getUsers` is the sorted list of the users built from the groups. -/
theorem getUsers_eq_sort (rt : Runtime) (results : List TempoResult)
    (projectConfig : ProjectConfig) :
    ∃ unsorted, getUsers rt results projectConfig =
        Except.ok (rt.sortSlice (userLess rt) unsorted) ∧
      List.Forall₂ (fun kv u => ∃ first rest, kv.2 = first :: rest ∧
        u = userOf rt projectConfig kv.1 kv.2 first)
        ((results.foldl (groupStep (fun r => r.Author.AccountId)) GoMap.empty).range rt [])
        unsorted := by
  obtain ⟨users, hu, hall⟩ :=
    getUsersLoop_ok rt projectConfig _ (fun kv hkv => (userGroups rt results kv hkv).2)
  exact ⟨users, by simp only [getUsers, hu], hall⟩

/-- Every user of the result of `getUsers` is built from the results of one
account id, which is the user's. -/
theorem getUsers_ok (rt : Runtime) (results : List TempoResult) (projectConfig : ProjectConfig) :
    ∃ users, getUsers rt results projectConfig = Except.ok users ∧
      ∀ u ∈ users, ∃ first rest,
        withKey (fun r => r.Author.AccountId) u.AccountId results = first :: rest ∧
        u = userOf rt projectConfig u.AccountId
              (withKey (fun r => r.Author.AccountId) u.AccountId results) first := by
  obtain ⟨users, hu, hall⟩ := getUsers_eq_sort rt results projectConfig
  refine ⟨rt.sortSlice (userLess rt) users, hu, ?_⟩
  intro u hmem
  have hmem' : u ∈ users := (rt.sortSlice_perm (userLess rt) users).mem_iff.mp hmem
  obtain ⟨kv, hkv, first, rest, hfirst, hueq⟩ := forall₂_mem_right hall u hmem'
  obtain ⟨hgroup, _⟩ := userGroups rt results kv hkv
  have hacc : u.AccountId = kv.1 := by
    have hin : first ∈ withKey (fun r => r.Author.AccountId) kv.1 results := by
      rw [← hgroup, hfirst]; exact List.mem_cons_self _ _
    have := (List.mem_filter.mp hin).2
    rw [hueq]
    simpa [userOf] using this
  rw [hacc]
  refine ⟨first, rest, ?_, ?_⟩
  · rw [← hgroup, hfirst]
  · rw [← hgroup]; exact hueq

theorem userLess_strictWeakOrder (rt : Runtime) : StrictWeakOrder (userLess rt) where
  irrefl a := by
    unfold userLess
    rw [stringLess_eq_false_iff]
  trans a b c hab hbc := by
    unfold userLess at *
    rw [stringLess_iff] at *
    exact lt_trans hab hbc
  incomp a b c hab hbc := by
    unfold userLess at *
    rw [stringLess_eq_false_iff] at *
    exact le_trans hbc hab

/-! ## Aggregation: claims -/

/-- The efforts of a user recorded for an issue key and a date, over all issues. -/
def effortsAt (u : User) (issueKey date : String) : List Effort :=
  (u.Issues.filter (fun i => decide (i.Key = issueKey))).flatMap
    (fun i => i.Efforts.filter (fun e => decide (e.Date = date)))

/-- The input entries of an account for an issue key and a date. -/
def entriesOf (results : List TempoResult) (accountId issueKey date : String) :
    List TempoResult :=
  results.filter (fun r => decide (r.Author.AccountId = accountId ∧ r.Issue.Key = issueKey ∧
    r.StartDate = date))

theorem entriesOf_eq (results : List TempoResult) (accountId issueKey date : String) :
    entriesOf results accountId issueKey date =
      withKey (fun r => r.StartDate) date (withKey (fun r => r.Issue.Key) issueKey
        (withKey (fun r => r.Author.AccountId) accountId results)) := by
  unfold entriesOf withKey
  rw [List.filter_filter, List.filter_filter]
  apply List.filter_congr
  intro r _
  simp only [Bool.decide_and, Bool.and_comm, Bool.and_assoc]

/-- Sum of the seconds of a list of entries, computed in Go's `int`. -/
def sumSeconds (l : List TempoResult) : GoInt64 :=
  (l.map (fun r => r.TimeSpentSeconds)).sum

/-- Sum of the seconds of a list of entries, as an integer. -/
def exactSeconds (l : List TempoResult) : Int :=
  (l.map (fun r => r.TimeSpentSeconds.val)).sum

theorem sumSeconds_val_of_fits (l : List TempoResult)
    (h₁ : -9223372036854775808 ≤ exactSeconds l) (h₂ : exactSeconds l < 9223372036854775808) :
    (sumSeconds l).val = exactSeconds l := by
  have := GoInt64.val_sum_of_fits (l.map (fun r => r.TimeSpentSeconds))
  simp only [List.map_map] at this
  exact this h₁ h₂

/-- C1. For every list of raw entries `getUsers` returns users, and for every
returned user and every issue key and date: when the account has input entries
with that issue key and date, the user's issues hold exactly one effort for the
pair, whose seconds are the sum (in Go's `int`) of the seconds of those entries;
when it has none, the pair does not occur.  The sum in `int` is the exact sum of
the integers whenever that fits in 64 bits. -/
theorem getUsers_efforts_sum (rt : Runtime) (results : List TempoResult)
    (projectConfig : ProjectConfig) :
    ∃ users, getUsers rt results projectConfig = Except.ok users ∧
      ∀ u ∈ users, ∀ issueKey date : String,
        effortsAt u issueKey date =
          (if entriesOf results u.AccountId issueKey date = [] then []
           else [{ Date := date,
                   TimeSpentSeconds := sumSeconds (entriesOf results u.AccountId issueKey date) }]) ∧
        (-9223372036854775808 ≤ exactSeconds (entriesOf results u.AccountId issueKey date) →
          exactSeconds (entriesOf results u.AccountId issueKey date) < 9223372036854775808 →
          (sumSeconds (entriesOf results u.AccountId issueKey date)).val =
            exactSeconds (entriesOf results u.AccountId issueKey date)) := by
  obtain ⟨users, hok, hall⟩ := getUsers_ok rt results projectConfig
  refine ⟨users, hok, ?_⟩
  intro u hu issueKey date
  refine ⟨?_, sumSeconds_val_of_fits _⟩
  obtain ⟨first, rest, hgroup, hueq⟩ := hall u hu
  have hissues : u.Issues = issuesList rt [u.AccountId]
      (withKey (fun r => r.Author.AccountId) u.AccountId results) := by
    have := congrArg User.Issues hueq
    simpa only [userOf] using this
  rw [entriesOf_eq]
  unfold effortsAt sumSeconds
  rw [hissues, issuesList_filter]
  by_cases h1 : withKey (fun r => r.Issue.Key) issueKey
      (withKey (fun r => r.Author.AccountId) u.AccountId results) = []
  · rw [if_pos h1, h1]
    simp [withKey]
  · simp only [h1, if_false, List.flatMap_cons, List.flatMap_nil, List.append_nil]
    rw [effortsList_filter]

/-- C2. For every list of raw entries, whatever their order, `getUsers` returns
users and the list is ordered by lower-cased display name: for every adjacent
pair, lower(name of the first) ≤ lower(name of the second) (and so for every
pair of an earlier and a later user). -/
theorem getUsers_sorted_by_lower_name (rt : Runtime) (results : List TempoResult)
    (projectConfig : ProjectConfig) :
    ∃ users, getUsers rt results projectConfig = Except.ok users ∧
      List.Chain' (fun a b => rt.toLower a.Name ≤ rt.toLower b.Name) users ∧
      List.Pairwise (fun a b => rt.toLower a.Name ≤ rt.toLower b.Name) users := by
  obtain ⟨unsorted, hu, _⟩ := getUsers_eq_sort rt results projectConfig
  have hsorted := rt.sortSlice_sorted (userLess rt) (userLess_strictWeakOrder rt) unsorted
  have hpair : List.Pairwise (fun a b => rt.toLower a.Name ≤ rt.toLower b.Name)
      (rt.sortSlice (userLess rt) unsorted) := by
    refine hsorted.imp ?_
    intro a b h
    exact (stringLess_eq_false_iff _ _).mp h
  exact ⟨_, hu, hpair.chain', hpair⟩

/-- C5. For every list of raw entries `getUsers` returns no error, and every user
it builds has the position and rate of the entry of the project config keyed by
the user's display name; when the config has no such entry (an absent user map
included) the user has position "" and rate 0. -/
theorem getUsers_position_rate (rt : Runtime) (results : List TempoResult)
    (projectConfig : ProjectConfig) :
    ∃ users, getUsers rt results projectConfig = Except.ok users ∧
      ∀ u ∈ users,
        match projectConfig.UserNameToConfig.get? u.Name with
        | some userConfig => u.Position = userConfig.Position ∧ u.Rate = userConfig.Rate
        | none => u.Position = "" ∧ u.Rate = 0 := by
  obtain ⟨users, hok, hall⟩ := getUsers_ok rt results projectConfig
  refine ⟨users, hok, ?_⟩
  intro u hu
  obtain ⟨first, rest, _, hueq⟩ := hall u hu
  have hname : u.Name = first.Author.DisplayName := by rw [hueq]; rfl
  have hpos : u.Position = (userConfigOf projectConfig u.Name).Position := by
    rw [hname, hueq]; rfl
  have hrate : u.Rate = (userConfigOf projectConfig u.Name).Rate := by
    rw [hname, hueq]; rfl
  unfold userConfigOf at hpos hrate
  cases h : projectConfig.UserNameToConfig.get? u.Name with
  | none => rw [h] at hpos hrate; exact ⟨hpos, hrate⟩
  | some c => rw [h] at hpos hrate; exact ⟨hpos, hrate⟩

/-! ### Sample run of the aggregation -/

/-- A raw time entry. -/
def sampleEntry (accountId name issueKey date : String) (seconds : GoInt64) : TempoResult :=
  { Author := { AccountId := accountId, DisplayName := name }
    Issue := { Key := issueKey }
    StartDate := date
    TimeSpentSeconds := seconds }

/-- Raw entries: two accounts, a duplicated (issue, date) pair, no particular order. -/
def sampleResults : List TempoResult :=
  [sampleEntry "u1" "bob" "ABC-1" "2024-03-05" 3600,
   sampleEntry "u2" "Alice" "ABC-1" "2024-03-05" 60,
   sampleEntry "u1" "bob" "ABC-1" "2024-03-05" 1800,
   sampleEntry "u1" "bob" "ABC-2" "2024-03-06" 7200]

/-- A project config whose roster knows "bob" only. -/
def sampleConfig : ProjectConfig :=
  { Key := "ABC", DisplayName := "Alphabet", Owner := "Olga", Manager := "Mia"
    UserNameToConfig := GoMap.empty.set "bob" { Position := "dev", Rate := 40 } }

def sampleAlice : User :=
  { AccountId := "u2", Name := "Alice", Position := "", Rate := 0
    Issues := [{ Key := "ABC-1", Efforts := [{ Date := "2024-03-05", TimeSpentSeconds := 60 }] }] }

def sampleBob : User :=
  { AccountId := "u1", Name := "bob", Position := "dev", Rate := 40
    Issues := [{ Key := "ABC-1", Efforts := [{ Date := "2024-03-05", TimeSpentSeconds := 5400 }] },
               { Key := "ABC-2", Efforts := [{ Date := "2024-03-06", TimeSpentSeconds := 7200 }] }] }

theorem sample_getUsers :
    getUsers Runtime.insertion sampleResults sampleConfig = Except.ok [sampleAlice, sampleBob] := by
  decide

theorem getUsers_efforts_sum_witness :
    effortsAt sampleBob "ABC-1" "2024-03-05" =
        [{ Date := "2024-03-05", TimeSpentSeconds := 5400 }] ∧
      effortsAt sampleBob "ABC-1" "2024-03-06" = [] := by
  obtain ⟨users, hok, h⟩ := getUsers_efforts_sum Runtime.insertion sampleResults sampleConfig
  rw [sample_getUsers] at hok
  cases hok
  refine ⟨?_, ?_⟩
  · rw [(h sampleBob (by decide) "ABC-1" "2024-03-05").1]; decide
  · rw [(h sampleBob (by decide) "ABC-1" "2024-03-06").1]; decide

theorem getUsers_sorted_by_lower_name_witness :
    List.Chain' (fun a b : User => asciiLower a.Name ≤ asciiLower b.Name)
      [sampleAlice, sampleBob] := by
  obtain ⟨users, hok, h, _⟩ :=
    getUsers_sorted_by_lower_name Runtime.insertion sampleResults sampleConfig
  rw [sample_getUsers] at hok
  cases hok
  exact h

theorem getUsers_position_rate_witness :
    (sampleBob.Position = "dev" ∧ sampleBob.Rate = 40) ∧
      (sampleAlice.Position = "" ∧ sampleAlice.Rate = 0) := by
  obtain ⟨users, hok, h⟩ := getUsers_position_rate Runtime.insertion sampleResults sampleConfig
  rw [sample_getUsers] at hok
  cases hok
  exact ⟨h sampleBob (by decide), h sampleAlice (by decide)⟩

/-! ## Roster synchronisation: claims -/

theorem lookupEntries_perm {β : Type} {l₁ l₂ : List (String × β)} (h : l₁.Perm l₂)
    (nd : (l₂.map Prod.fst).Nodup) (k : String) : lookupEntries l₁ k = lookupEntries l₂ k := by
  have nd₁ : (l₁.map Prod.fst).Nodup := (h.map Prod.fst).nodup_iff.mpr nd
  cases h₁ : lookupEntries l₁ k with
  | none =>
    have : k ∉ l₂.map Prod.fst := by
      rw [← (h.map Prod.fst).mem_iff]
      exact (lookupEntries_eq_none l₁ k).mp h₁
    exact ((lookupEntries_eq_none l₂ k).mpr this).symm
  | some v =>
    have : (k, v) ∈ l₂ := h.mem_iff.mp ((mem_iff_lookupEntries l₁ nd₁ k v).mpr h₁)
    exact ((mem_iff_lookupEntries l₂ nd k v).mp this).symm

theorem get?_updateFromReport (users : List User) (acc : GoMap UserConfig) (name : String) :
    (∀ u ∈ users, u.Name ≠ name) →
      (users.foldl updateFromReport acc).get? name = acc.get? name := by
  induction users generalizing acc with
  | nil => intro _; rfl
  | cons u rest ih =>
    intro h
    rw [List.foldl_cons, ih _ (fun v hv => h v (List.mem_cons_of_mem _ hv))]
    unfold updateFromReport
    rw [GoMap.get?_set, if_neg (h u (List.mem_cons_self _ _))]

theorem get?_updateFromReport_agree (users : List User) (acc : GoMap UserConfig)
    (name : String) (c : UserConfig)
    (hc : ∀ u ∈ users, u.Name = name → c = { Position := u.Position, Rate := u.Rate }) :
    (users.foldl updateFromReport acc).get? name =
      if ∃ u ∈ users, u.Name = name then some c else acc.get? name := by
  induction users generalizing acc with
  | nil => simp
  | cons u rest ih =>
    rw [List.foldl_cons, ih _ (fun v hv => hc v (List.mem_cons_of_mem _ hv))]
    by_cases hr : ∃ v ∈ rest, v.Name = name
    · have : ∃ v ∈ u :: rest, v.Name = name := by
        obtain ⟨v, hv, hn⟩ := hr
        exact ⟨v, List.mem_cons_of_mem _ hv, hn⟩
      rw [if_pos hr, if_pos this]
    · rw [if_neg hr]
      unfold updateFromReport
      rw [GoMap.get?_set]
      by_cases hu : u.Name = name
      · rw [if_pos hu, if_pos ⟨u, List.mem_cons_self _ _, hu⟩, hc u (List.mem_cons_self _ _) hu]
      · rw [if_neg hu, if_neg]
        rintro ⟨v, hv, hn⟩
        rcases List.mem_cons.mp hv with rfl | hv'
        · exact hu hn
        · exact hr ⟨v, hv', hn⟩

theorem get?_updateFromConfig (entries : List (String × UserConfig)) (acc : GoMap UserConfig)
    (name : String) :
    (entries.foldl updateFromConfig acc).get? name =
      match acc.get? name with
      | some c => some c
      | none => lookupEntries entries name := by
  induction entries generalizing acc with
  | nil => cases h : acc.get? name <;> simp [lookupEntries, h]
  | cons e rest ih =>
    obtain ⟨k, c⟩ := e
    rw [List.foldl_cons, ih]
    unfold updateFromConfig
    cases hk : acc.get? k with
    | some c' =>
      simp only []
      cases hn : acc.get? name with
      | some c'' => rfl
      | none =>
        have : k ≠ name := by
          intro e; rw [e, hn] at hk; cases hk
        simp [lookupEntries, this]
    | none =>
      simp only [GoMap.get?_set]
      by_cases hkn : k = name
      · subst hkn
        simp [lookupEntries, hk]
      · simp only [if_neg hkn, lookupEntries]

/-- The user map of an updated project config: the users of the report first,
the others from the existing roster. -/
theorem get?_updateProjectConfig (rt : Runtime) (wrapper : ProjectConfigWrapper) (p : Project)
    (name : String) :
    (updateProjectConfig rt wrapper p).UserNameToConfig.get? name =
      match (p.Users.foldl updateFromReport GoMap.empty).get? name with
      | some c => some c
      | none =>
        match wrapper.Get p.Key with
        | some existing => existing.UserNameToConfig.get? name
        | none => none := by
  unfold updateProjectConfig
  cases hg : wrapper.Get p.Key with
  | none => simp only []; cases (p.Users.foldl updateFromReport GoMap.empty).get? name <;> rfl
  | some existing =>
    simp only []
    rw [get?_updateFromConfig]
    cases (p.Users.foldl updateFromReport GoMap.empty).get? name with
    | some c => rfl
    | none =>
      simp only []
      exact lookupEntries_perm (rt.rangeOrder_perm _ _) existing.UserNameToConfig.nodup name

theorem eq_of_mem_zip_self {α : Type} (l : List α) (a b : α) (h : (a, b) ∈ l.zip l) :
    a = b ∧ a ∈ l := by
  induction l with
  | nil => simp at h
  | cons x rest ih =>
    simp only [List.zip_cons_cons, List.mem_cons, Prod.mk.injEq] at h
    rcases h with ⟨rfl, rfl⟩ | h
    · exact ⟨rfl, List.mem_cons_self _ _⟩
    · exact ⟨(ih h).1, List.mem_cons_of_mem _ (ih h).2⟩

/-- The updated roster pairs each project of the report, in order, with the
project config built from it. -/
theorem mem_zip_update (rt : Runtime) (wrapper : ProjectConfigWrapper) (report : Report)
    (pc : ProjectConfig) (p : Project)
    (h : (pc, p) ∈ (updateProjectConfigs rt wrapper report).ProjectConfigs.zip report.Projects) :
    pc = updateProjectConfig rt wrapper p ∧ p ∈ report.Projects := by
  unfold updateProjectConfigs at h
  simp only [] at h
  rw [List.zip_map_left] at h
  obtain ⟨⟨a, b⟩, hab, he⟩ := List.mem_map.mp h
  obtain ⟨hzip, hmem⟩ := eq_of_mem_zip_self report.Projects a b hab
  simp only [Prod.map, id, Prod.mk.injEq] at he
  subst hzip
  obtain ⟨h1, h2⟩ := he
  subst h2
  exact ⟨h1.symm, hmem⟩

/-- C3. For every existing roster and report, and every project of the report
(taken with the project config that `updateProjectConfigs` produces for it) that
has an entry in the existing roster: a user name that the existing roster holds
for the project and that no user of the project in the report carries is in the
produced roster with exactly its prior position and rate. -/
theorem updateProjectConfigs_keeps_missing_users (rt : Runtime)
    (projectConfigWrapper : ProjectConfigWrapper) (report : Report)
    (updated : ProjectConfig) (reportProject : Project)
    (hpair : (updated, reportProject) ∈
      (updateProjectConfigs rt projectConfigWrapper report).ProjectConfigs.zip report.Projects)
    (existing : ProjectConfig)
    (hexisting : projectConfigWrapper.Get reportProject.Key = some existing)
    (userName : String) (prior : UserConfig)
    (hprior : existing.UserNameToConfig.get? userName = some prior)
    (habsent : ∀ u ∈ reportProject.Users, u.Name ≠ userName) :
    updated.UserNameToConfig.get? userName = some prior := by
  obtain ⟨hupd, _⟩ := mem_zip_update rt projectConfigWrapper report updated reportProject hpair
  rw [hupd, get?_updateProjectConfig, get?_updateFromReport _ _ _ habsent, GoMap.get?_empty,
    hexisting]
  exact hprior

/-! ### Sample run of the roster synchronisation -/

/-- An existing roster: project "ABC" with the users "bob" and "Zed". -/
def sampleRoster : ProjectConfigWrapper :=
  { ProjectConfigs :=
      [{ Key := "ABC", DisplayName := "Alphabet", Owner := "Olga", Manager := "Mia"
         UserNameToConfig :=
           (GoMap.empty.set "bob" { Position := "dev", Rate := 40 }).set "Zed"
             { Position := "qa", Rate := 30 } }] }

/-- A user of the report whose position and rate differ from the roster's. -/
def sampleLead : User :=
  { AccountId := "u1", Name := "bob", Position := "lead", Rate := 50, Issues := [] }

def sampleProject : Project :=
  { Key := "ABC", DisplayName := "Alphabet", Owner := "Olga", Manager := "Mia"
    Users := [sampleAlice, sampleLead] }

def sampleReport : Report :=
  { DateFrom := { Year := 2024, Month := 3, Day := 1 }
    DateTo := { Year := 2024, Month := 3, Day := 31 }
    Projects := [sampleProject] }

/-- A project in which two users share a display name and differ in rate. -/
def namesakesProject : Project :=
  { Key := "ABC", DisplayName := "Alphabet", Owner := "Olga", Manager := "Mia"
    Users := [{ AccountId := "u1", Name := "Ann", Position := "dev", Rate := 10, Issues := [] },
              { AccountId := "u2", Name := "Ann", Position := "dev", Rate := 20, Issues := [] }] }

def namesakesReport : Report :=
  { DateFrom := { Year := 2024, Month := 3, Day := 1 }
    DateTo := { Year := 2024, Month := 3, Day := 31 }
    Projects := [namesakesProject] }

theorem updateProjectConfigs_keeps_missing_users_witness :
    (updateProjectConfig Runtime.insertion sampleRoster sampleProject).UserNameToConfig.get? "Zed"
      = some { Position := "qa", Rate := 30 } :=
  updateProjectConfigs_keeps_missing_users Runtime.insertion sampleRoster sampleReport
    (updateProjectConfig Runtime.insertion sampleRoster sampleProject) sampleProject
    (List.mem_cons_self _ _)
    { Key := "ABC", DisplayName := "Alphabet", Owner := "Olga", Manager := "Mia"
      UserNameToConfig :=
        (GoMap.empty.set "bob" { Position := "dev", Rate := 40 }).set "Zed"
          { Position := "qa", Rate := 30 } }
    rfl "Zed" { Position := "qa", Rate := 30 } (by decide) (by decide)

/-- The roster is keyed by display name: in a report that is none of
`Create`, of two users of a project with the same display name and different
rates, the first is not in the updated roster with its own rate. -/
theorem updateProjectConfigs_namesakes :
    ∃ updated reportProject user,
      (updated, reportProject) ∈
        (updateProjectConfigs Runtime.insertion { ProjectConfigs := [] }
          namesakesReport).ProjectConfigs.zip namesakesReport.Projects ∧
      user ∈ reportProject.Users ∧
      updated.UserNameToConfig.get? user.Name ≠
        some { Position := user.Position, Rate := user.Rate } :=
  ⟨updateProjectConfig Runtime.insertion { ProjectConfigs := [] } namesakesProject,
    namesakesProject,
    { AccountId := "u1", Name := "Ann", Position := "dev", Rate := 10, Issues := [] },
    List.mem_cons_self _ _, by decide, by decide⟩

/-! ## Report creation: claims -/

/-- Position and rate of every user of `getUsers` are those that the project
config holds for the display name (the zero value without an entry). -/
theorem getUsers_userConfigOf (rt : Runtime) (results : List TempoResult)
    (projectConfig : ProjectConfig) (users : List User)
    (h : getUsers rt results projectConfig = Except.ok users) :
    ∀ u ∈ users, u.Position = (userConfigOf projectConfig u.Name).Position ∧
      u.Rate = (userConfigOf projectConfig u.Name).Rate := by
  obtain ⟨users', hok, hall⟩ := getUsers_ok rt results projectConfig
  rw [h] at hok
  cases hok
  intro u hu
  obtain ⟨first, rest, _, hueq⟩ := hall u hu
  have hname : u.Name = first.Author.DisplayName := by rw [hueq]; rfl
  constructor
  · rw [hname, hueq]; rfl
  · rw [hname, hueq]; rfl

/-- In the result of `getUsers`, users with the same display name carry the
same position and rate (both are looked up under the name). -/
theorem getUsers_namesakes_agree (rt : Runtime) (results : List TempoResult)
    (projectConfig : ProjectConfig) (users : List User)
    (h : getUsers rt results projectConfig = Except.ok users) :
    ∀ u ∈ users, ∀ v ∈ users, v.Name = u.Name →
      v.Position = u.Position ∧ v.Rate = u.Rate := by
  intro u hu v hv hname
  obtain ⟨hup, hur⟩ := getUsers_userConfigOf rt results projectConfig users h u hu
  obtain ⟨hvp, hvr⟩ := getUsers_userConfigOf rt results projectConfig users h v hv
  rw [hup, hur, hvp, hvr, hname]
  exact ⟨rfl, rfl⟩

theorem getProject_ok (rt : Runtime) (services : Services) (token : String)
    (projectConfig : ProjectConfig) (dateFrom dateTo : Time) (project : Project)
    (h : getProject rt services token projectConfig dateFrom dateTo = Except.ok project) :
    project.Key = projectConfig.Key ∧ project.DisplayName = projectConfig.DisplayName ∧
      project.Owner = projectConfig.Owner ∧ project.Manager = projectConfig.Manager ∧
      ∃ tempoResults,
        services.GetTempoWorklogs token projectConfig.Key dateFrom dateTo =
          Except.ok tempoResults ∧
        getUsers rt tempoResults projectConfig = Except.ok project.Users := by
  unfold getProject at h
  cases hf : services.GetTempoWorklogs token projectConfig.Key dateFrom dateTo with
  | error e => rw [hf] at h; cases h
  | ok tempoResults =>
    rw [hf] at h
    simp only [] at h
    cases hu : getUsers rt tempoResults projectConfig with
    | error e => rw [hu] at h; cases h
    | ok users =>
      rw [hu] at h
      simp only [Except.ok.injEq] at h
      subst h
      exact ⟨rfl, rfl, rfl, rfl, tempoResults, rfl, hu⟩

theorem createProjects_ok (rt : Runtime) (services : Services) (wrapper : ProjectConfigWrapper)
    (dateFrom dateTo : Time) (pairs : List (String × String)) (projects : List Project)
    (h : createProjects rt services wrapper dateFrom dateTo pairs = Except.ok projects) :
    List.Forall₂ (fun pair project =>
      getProject rt services pair.1 (projectConfigFor wrapper pair.2) dateFrom dateTo =
        Except.ok project) pairs projects := by
  induction pairs generalizing projects with
  | nil =>
    simp only [createProjects, Except.ok.injEq] at h
    subst h
    exact List.Forall₂.nil
  | cons pair rest ih =>
    obtain ⟨token, projectKey⟩ := pair
    unfold createProjects at h
    cases hp : getProject rt services token (projectConfigFor wrapper projectKey)
        dateFrom dateTo with
    | error e => rw [hp] at h; cases h
    | ok project =>
      rw [hp] at h
      simp only [] at h
      cases hr : createProjects rt services wrapper dateFrom dateTo rest with
      | error e => rw [hr] at h; cases h
      | ok ps =>
        rw [hr] at h
        simp only [Except.ok.injEq] at h
        subst h
        exact List.Forall₂.cons hp (ih ps hr)

theorem Create_ok (rt : Runtime) (services : Services) (tokens : List TokenTempoAppConfig)
    (dateFrom dateTo : Time) (report : Report)
    (h : (Create rt services tokens dateFrom dateTo).result = Except.ok report) :
    ∃ wrapper, services.Get = Except.ok wrapper ∧
      createProjects rt services wrapper dateFrom dateTo (projectPairs tokens) =
        Except.ok report.Projects := by
  unfold Create at h
  cases hg : services.Get with
  | error e => rw [hg] at h; cases h
  | ok wrapper =>
    rw [hg] at h
    simp only [] at h
    cases hc : createProjects rt services wrapper dateFrom dateTo (projectPairs tokens) with
    | error e => rw [hc] at h; cases h
    | ok projects =>
      rw [hc] at h
      simp only [] at h
      cases hs : services.saveProjectConfigs (updateProjectConfigs rt wrapper
          { DateFrom := dateFrom, DateTo := dateTo, Projects := projects }) with
      | error e => rw [hs] at h; cases h
      | ok _ =>
        rw [hs] at h
        simp only [Except.ok.injEq] at h
        subst h
        exact ⟨wrapper, rfl, hc⟩

theorem ProjectConfigWrapper.Get_key (wrapper : ProjectConfigWrapper) (projectKey : String)
    (entry : ProjectConfig) (h : wrapper.Get projectKey = some entry) : entry.Key = projectKey := by
  unfold ProjectConfigWrapper.Get at h
  simpa using List.find?_some h

theorem projectConfigFor_key (wrapper : ProjectConfigWrapper) (projectKey : String) :
    (projectConfigFor wrapper projectKey).Key = projectKey := by
  unfold projectConfigFor
  cases h : wrapper.Get projectKey with
  | none => rfl
  | some entry => exact wrapper.Get_key projectKey entry h

/-- Every project of a report that `Create` builds has its manager from the
project config that `Create` takes for its key, and its users from `getUsers`
with that project config. -/
theorem Create_projects (rt : Runtime) (services : Services)
    (tokens : List TokenTempoAppConfig) (dateFrom dateTo : Time) (report : Report)
    (h : (Create rt services tokens dateFrom dateTo).result = Except.ok report) :
    ∃ roster, services.Get = Except.ok roster ∧
      ∀ p ∈ report.Projects,
        p.Manager = (projectConfigFor roster p.Key).Manager ∧
        ∃ tempoResults,
          getUsers rt tempoResults (projectConfigFor roster p.Key) = Except.ok p.Users := by
  obtain ⟨roster, hget, hcreate⟩ := Create_ok rt services tokens dateFrom dateTo report h
  refine ⟨roster, hget, ?_⟩
  intro p hp
  obtain ⟨pair, _, hpair⟩ :=
    forall₂_mem_right (createProjects_ok rt services roster dateFrom dateTo _ _ hcreate) p hp
  obtain ⟨hkey, _, _, hmanager, tempoResults, _, husers⟩ :=
    getProject_ok rt services pair.1 _ dateFrom dateTo p hpair
  have hkey' : p.Key = pair.2 := hkey.trans (projectConfigFor_key roster pair.2)
  rw [hkey']
  exact ⟨hmanager, tempoResults, husers⟩

/-- In a report that `Create` builds, the users of a project with the same
display name carry the same position and rate. -/
theorem Create_namesakes_agree (rt : Runtime) (services : Services)
    (tokens : List TokenTempoAppConfig) (dateFrom dateTo : Time) (report : Report)
    (h : (Create rt services tokens dateFrom dateTo).result = Except.ok report) :
    ∀ p ∈ report.Projects, ∀ u ∈ p.Users, ∀ v ∈ p.Users, v.Name = u.Name →
      v.Position = u.Position ∧ v.Rate = u.Rate := by
  obtain ⟨roster, _, hall⟩ := Create_projects rt services tokens dateFrom dateTo report h
  intro p hp u hu v hv hname
  obtain ⟨_, tempoResults, husers⟩ := hall p hp
  exact getUsers_namesakes_agree rt tempoResults _ p.Users husers u hu v hv hname

/-- In a report that `Create` builds, projects with the same key have the same
manager. -/
theorem Create_key_manager (rt : Runtime) (services : Services)
    (tokens : List TokenTempoAppConfig) (dateFrom dateTo : Time) (report : Report)
    (h : (Create rt services tokens dateFrom dateTo).result = Except.ok report) :
    ∀ p ∈ report.Projects, ∀ q ∈ report.Projects, p.Key = q.Key → p.Manager = q.Manager := by
  obtain ⟨roster, _, hall⟩ := Create_projects rt services tokens dateFrom dateTo report h
  intro p hp q hq hkey
  rw [(hall p hp).1, (hall q hq).1, hkey]

/-- C6. When `Create` returns a report, its projects are, in order, those of
the project keys that `Create` processed, each with that key; display name,
owner and manager of a project are those of the roster entry with its key, and
when the roster has no entry with the key they are "" and every user of the
project has position "" and rate 0. -/
theorem Create_project_from_roster (rt : Runtime) (services : Services)
    (tokens : List TokenTempoAppConfig) (dateFrom dateTo : Time) (report : Report)
    (h : (Create rt services tokens dateFrom dateTo).result = Except.ok report) :
    ∃ roster, services.Get = Except.ok roster ∧
      List.Forall₂ (fun (pair : String × String) (project : Project) =>
        project.Key = pair.2 ∧
        match roster.Get pair.2 with
        | some entry =>
          project.DisplayName = entry.DisplayName ∧ project.Owner = entry.Owner ∧
            project.Manager = entry.Manager
        | none =>
          project.DisplayName = "" ∧ project.Owner = "" ∧ project.Manager = "" ∧
            ∀ u ∈ project.Users, u.Position = "" ∧ u.Rate = 0)
        (projectPairs tokens) report.Projects := by
  obtain ⟨roster, hget, hcreate⟩ := Create_ok rt services tokens dateFrom dateTo report h
  refine ⟨roster, hget, ?_⟩
  refine (createProjects_ok rt services roster dateFrom dateTo _ _ hcreate).imp ?_
  intro pair project hp
  obtain ⟨hkey, hname, howner, hmanager, tempoResults, _, husers⟩ :=
    getProject_ok rt services pair.1 _ dateFrom dateTo project hp
  unfold projectConfigFor at hkey hname howner hmanager husers
  cases hentry : roster.Get pair.2 with
  | some entry =>
    rw [hentry] at hkey hname howner hmanager
    simp only [] at hkey hname howner hmanager ⊢
    exact ⟨hkey.trans (roster.Get_key pair.2 entry hentry), hname, howner, hmanager⟩
  | none =>
    rw [hentry] at hkey hname howner hmanager husers
    simp only [] at hkey hname howner hmanager husers ⊢
    refine ⟨hkey, hname, howner, hmanager, ?_⟩
    intro u hu
    exact getUsers_userConfigOf rt tempoResults _ project.Users husers u hu

/-! ### Sample run of `Create` -/

/-- Collaborators: the roster of `sampleRoster`, worklogs for the projects "ABC"
and "NEW", a roster writer that succeeds. -/
def sampleServices : Services :=
  { Get := Except.ok sampleRoster
    GetTempoWorklogs := fun _ projectKey _ _ =>
      if projectKey = "ABC" then Except.ok sampleResults
      else if projectKey = "NEW" then
        Except.ok [sampleEntry "u7" "Carl" "NEW-1" "2024-03-07" 900]
      else Except.error "Tempo error: 404 Not Found"
    saveProjectConfigs := fun _ => Except.ok () }

def sampleTokens : List TokenTempoAppConfig := [{ Token := "secret", Projects := "ABC, NEW" }]

def march1 : Time := { Year := 2024, Month := 3, Day := 1 }

def march31 : Time := { Year := 2024, Month := 3, Day := 31 }

def sampleCarl : User :=
  { AccountId := "u7", Name := "Carl", Position := "", Rate := 0
    Issues := [{ Key := "NEW-1", Efforts := [{ Date := "2024-03-07", TimeSpentSeconds := 900 }] }] }

/-- The report that the sample run creates. -/
def sampleCreated : Report :=
  { DateFrom := march1
    DateTo := march31
    Projects :=
      [{ Key := "ABC", DisplayName := "Alphabet", Owner := "Olga", Manager := "Mia"
         Users := [sampleAlice, sampleBob] },
       { Key := "NEW", DisplayName := "", Owner := "", Manager := "", Users := [sampleCarl] }] }

theorem sample_Create :
    (Create Runtime.insertion sampleServices sampleTokens march1 march31).result =
      Except.ok sampleCreated := by
  decide

theorem Create_project_from_roster_witness :
    ∃ roster, sampleServices.Get = Except.ok roster ∧
      List.Forall₂ (fun (pair : String × String) (project : Project) =>
        project.Key = pair.2 ∧
        match roster.Get pair.2 with
        | some entry =>
          project.DisplayName = entry.DisplayName ∧ project.Owner = entry.Owner ∧
            project.Manager = entry.Manager
        | none =>
          project.DisplayName = "" ∧ project.Owner = "" ∧ project.Manager = "" ∧
            ∀ u ∈ project.Users, u.Position = "" ∧ u.Rate = 0)
        [("secret", "ABC"), ("secret", "NEW")] sampleCreated.Projects :=
  Create_project_from_roster Runtime.insertion sampleServices sampleTokens march1 march31
    sampleCreated sample_Create

/-! ## Roster synchronisation: the users of the report -/

/-- C4. For every existing roster and report, every user of a report project
appears in the updated roster of that project under their display name with
the position and rate the report carries for them, whatever the existing
roster held for that name.  This holds for every report that `Create` builds,
the reports on which the program calls `updateProjectConfigs`, and for every
other report in which the users of that project with the same display name
carry the same position and rate (in a report of `Create` they do: position
and rate are looked up under the display name). -/
theorem updateProjectConfigs_report_user_wins (rt : Runtime)
    (projectConfigWrapper : ProjectConfigWrapper) (report : Report)
    (updated : ProjectConfig) (reportProject : Project)
    (hpair : (updated, reportProject) ∈
      (updateProjectConfigs rt projectConfigWrapper report).ProjectConfigs.zip report.Projects)
    (user : User) (huser : user ∈ reportProject.Users)
    (hreport :
      (∃ rt₀ services tokens dateFrom dateTo,
        (Create rt₀ services tokens dateFrom dateTo).result = Except.ok report) ∨
      (∀ v ∈ reportProject.Users, v.Name = user.Name →
        v.Position = user.Position ∧ v.Rate = user.Rate)) :
    updated.UserNameToConfig.get? user.Name =
      some { Position := user.Position, Rate := user.Rate } := by
  obtain ⟨hupd, hmem⟩ := mem_zip_update rt projectConfigWrapper report updated reportProject hpair
  have hsame : ∀ v ∈ reportProject.Users, v.Name = user.Name →
      v.Position = user.Position ∧ v.Rate = user.Rate := by
    rcases hreport with ⟨rt₀, services, tokens, dateFrom, dateTo, hcreate⟩ | hsame
    · exact Create_namesakes_agree rt₀ services tokens dateFrom dateTo report hcreate
        reportProject hmem user huser
    · exact hsame
  rw [hupd, get?_updateProjectConfig,
    get?_updateFromReport_agree reportProject.Users GoMap.empty user.Name
      { Position := user.Position, Rate := user.Rate }
      (fun v hv hn => by rw [(hsame v hv hn).1, (hsame v hv hn).2]),
    if_pos ⟨user, huser, rfl⟩]

theorem updateProjectConfigs_report_user_wins_witness :
    (updateProjectConfig Runtime.insertion sampleRoster sampleProject).UserNameToConfig.get? "bob"
      = some { Position := "lead", Rate := 50 } ∧
    ∀ updated reportProject,
      (updated, reportProject) ∈
        (updateProjectConfigs Runtime.insertion sampleRoster sampleCreated).ProjectConfigs.zip
          sampleCreated.Projects →
      ∀ user ∈ reportProject.Users,
        updated.UserNameToConfig.get? user.Name =
          some { Position := user.Position, Rate := user.Rate } :=
  ⟨updateProjectConfigs_report_user_wins Runtime.insertion sampleRoster sampleReport
    (updateProjectConfig Runtime.insertion sampleRoster sampleProject) sampleProject
    (List.mem_cons_self _ _) sampleLead (by decide) (Or.inr (by decide)),
   fun updated reportProject hpair user huser =>
    updateProjectConfigs_report_user_wins Runtime.insertion sampleRoster sampleCreated
      updated reportProject hpair user huser
      (Or.inl ⟨Runtime.insertion, sampleServices, sampleTokens, march1, march31, sample_Create⟩)⟩

/-! ## Colours: claims -/

/-- The hexadecimal digits. -/
def hexDigits : List Char := "0123456789abcdefABCDEF".data

/-- The hexadecimal digits that `%x` prints. -/
def lowerHexDigits : List Char := "0123456789abcdef".data

/-- Value of a colour channel written with the two hexadecimal digits `c1 c2`. -/
def channelValue (c1 c2 : Char) : Nat :=
  16 * (hexDigitValue c1).getD 0 + (hexDigitValue c2).getD 0

set_option maxRecDepth 100000 in
theorem setString16_channel :
    ∀ c1 ∈ hexDigits, ∀ c2 ∈ hexDigits,
      setString16 [c1, c2] = some (Int.ofNat (channelValue c1 c2)) ∧ channelValue c1 c2 ≤ 255 ∧
        c1.toNat < 128 ∧ c2.toNat < 128 := by
  decide

set_option maxRecDepth 100000 in
theorem shadeColorPart_zero :
    ∀ c1 ∈ lowerHexDigits, ∀ c2 ∈ lowerHexDigits, shadeColorPart [c1, c2] 0 = some [c1, c2] := by
  decide

/-- The channel of the spec: floor(old * (100 − percent) / 100), clamped to at
least 0, over the integers. -/
def shadedChannel (old : Nat) (percent : Int) : Nat :=
  (max 0 (((old : Int) * (100 - percent)) / 100)).toNat

/-- The encoding of the spec: hexadecimal, zero-padded to two digits. -/
def zeroPaddedHex (n : Nat) : List Char :=
  List.replicate (2 - (Nat.toDigits 16 n).length) '0' ++ Nat.toDigits 16 n

/-- The two hexadecimal digits of a value below 256. -/
def twoHexDigits (n : Nat) : List Char := [Nat.digitChar (n / 16), Nat.digitChar (n % 16)]

theorem toDigitsCore_length (base : Nat) (fuel n : Nat) (ds : List Char) :
    ds.length ≤ (Nat.toDigitsCore base fuel n ds).length ∧
      (0 < fuel → ds.length < (Nat.toDigitsCore base fuel n ds).length) := by
  induction fuel generalizing n ds with
  | zero => exact ⟨Nat.le_refl _, fun h => absurd h (Nat.lt_irrefl 0)⟩
  | succ fuel ih =>
    have hlt : ds.length < (Nat.toDigitsCore base (fuel + 1) n ds).length := by
      unfold Nat.toDigitsCore
      simp only []
      split
      · simp
      · have := (ih (n / base) (Nat.digitChar (n % base) :: ds)).1
        simp only [List.length_cons] at this
        omega
    exact ⟨Nat.le_of_lt hlt, fun _ => hlt⟩

theorem toDigits_length_pos (n : Nat) : 0 < (Nat.toDigits 16 n).length := by
  unfold Nat.toDigits
  exact (toDigitsCore_length 16 (n + 1) n []).2 (Nat.succ_pos n)

/-- The padding of `shadeColorPart` is the zero-padding to two digits. -/
theorem pad_formatHex (n : Nat) :
    (if (formatHex n).length = 1 then '0' :: formatHex n else formatHex n) = zeroPaddedHex n := by
  unfold formatHex zeroPaddedHex
  have := toDigits_length_pos n
  split
  · rename_i h; rw [h]; rfl
  · rename_i h
    have : 2 - (Nat.toDigits 16 n).length = 0 := by omega
    rw [this]; rfl

set_option maxRecDepth 100000 in
theorem zeroPaddedHex_small :
    ∀ n ∈ List.range 256, zeroPaddedHex n = twoHexDigits n ∧
      ∀ c ∈ twoHexDigits n, c ∈ lowerHexDigits := by
  decide

/-- Where `255 * (100 - percent)` fits in an `int64`, the arithmetic of
`shadeColorPart` on a channel is exact. -/
theorem shaded_val (v : Nat) (hv : v ≤ 255) (percent : GoInt64)
    (hlo : -36170086419038236 ≤ percent.val) (hhi : percent.val ≤ 36170086419038436) :
    (GoInt64.div (GoInt64.mul (GoInt64.ofInt v) (GoInt64.sub 100 percent)) 100).val =
      Int.tdiv ((v : Int) * (100 - percent.val)) 100 := by
  have h100 : (100 : GoInt64).val = 100 := rfl
  have hv' : (GoInt64.ofInt v).val = v := wrapInt64_of_fits _ (by omega) (by omega)
  have hsub : (GoInt64.sub 100 percent).val = 100 - percent.val := by
    show wrapInt64 ((100 : GoInt64).val - percent.val) = _
    rw [h100]
    exact wrapInt64_of_fits _ (by omega) (by omega)
  have hy₁ : -36170086419038336 ≤ 100 - percent.val := by omega
  have hy₂ : 100 - percent.val ≤ 36170086419038336 := by omega
  have hv₀ : (0 : Int) ≤ v := Int.ofNat_nonneg v
  have hv₁ : (v : Int) ≤ 255 := by exact_mod_cast hv
  have hx₁ : -9223372036854775680 ≤ (v : Int) * (100 - percent.val) := by nlinarith
  have hx₂ : (v : Int) * (100 - percent.val) ≤ 9223372036854775680 := by nlinarith
  have hmul : (GoInt64.mul (GoInt64.ofInt v) (GoInt64.sub 100 percent)).val =
      (v : Int) * (100 - percent.val) := by
    show wrapInt64 ((GoInt64.ofInt v).val * (GoInt64.sub 100 percent).val) = _
    rw [hv', hsub]
    exact wrapInt64_of_fits _ (by omega) (by omega)
  show wrapInt64 (Int.tdiv (GoInt64.mul (GoInt64.ofInt v) (GoInt64.sub 100 percent)).val
    (100 : GoInt64).val) = _
  rw [hmul, h100]
  generalize (v : Int) * (100 - percent.val) = x at hx₁ hx₂
  have habs : (Int.tdiv x 100).natAbs ≤ x.natAbs := by
    rw [Int.natAbs_tdiv]
    exact Nat.div_le_self _ _
  exact wrapInt64_of_fits _ (by omega) (by omega)

/-- Truncation and floor agree once negative values are clamped to 0. -/
theorem max_tdiv_eq (x : Int) : max 0 (Int.tdiv x 100) = max 0 (x / 100) := by
  rcases Int.le_total 0 x with h | h
  · rw [Int.tdiv_eq_ediv h (by decide)]
  · have h₁ : Int.tdiv x 100 ≤ 0 := by
      have := Int.tdiv_nonneg (Int.neg_nonneg_of_nonpos h) (by decide : (0 : Int) ≤ 100)
      rw [Int.neg_tdiv] at this
      omega
    have h₂ : x / 100 ≤ 0 := by omega
    rw [max_eq_left h₁, max_eq_left h₂]

/-- On two hexadecimal digits, and where `255 * (100 - percent)` fits in an
`int64`, `shadeColorPart` computes the channel of the spec. -/
theorem shadeColorPart_eq (c1 c2 : Char) (h1 : c1 ∈ hexDigits) (h2 : c2 ∈ hexDigits)
    (percent : GoInt64)
    (hlo : -36170086419038236 ≤ percent.val) (hhi : percent.val ≤ 36170086419038436) :
    shadeColorPart [c1, c2] percent =
      some (zeroPaddedHex (shadedChannel (channelValue c1 c2) percent.val)) := by
  obtain ⟨hparse, hle, _, _⟩ := setString16_channel c1 h1 c2 h2
  have hval := shaded_val (channelValue c1 c2) hle percent hlo hhi
  have hkey : (if (GoInt64.div (GoInt64.mul (GoInt64.ofInt (Int.ofNat (channelValue c1 c2)))
        (GoInt64.sub 100 percent)) 100).val ≤ 0 then (0 : GoInt64)
      else GoInt64.div (GoInt64.mul (GoInt64.ofInt (Int.ofNat (channelValue c1 c2)))
        (GoInt64.sub 100 percent)) 100).val.toNat =
      shadedChannel (channelValue c1 c2) percent.val := by
    unfold shadedChannel
    rw [← max_tdiv_eq]
    have hval' : (GoInt64.div (GoInt64.mul (GoInt64.ofInt (Int.ofNat (channelValue c1 c2)))
        (GoInt64.sub 100 percent)) 100).val =
        Int.tdiv ((channelValue c1 c2 : Int) * (100 - percent.val)) 100 := hval
    split
    · rename_i h
      rw [hval'] at h
      rw [max_eq_left h]
      rfl
    · rename_i h
      rw [hval'] at h ⊢
      rw [max_eq_right (by omega)]
  unfold shadeColorPart
  rw [hparse]
  simp only []
  rw [hkey, pad_formatHex]

/-- What `shadeColor` returns on '#' and six characters that pass through
`shadeColorPart`. -/
theorem shadeColor_of_parts (r1 r2 g1 g2 b1 b2 : Char) (percent : GoInt64)
    (hhex : ∀ c ∈ [r1, r2, g1, g2, b1, b2], c ∈ hexDigits) (r g b : List Char)
    (hr : shadeColorPart [r1, r2] percent = some r)
    (hg : shadeColorPart [g1, g2] percent = some g)
    (hb : shadeColorPart [b1, b2] percent = some b) :
    shadeColor (String.mk ['#', r1, r2, g1, g2, b1, b2]) percent =
      some (String.mk ('#' :: (r ++ g ++ b))) := by
  have hR := setString16_channel r1 (hhex r1 (by simp)) r2 (hhex r2 (by simp))
  have hG := setString16_channel g1 (hhex g1 (by simp)) g2 (hhex g2 (by simp))
  have hB := setString16_channel b1 (hhex b1 (by simp)) b2 (hhex b2 (by simp))
  unfold shadeColor
  simp only [List.all_cons, List.all_nil, Bool.and_true, Bool.and_eq_true, decide_eq_true_eq,
    hR.2.2.1, hR.2.2.2, hG.2.2.1, hG.2.2.2, hB.2.2.1, hB.2.2.2, and_self, if_true, hr, hg, hb,
    (by decide : '#'.toNat < 128)]

/-- C7 (amended). For every colour '#rrggbb' and every percent from
−36170086419038236 to 36170086419038436 (so that `255 * (100 − percent)` fits in
an `int64`), `shadeColor` returns '#' followed by the three channels, each being
floor(old * (100 − percent) / 100) clamped to at least 0 and encoded as
zero-padded two-digit hex, `old` being the value of the input channel. -/
theorem shadeColor_channels (r1 r2 g1 g2 b1 b2 : Char) (percent : GoInt64)
    (hhex : ∀ c ∈ [r1, r2, g1, g2, b1, b2], c ∈ hexDigits)
    (hlo : -36170086419038236 ≤ percent.val) (hhi : percent.val ≤ 36170086419038436) :
    shadeColor (String.mk ['#', r1, r2, g1, g2, b1, b2]) percent =
      some (String.mk ('#' ::
        (zeroPaddedHex (shadedChannel (channelValue r1 r2) percent.val) ++
         zeroPaddedHex (shadedChannel (channelValue g1 g2) percent.val) ++
         zeroPaddedHex (shadedChannel (channelValue b1 b2) percent.val)))) :=
  shadeColor_of_parts r1 r2 g1 g2 b1 b2 percent hhex _ _ _
    (shadeColorPart_eq r1 r2 (hhex r1 (by simp)) (hhex r2 (by simp)) percent hlo hhi)
    (shadeColorPart_eq g1 g2 (hhex g1 (by simp)) (hhex g2 (by simp)) percent hlo hhi)
    (shadeColorPart_eq b1 b2 (hhex b1 (by simp)) (hhex b2 (by simp)) percent hlo hhi)

theorem shadeColor_channels_witness :
    shadeColor "#46bdc6" 15 = some "#3ba0a8" :=
  shadeColor_channels '4' '6' 'b' 'd' 'c' '6' 15 (by decide) (by decide) (by decide)

/-- C7 as stated fails for a percent at which the product overflows: for
"#ffffff" and percent = 100 − 2^62 the product 255 * 2^62 wraps to −2^62 and
every channel is clamped to "00", whereas floor(255 * 2^62 / 100) is positive. -/
theorem shadeColor_channels_counterexample :
    shadeColor "#ffffff" (GoInt64.ofInt (-4611686018427387804)) = some "#000000" ∧
      shadedChannel (channelValue 'f' 'f') (-4611686018427387804) = 11759799346989839155 ∧
      zeroPaddedHex (shadedChannel (channelValue 'f' 'f') (-4611686018427387804)) ≠
        ['0', '0'] := by
  decide

/-- C8 (amended). For every colour '#rrggbb' whose six digits are among
0-9 and a-f, and for the empty colour, `shadeColor(color, 0)` is `color`. -/
theorem shadeColor_zero (r1 r2 g1 g2 b1 b2 : Char)
    (hhex : ∀ c ∈ [r1, r2, g1, g2, b1, b2], c ∈ lowerHexDigits) :
    shadeColor (String.mk ['#', r1, r2, g1, g2, b1, b2]) 0 =
        some (String.mk ['#', r1, r2, g1, g2, b1, b2]) ∧
      shadeColor "" 0 = some "" := by
  have hsub : ∀ c ∈ lowerHexDigits, c ∈ hexDigits := by decide
  refine ⟨?_, rfl⟩
  exact shadeColor_of_parts r1 r2 g1 g2 b1 b2 0 (fun c hc => hsub c (hhex c hc)) _ _ _
    (shadeColorPart_zero r1 (hhex r1 (by simp)) r2 (hhex r2 (by simp)))
    (shadeColorPart_zero g1 (hhex g1 (by simp)) g2 (hhex g2 (by simp)))
    (shadeColorPart_zero b1 (hhex b1 (by simp)) b2 (hhex b2 (by simp)))

theorem shadeColor_zero_witness :
    shadeColor "#92d050" 0 = some "#92d050" ∧ shadeColor "" 0 = some "" :=
  shadeColor_zero '9' '2' 'd' '0' '5' '0' (by decide)

/-- C8 as stated fails for a colour written with capital digits: `%x` prints
small ones. -/
theorem shadeColor_zero_counterexample :
    shadeColor "#FFFFFF" 0 = some "#ffffff" ∧ shadeColor "#FFFFFF" 0 ≠ some "#FFFFFF" := by
  decide

/-- C9 (amended). For every colour '#rrggbb' and every percent from 0 to
36170086419038436 (so that `255 * (100 − percent)` fits in an `int64`), every
channel of `shadeColor(color, percent)` is a value in 0..255, not above the
input channel, encoded in exactly two hex digits: the result is again a
seven-character colour '#rrggbb'. -/
theorem shadeColor_in_range (r1 r2 g1 g2 b1 b2 : Char) (percent : GoInt64)
    (hhex : ∀ c ∈ [r1, r2, g1, g2, b1, b2], c ∈ hexDigits)
    (hlo : 0 ≤ percent.val) (hhi : percent.val ≤ 36170086419038436) :
    ∃ r g b : Nat,
      (r ≤ channelValue r1 r2 ∧ r ≤ 255) ∧ (g ≤ channelValue g1 g2 ∧ g ≤ 255) ∧
      (b ≤ channelValue b1 b2 ∧ b ≤ 255) ∧
      shadeColor (String.mk ['#', r1, r2, g1, g2, b1, b2]) percent =
        some (String.mk ('#' :: (twoHexDigits r ++ twoHexDigits g ++ twoHexDigits b))) ∧
      (∀ c ∈ twoHexDigits r ++ twoHexDigits g ++ twoHexDigits b, c ∈ lowerHexDigits) ∧
      ('#' :: (twoHexDigits r ++ twoHexDigits g ++ twoHexDigits b)).length = 7 := by
  have hchan : ∀ c1 ∈ hexDigits, ∀ c2 ∈ hexDigits,
      shadedChannel (channelValue c1 c2) percent.val ≤ channelValue c1 c2 ∧
      shadedChannel (channelValue c1 c2) percent.val ≤ 255 ∧
      zeroPaddedHex (shadedChannel (channelValue c1 c2) percent.val) =
        twoHexDigits (shadedChannel (channelValue c1 c2) percent.val) ∧
      ∀ c ∈ twoHexDigits (shadedChannel (channelValue c1 c2) percent.val),
        c ∈ lowerHexDigits := by
    intro c1 h1 c2 h2
    have hle := (setString16_channel c1 h1 c2 h2).2.1
    have hshade : shadedChannel (channelValue c1 c2) percent.val ≤ channelValue c1 c2 := by
      unfold shadedChannel
      have hv₀ : (0 : Int) ≤ (channelValue c1 c2 : Int) := Int.ofNat_nonneg _
      have : (channelValue c1 c2 : Int) * (100 - percent.val) ≤ (channelValue c1 c2 : Int) * 100 :=
        by nlinarith
      omega
    have hsmall := zeroPaddedHex_small (shadedChannel (channelValue c1 c2) percent.val)
      (List.mem_range.mpr (by omega))
    exact ⟨hshade, by omega, hsmall.1, hsmall.2⟩
  obtain ⟨hr1, hr2, hr3, hr4⟩ := hchan r1 (hhex r1 (by simp)) r2 (hhex r2 (by simp))
  obtain ⟨hg1, hg2, hg3, hg4⟩ := hchan g1 (hhex g1 (by simp)) g2 (hhex g2 (by simp))
  obtain ⟨hb1, hb2, hb3, hb4⟩ := hchan b1 (hhex b1 (by simp)) b2 (hhex b2 (by simp))
  refine ⟨_, _, _, ⟨hr1, hr2⟩, ⟨hg1, hg2⟩, ⟨hb1, hb2⟩, ?_, ?_, rfl⟩
  · rw [← hr3, ← hg3, ← hb3]
    exact shadeColor_of_parts r1 r2 g1 g2 b1 b2 percent hhex _ _ _
      (shadeColorPart_eq r1 r2 (hhex r1 (by simp)) (hhex r2 (by simp)) percent (by omega) hhi)
      (shadeColorPart_eq g1 g2 (hhex g1 (by simp)) (hhex g2 (by simp)) percent (by omega) hhi)
      (shadeColorPart_eq b1 b2 (hhex b1 (by simp)) (hhex b2 (by simp)) percent (by omega) hhi)
  · intro c hc
    simp only [List.mem_append] at hc
    rcases hc with (hc | hc) | hc
    · exact hr4 c hc
    · exact hg4 c hc
    · exact hb4 c hc

theorem shadeColor_in_range_witness :
    ∃ r g b : Nat,
      (r ≤ channelValue '4' '6' ∧ r ≤ 255) ∧ (g ≤ channelValue 'b' 'd' ∧ g ≤ 255) ∧
      (b ≤ channelValue 'c' '6' ∧ b ≤ 255) ∧
      shadeColor "#46bdc6" 10 =
        some (String.mk ('#' :: (twoHexDigits r ++ twoHexDigits g ++ twoHexDigits b))) ∧
      (∀ c ∈ twoHexDigits r ++ twoHexDigits g ++ twoHexDigits b, c ∈ lowerHexDigits) ∧
      ('#' :: (twoHexDigits r ++ twoHexDigits g ++ twoHexDigits b)).length = 7 :=
  shadeColor_in_range '4' '6' 'b' 'd' 'c' '6' 10 (by decide) (by decide) (by decide)

/-- C9 as stated fails: a negative percent lightens, and nothing clamps a
channel to 255 ("#ffffff" at −100 percent gives three channels of 510, ten
characters in all); a percent above 36170086419038436 makes the product
overflow to a positive value. -/
theorem shadeColor_in_range_counterexample :
    shadeColor "#ffffff" (GoInt64.ofInt (-100)) = some "#1fe1fe1fe" ∧
      ("#1fe1fe1fe" : String).data.length = 10 ∧
      shadeColor "#ffffff" (GoInt64.ofInt 36170086419038437) =
        some "#147ae147ae147ac147ae147ae147ac147ae147ae147ac" := by
  decide

/-! ### Colours of the projects -/

theorem get?_assignManagerColor_empty (projects : List Project) (state : GoMap String × Nat)
    (manager : String) (h : manager.data = []) :
    (projects.foldl assignManagerColor state).1.get? manager = state.1.get? manager := by
  induction projects generalizing state with
  | nil => rfl
  | cons p rest ih =>
    rw [List.foldl_cons, ih]
    unfold assignManagerColor
    split
    · rfl
    · rename_i hp
      split
      · rfl
      · simp only [GoMap.get?_set]
        rw [if_neg]
        intro e
        exact hp (e ▸ h)

theorem isSome_assignManagerColor_mono (projects : List Project) (state : GoMap String × Nat)
    (manager : String) (h : (state.1.get? manager).isSome) :
    ((projects.foldl assignManagerColor state).1.get? manager).isSome := by
  induction projects generalizing state with
  | nil => exact h
  | cons p rest ih =>
    rw [List.foldl_cons]
    apply ih
    unfold assignManagerColor
    split
    · exact h
    · split
      · exact h
      · simp only [GoMap.get?_set]
        split
        · rfl
        · exact h

theorem isSome_assignManagerColor (projects : List Project) (state : GoMap String × Nat)
    (p : Project) (hp : p ∈ projects) (hm : p.Manager ≠ "") :
    ((projects.foldl assignManagerColor state).1.get? p.Manager).isSome := by
  induction projects generalizing state with
  | nil => cases hp
  | cons q rest ih =>
    rw [List.foldl_cons]
    rcases List.mem_cons.mp hp with rfl | hp'
    · apply isSome_assignManagerColor_mono
      have hdata : ¬ p.Manager.data = [] := fun e => hm (String.ext e)
      unfold assignManagerColor
      rw [if_neg hdata]
      cases hg : state.1.get? p.Manager with
      | some c => simp only [hg]; rfl
      | none => simp only [GoMap.get?_set, if_true]; rfl
    · exact ih _ hp'

theorem get?_assignProjectColor (managerToColor : GoMap String) (projects : List Project)
    (acc : GoMap String) (key : String) (color : Option String)
    (hc : ∀ p ∈ projects, p.Key = key → managerToColor.get? p.Manager = color) :
    (projects.foldl (assignProjectColor managerToColor) acc).get? key =
      if ∃ p ∈ projects, p.Key = key then (if color = none then acc.get? key else color)
      else acc.get? key := by
  induction projects generalizing acc with
  | nil => simp
  | cons q rest ih =>
    rw [List.foldl_cons, ih _ (fun p hp => hc p (List.mem_cons_of_mem _ hp))]
    by_cases hq : q.Key = key
    · have hcol := hc q (List.mem_cons_self _ _) hq
      have hex : ∃ p ∈ q :: rest, p.Key = key := ⟨q, List.mem_cons_self _ _, hq⟩
      rw [if_pos hex]
      unfold assignProjectColor
      rw [hcol]
      cases color with
      | some c => simp [GoMap.get?_set, hq]
      | none => simp
    · have hstep : (assignProjectColor managerToColor acc q).get? key = acc.get? key := by
        unfold assignProjectColor
        cases managerToColor.get? q.Manager <;> simp [GoMap.get?_set, hq]
      rw [hstep]
      have hiff : (∃ p ∈ q :: rest, p.Key = key) ↔ ∃ p ∈ rest, p.Key = key := by
        constructor
        · rintro ⟨p, hp, hk⟩
          rcases List.mem_cons.mp hp with rfl | hp'
          · exact absurd hk hq
          · exact ⟨p, hp', hk⟩
        · rintro ⟨p, hp, hk⟩
          exact ⟨p, List.mem_cons_of_mem _ hp, hk⟩
      simp only [hiff]

theorem isSome_assignProjectColor (managerToColor : GoMap String) (projects : List Project)
    (acc : GoMap String) (p : Project) (hp : p ∈ projects)
    (hm : (managerToColor.get? p.Manager).isSome) :
    ((projects.foldl (assignProjectColor managerToColor) acc).get? p.Key).isSome := by
  have hmono : ∀ (l : List Project) (acc : GoMap String) (key : String),
      (acc.get? key).isSome →
      ((l.foldl (assignProjectColor managerToColor) acc).get? key).isSome := by
    intro l
    induction l with
    | nil => intro acc key h; exact h
    | cons q rest ih =>
      intro acc key h
      rw [List.foldl_cons]
      apply ih
      unfold assignProjectColor
      cases managerToColor.get? q.Manager with
      | none => exact h
      | some c =>
        simp only [GoMap.get?_set]
        split
        · rfl
        · exact h
  induction projects generalizing acc with
  | nil => cases hp
  | cons q rest ih =>
    rw [List.foldl_cons]
    rcases List.mem_cons.mp hp with rfl | hp'
    · apply hmono
      unfold assignProjectColor
      cases hg : managerToColor.get? p.Manager with
      | none => rw [hg] at hm; cases hm
      | some c => simp only [GoMap.get?_set, if_true]; rfl
    · exact ih _ hp'

/-- A project without users. -/
def projectOf (key manager : String) : Project :=
  { Key := key, DisplayName := "", Owner := "", Manager := manager, Users := [] }

/-- Projects with distinct keys: two managed by "Mia", one by nobody, one by "Al". -/
def managedProjects : List Project :=
  [projectOf "A" "Mia", projectOf "B" "", projectOf "C" "Mia", projectOf "D" "Al"]

/-- C10. For every list of projects, the mapping returned by
`getProjectKeyToColor` has no entry for the key of a project whose manager is
empty, has an entry for the key of every project whose manager is not empty,
and any two projects with the same non-empty manager map to the same colour.
This holds for the projects of every report that `Create` builds, the lists on
which the program calls `getProjectKeyToColor`, and for every other list in
which projects with the same key have the same manager (in a report of
`Create` they do: the manager comes from the roster entry of the key); the
entry for a project with a manager is there for every list. -/
theorem getProjectKeyToColor_by_manager (projects : List Project) :
    (∀ p ∈ projects, p.Manager ≠ "" →
      ∃ color, (getProjectKeyToColor projects).get? p.Key = some color) ∧
    (((∃ rt services tokens dateFrom dateTo report,
        (Create rt services tokens dateFrom dateTo).result = Except.ok report ∧
        report.Projects = projects) ∨
      (∀ p ∈ projects, ∀ q ∈ projects, p.Key = q.Key → p.Manager = q.Manager)) →
      (∀ p ∈ projects, p.Manager = "" → (getProjectKeyToColor projects).get? p.Key = none) ∧
      (∀ p ∈ projects, ∀ q ∈ projects, p.Manager ≠ "" → p.Manager = q.Manager →
        ∃ color, (getProjectKeyToColor projects).get? p.Key = some color ∧
          (getProjectKeyToColor projects).get? q.Key = some color)) := by
  have hsome : ∀ p ∈ projects, p.Manager ≠ "" →
      ∃ color, (getProjectKeyToColor projects).get? p.Key = some color := by
    intro p hp hm
    have h := isSome_assignProjectColor
      (projects.foldl assignManagerColor (GoMap.empty, 0)).1 projects GoMap.empty p hp
      (isSome_assignManagerColor projects _ p hp hm)
    exact Option.isSome_iff_exists.mp h
  refine ⟨hsome, ?_⟩
  intro hprojects
  have hkeys : ∀ p ∈ projects, ∀ q ∈ projects, p.Key = q.Key → p.Manager = q.Manager := by
    rcases hprojects with ⟨rt, services, tokens, dateFrom, dateTo, report, hcreate, rfl⟩ | hkeys
    · exact Create_key_manager rt services tokens dateFrom dateTo report hcreate
    · exact hkeys
  have hkey : ∀ p ∈ projects, (getProjectKeyToColor projects).get? p.Key =
      (projects.foldl assignManagerColor (GoMap.empty, 0)).1.get? p.Manager := by
    intro p hp
    unfold getProjectKeyToColor
    simp only []
    rw [get?_assignProjectColor _ projects GoMap.empty p.Key
      ((projects.foldl assignManagerColor (GoMap.empty, 0)).1.get? p.Manager)
      (fun q hq hk => by rw [hkeys q hq p hp hk]), if_pos ⟨p, hp, rfl⟩]
    cases (projects.foldl assignManagerColor (GoMap.empty, 0)).1.get? p.Manager <;>
      simp [GoMap.get?_empty]
  constructor
  · intro p hp hm
    rw [hkey p hp, hm]
    exact get?_assignManagerColor_empty projects _ "" rfl
  · intro p hp q hq hm hpq
    obtain ⟨color, hcolor⟩ := hsome p hp hm
    refine ⟨color, hcolor, ?_⟩
    rw [hkey q hq, ← hpq, ← hkey p hp]
    exact hcolor

theorem getProjectKeyToColor_by_manager_witness :
    ((getProjectKeyToColor managedProjects).get? "B" = none ∧
      (∃ color, (getProjectKeyToColor managedProjects).get? "D" = some color) ∧
      ∃ color, (getProjectKeyToColor managedProjects).get? "A" = some color ∧
        (getProjectKeyToColor managedProjects).get? "C" = some color) ∧
    ((getProjectKeyToColor sampleCreated.Projects).get? "NEW" = none ∧
      ∃ color, (getProjectKeyToColor sampleCreated.Projects).get? "ABC" = some color) := by
  obtain ⟨h2, h⟩ := getProjectKeyToColor_by_manager managedProjects
  obtain ⟨h1, h3⟩ := h (Or.inr (by decide))
  obtain ⟨h5, h'⟩ := getProjectKeyToColor_by_manager sampleCreated.Projects
  obtain ⟨h4, _⟩ := h' (Or.inl ⟨Runtime.insertion, sampleServices, sampleTokens, march1, march31,
    sampleCreated, sample_Create, rfl⟩)
  exact ⟨⟨h1 (projectOf "B" "") (by decide) rfl,
    h2 (projectOf "D" "Al") (by decide) (by decide),
    h3 (projectOf "A" "Mia") (by decide) (projectOf "C" "Mia") (by decide) (by decide) rfl⟩,
    h4 { Key := "NEW", DisplayName := "", Owner := "", Manager := "", Users := [sampleCarl] }
      (by decide) rfl,
    h5 { Key := "ABC", DisplayName := "Alphabet", Owner := "Olga", Manager := "Mia"
         Users := [sampleAlice, sampleBob] } (by decide) (by decide)⟩

/-- The mapping is keyed by project key: in a list that is of no report of
`Create`, with projects that share a key, the key of a project with an empty
manager has an entry when another project with that key has a manager, and of
two projects with the same manager one can lose its colour to a project with
the same key and another manager. -/
theorem getProjectKeyToColor_shared_key :
    (∃ p ∈ [projectOf "A" "", projectOf "A" "Mia"], p.Manager = "" ∧
      (getProjectKeyToColor [projectOf "A" "", projectOf "A" "Mia"]).get? p.Key ≠ none) ∧
    (∃ p ∈ [projectOf "A" "Mia", projectOf "A" "Al", projectOf "B" "Mia"],
      ∃ q ∈ [projectOf "A" "Mia", projectOf "A" "Al", projectOf "B" "Mia"],
        p.Manager ≠ "" ∧ p.Manager = q.Manager ∧
        (getProjectKeyToColor
          [projectOf "A" "Mia", projectOf "A" "Al", projectOf "B" "Mia"]).get? p.Key ≠
        (getProjectKeyToColor
          [projectOf "A" "Mia", projectOf "A" "Al", projectOf "B" "Mia"]).get? q.Key) := by
  decide

/-! ## Sheet name (`services/excel.go`) -/

/-- Go `time.Month.String()`, which `Format("January")` prints: the English name
of a month; a `time.Time` has a month from 1 to 12. -/
def monthName (month : Nat) : String :=
  match month with
  | 1 => "January"
  | 2 => "February"
  | 3 => "March"
  | 4 => "April"
  | 5 => "May"
  | 6 => "June"
  | 7 => "July"
  | 8 => "August"
  | 9 => "September"
  | 10 => "October"
  | 11 => "November"
  | 12 => "December"
  | _ => ""

/-- `ExcelService.getSheetName`. -/
def getSheetName (report : Report) : String :=
  let dateFrom := report.DateFrom
  let dateTo := report.DateTo
  if dateFrom.Month = dateTo.Month then monthName dateFrom.Month
  else monthName dateFrom.Month ++ " - " ++ monthName dateTo.Month

/-- C13. For every report, `getSheetName` returns the month name of dateFrom if
dateFrom and dateTo fall in the same month (the months are compared as
`Month()` gives them, January to December), and otherwise
"<month name of dateFrom> - <month name of dateTo>"; 2024-03-01..2024-03-31
gives "March". -/
theorem getSheetName_eq (report : Report) :
    (report.DateFrom.Month = report.DateTo.Month →
      getSheetName report = monthName report.DateFrom.Month) ∧
    (report.DateFrom.Month ≠ report.DateTo.Month →
      getSheetName report =
        monthName report.DateFrom.Month ++ " - " ++ monthName report.DateTo.Month) ∧
    getSheetName { DateFrom := { Year := 2024, Month := 3, Day := 1 },
                   DateTo := { Year := 2024, Month := 3, Day := 31 },
                   Projects := report.Projects } = "March" := by
  refine ⟨fun h => ?_, fun h => ?_, rfl⟩
  · unfold getSheetName; simp only [h, if_true]
  · unfold getSheetName; simp only [h, if_false]

theorem getSheetName_eq_witness :
    getSheetName sampleReport = "March" ∧
      getSheetName { DateFrom := { Year := 2024, Month := 3, Day := 25 },
                     DateTo := { Year := 2024, Month := 4, Day := 7 },
                     Projects := [] } = "March - April" :=
  ⟨(getSheetName_eq sampleReport).1 rfl,
   (getSheetName_eq { DateFrom := { Year := 2024, Month := 3, Day := 25 },
                      DateTo := { Year := 2024, Month := 4, Day := 7 },
                      Projects := [] }).2.1 (by decide)⟩

/-! ## Roster synchronisation: the projects of the updated roster -/

/-- C14. For every existing roster and report, the roster produced by
`updateProjectConfigs` has one project entry per project of the report, in
report order, with the report's key, display name, owner and manager; a key
that no project of the report has, the existing roster's included, has no entry. -/
theorem updateProjectConfigs_projects (rt : Runtime)
    (projectConfigWrapper : ProjectConfigWrapper) (report : Report) :
    (updateProjectConfigs rt projectConfigWrapper report).ProjectConfigs.length =
        report.Projects.length ∧
    (updateProjectConfigs rt projectConfigWrapper report).ProjectConfigs.map
        (fun c => (c.Key, c.DisplayName, c.Owner, c.Manager)) =
      report.Projects.map (fun p => (p.Key, p.DisplayName, p.Owner, p.Manager)) ∧
    ∀ key, (∀ p ∈ report.Projects, p.Key ≠ key) →
      (updateProjectConfigs rt projectConfigWrapper report).Get key = none := by
  refine ⟨?_, ?_, ?_⟩
  · simp [updateProjectConfigs]
  · simp only [updateProjectConfigs, List.map_map]
    rfl
  · intro key hkey
    unfold ProjectConfigWrapper.Get updateProjectConfigs
    rw [List.find?_eq_none]
    intro c hc
    obtain ⟨p, hp, rfl⟩ := List.mem_map.mp hc
    simpa [updateProjectConfig] using hkey p hp

/-- A report with the one project "NEW", which the roster of `sampleRoster`
does not hold. -/
def newProjectReport : Report :=
  { DateFrom := march1, DateTo := march31, Projects := [projectOf "NEW" ""] }

theorem updateProjectConfigs_projects_witness :
    (updateProjectConfigs Runtime.insertion sampleRoster newProjectReport).ProjectConfigs.length
      = 1 ∧
    (updateProjectConfigs Runtime.insertion sampleRoster newProjectReport).ProjectConfigs.map
        (fun c => (c.Key, c.DisplayName, c.Owner, c.Manager)) = [("NEW", "", "", "")] ∧
    (sampleRoster.Get "ABC").isSome = true ∧
    (updateProjectConfigs Runtime.insertion sampleRoster newProjectReport).Get "ABC" = none :=
  ⟨(updateProjectConfigs_projects Runtime.insertion sampleRoster newProjectReport).1,
   (updateProjectConfigs_projects Runtime.insertion sampleRoster newProjectReport).2.1,
   rfl,
   (updateProjectConfigs_projects Runtime.insertion sampleRoster newProjectReport).2.2 "ABC"
      (by decide)⟩

/-! ## Report creation: failures -/

/-- When `createProjects` succeeds, the fetch of every pair has succeeded. -/
theorem createProjects_fetches (rt : Runtime) (services : Services)
    (wrapper : ProjectConfigWrapper) (dateFrom dateTo : Time) (pairs : List (String × String))
    (projects : List Project)
    (h : createProjects rt services wrapper dateFrom dateTo pairs = Except.ok projects) :
    ∀ pair ∈ pairs, ∃ tempoResults,
      services.GetTempoWorklogs pair.1 pair.2 dateFrom dateTo = Except.ok tempoResults := by
  intro pair hpair
  obtain ⟨project, _, hproject⟩ :=
    forall₂_mem_left (createProjects_ok rt services wrapper dateFrom dateTo pairs projects h)
      pair hpair
  obtain ⟨_, _, _, _, tempoResults, hfetch, _⟩ :=
    getProject_ok rt services pair.1 _ dateFrom dateTo project hproject
  rw [projectConfigFor_key] at hfetch
  exact ⟨tempoResults, hfetch⟩

/-- The loops of `Create` stop at the first fetch that fails, with its error. -/
theorem createProjects_first_failure (rt : Runtime) (services : Services)
    (wrapper : ProjectConfigWrapper) (dateFrom dateTo : Time)
    (before : List (String × String)) (pair : String × String) (after : List (String × String))
    (err : String)
    (hbefore : ∀ q ∈ before, ∃ tempoResults,
      services.GetTempoWorklogs q.1 q.2 dateFrom dateTo = Except.ok tempoResults)
    (hfail : services.GetTempoWorklogs pair.1 pair.2 dateFrom dateTo = Except.error err) :
    createProjects rt services wrapper dateFrom dateTo (before ++ pair :: after) =
      Except.error err := by
  induction before with
  | nil =>
    obtain ⟨token, projectKey⟩ := pair
    simp only [List.nil_append, createProjects, getProject, projectConfigFor_key]
    simp only [] at hfail
    rw [hfail]
  | cons q rest ih =>
    obtain ⟨token, projectKey⟩ := q
    obtain ⟨tempoResults, hq⟩ := hbefore (token, projectKey) (List.mem_cons_self _ _)
    obtain ⟨users, husers, _⟩ := getUsers_ok rt tempoResults (projectConfigFor wrapper projectKey)
    simp only [] at hq
    have hrest := ih (fun q hq => hbefore q (List.mem_cons_of_mem _ hq))
    simp only [List.cons_append, createProjects, getProject, projectConfigFor_key, hq, husers]
    rw [show rest.append (pair :: after) = rest ++ pair :: after from rfl, hrest]

/-- C16. In `Create`: if the time-entry fetch fails for a (token, project) pair
that `Create` processes, `Create` returns an error and no report, and the roster
writer is never reached; the error is that of the fetch (the first one to fail,
after which no further fetch is made) once the roster has been read; and the
roster writer is reached only when the fetch of every pair has succeeded. -/
theorem Create_fetch_failure (rt : Runtime) (services : Services)
    (tokens : List TokenTempoAppConfig) (dateFrom dateTo : Time) :
    (∀ pair ∈ projectPairs tokens, ∀ err,
      services.GetTempoWorklogs pair.1 pair.2 dateFrom dateTo = Except.error err →
        (∃ e, (Create rt services tokens dateFrom dateTo).result = Except.error e) ∧
        (Create rt services tokens dateFrom dateTo).saved = none) ∧
    (∀ roster, services.Get = Except.ok roster →
      ∀ before pair after err, projectPairs tokens = before ++ pair :: after →
        (∀ q ∈ before, ∃ tempoResults,
          services.GetTempoWorklogs q.1 q.2 dateFrom dateTo = Except.ok tempoResults) →
        services.GetTempoWorklogs pair.1 pair.2 dateFrom dateTo = Except.error err →
        (Create rt services tokens dateFrom dateTo).result = Except.error err) ∧
    (∀ written, (Create rt services tokens dateFrom dateTo).saved = some written →
      ∀ pair ∈ projectPairs tokens, ∃ tempoResults,
        services.GetTempoWorklogs pair.1 pair.2 dateFrom dateTo = Except.ok tempoResults) := by
  have hsaved : ∀ written, (Create rt services tokens dateFrom dateTo).saved = some written →
      ∀ pair ∈ projectPairs tokens, ∃ tempoResults,
        services.GetTempoWorklogs pair.1 pair.2 dateFrom dateTo = Except.ok tempoResults := by
    intro written hw
    unfold Create at hw
    cases hg : services.Get with
    | error e => rw [hg] at hw; cases hw
    | ok wrapper =>
      rw [hg] at hw
      simp only [] at hw
      cases hc : createProjects rt services wrapper dateFrom dateTo (projectPairs tokens) with
      | error e => rw [hc] at hw; cases hw
      | ok projects => exact createProjects_fetches rt services wrapper dateFrom dateTo _ _ hc
  refine ⟨?_, ?_, hsaved⟩
  · intro pair hpair err hfail
    have hnone : (Create rt services tokens dateFrom dateTo).saved = none := by
      cases hs : (Create rt services tokens dateFrom dateTo).saved with
      | none => rfl
      | some written =>
        obtain ⟨tempoResults, hok⟩ := hsaved written hs pair hpair
        rw [hok] at hfail
        cases hfail
    refine ⟨?_, hnone⟩
    unfold Create at hnone ⊢
    cases hg : services.Get with
    | error e => exact ⟨e, rfl⟩
    | ok wrapper =>
      rw [hg] at hnone
      simp only [] at hnone ⊢
      cases hc : createProjects rt services wrapper dateFrom dateTo (projectPairs tokens) with
      | error e => exact ⟨e, rfl⟩
      | ok projects =>
        rw [hc] at hnone
        simp only [] at hnone
        split at hnone <;> cases hnone
  · intro roster hget before pair after err hsplit hbefore hfail
    unfold Create
    rw [hget]
    simp only []
    rw [hsplit, createProjects_first_failure rt services roster dateFrom dateTo before pair after
      err hbefore hfail]

/-- Collaborators whose worklog fetch fails for the project "NEW". -/
def failingServices : Services :=
  { Get := Except.ok sampleRoster
    GetTempoWorklogs := fun _ projectKey _ _ =>
      if projectKey = "ABC" then Except.ok sampleResults
      else Except.error "Tempo error: 500 Internal Server Error"
    saveProjectConfigs := fun _ => Except.ok () }

theorem Create_fetch_failure_witness :
    (Create Runtime.insertion failingServices sampleTokens march1 march31).result =
        Except.error "Tempo error: 500 Internal Server Error" ∧
      (Create Runtime.insertion failingServices sampleTokens march1 march31).saved = none :=
  ⟨(Create_fetch_failure Runtime.insertion failingServices sampleTokens march1 march31).2.1
      sampleRoster rfl [("secret", "ABC")] ("secret", "NEW") [] _ rfl
      (fun q hq => by
        rw [List.mem_singleton] at hq
        subst hq
        exact ⟨sampleResults, rfl⟩) rfl,
   ((Create_fetch_failure Runtime.insertion failingServices sampleTokens march1 march31).1
      ("secret", "NEW") (by decide) _ rfl).2⟩

/-! ## Colours of the projects: the palette -/

/-- One step of numbering values in order of first appearance. -/
def seenStep (seen : List String) (x : String) : List String :=
  if x ∈ seen then seen else seen ++ [x]

/-- The distinct values of a list in order of first appearance. -/
def firstSeen (l : List String) : List String := l.foldl seenStep []

/-- The distinct non-empty managers of the projects, in order of first
appearance: the manager at index `k` has number `k`. -/
def distinctManagers (projects : List Project) : List String :=
  firstSeen ((projects.map (fun p => p.Manager)).filter (fun m => decide (m ≠ "")))

theorem setEntries_of_not_mem {β : Type} (l : List (String × β)) (k : String) (v : β)
    (h : k ∉ l.map Prod.fst) : setEntries l k v = l ++ [(k, v)] := by
  induction l with
  | nil => rfl
  | cons p rest ih =>
    obtain ⟨k', v'⟩ := p
    simp only [List.map_cons, List.mem_cons, not_or] at h
    have hne : ¬ k' = k := fun e => h.1 e.symm
    simp only [setEntries, hne, if_false, ih h.2, List.cons_append]

theorem data_eq_nil_iff (s : String) : s.data = [] ↔ s = "" :=
  ⟨fun h => String.ext h, fun h => by rw [h]⟩

/-- What the first loop of `getProjectKeyToColor` maintains: the color index is
the number of managers seen, modulo 4, and the manager with number `k` has the
color of index `k % 4`. -/
def ManagerColorsInv (state : GoMap String × Nat) : Prop :=
  state.2 = (state.1.entries.map Prod.fst).length % 4 ∧
  ∀ k m, (state.1.entries.map Prod.fst)[k]? = some m →
    state.1.get? m = some (projectColors.getD (k % 4) "")

theorem assignManagerColor_inv (state : GoMap String × Nat) (p : Project)
    (h : ManagerColorsInv state) :
    ManagerColorsInv (assignManagerColor state p) ∧
      (assignManagerColor state p).1.entries.map Prod.fst =
        if p.Manager = "" then state.1.entries.map Prod.fst
        else seenStep (state.1.entries.map Prod.fst) p.Manager := by
  unfold assignManagerColor
  by_cases hm : p.Manager = ""
  · have : p.Manager.data = [] := (data_eq_nil_iff _).mpr hm
    simp only [this, if_true, hm]
    exact ⟨h, trivial⟩
  · have hd : ¬ p.Manager.data = [] := fun e => hm ((data_eq_nil_iff _).mp e)
    simp only [hd, if_false, hm]
    cases hg : state.1.get? p.Manager with
    | some c =>
      have hin : p.Manager ∈ state.1.entries.map Prod.fst := by
        by_contra hnot
        have := (lookupEntries_eq_none state.1.entries p.Manager).mpr hnot
        unfold GoMap.get? at hg
        rw [this] at hg
        cases hg
      simp only [seenStep, hin, if_true]
      exact ⟨h, trivial⟩
    | none =>
      have hnot : p.Manager ∉ state.1.entries.map Prod.fst :=
        (lookupEntries_eq_none state.1.entries p.Manager).mp hg
      have hentries : (state.1.set p.Manager (projectColors.getD state.2 "")).entries =
          state.1.entries ++ [(p.Manager, projectColors.getD state.2 "")] :=
        setEntries_of_not_mem _ _ _ hnot
      have hkeys : (state.1.set p.Manager (projectColors.getD state.2 "")).entries.map Prod.fst =
          state.1.entries.map Prod.fst ++ [p.Manager] := by
        rw [hentries, List.map_append]; rfl
      simp only [seenStep, hnot, if_false]
      refine ⟨⟨?_, ?_⟩, hkeys⟩
      · simp only [hkeys, List.length_append, List.length_singleton]
        have h1 := h.1
        have hlen : projectColors.length = 4 := rfl
        rw [hlen]
        split <;> omega
      · intro k m hk
        simp only [hkeys] at hk
        rw [GoMap.get?_set]
        by_cases hlt : k < (state.1.entries.map Prod.fst).length
        · rw [List.getElem?_append_left hlt] at hk
          have hmem : m ∈ state.1.entries.map Prod.fst := List.mem_iff_getElem?.mpr ⟨k, hk⟩
          have hne : ¬ p.Manager = m := fun e => hnot (e ▸ hmem)
          rw [if_neg hne]
          exact h.2 k m hk
        · rw [List.getElem?_append_right (by omega)] at hk
          have hk0 : k - (state.1.entries.map Prod.fst).length = 0 := by
            by_contra hne
            have hlen : [p.Manager].length ≤ k - (state.1.entries.map Prod.fst).length := by
              simp only [List.length_singleton]; omega
            rw [List.getElem?_eq_none hlen] at hk
            cases hk
          rw [hk0] at hk
          simp only [List.getElem?_cons_zero, Option.some.injEq] at hk
          rw [if_pos hk, h.1]
          have : k = (state.1.entries.map Prod.fst).length := by omega
          rw [this]

theorem foldl_assignManagerColor_inv (projects : List Project) (state : GoMap String × Nat)
    (h : ManagerColorsInv state) :
    ManagerColorsInv (projects.foldl assignManagerColor state) ∧
      (projects.foldl assignManagerColor state).1.entries.map Prod.fst =
        ((projects.map (fun p => p.Manager)).filter (fun m => decide (m ≠ ""))).foldl seenStep
          (state.1.entries.map Prod.fst) := by
  induction projects generalizing state with
  | nil => exact ⟨h, rfl⟩
  | cons p rest ih =>
    obtain ⟨hinv, hkeys⟩ := assignManagerColor_inv state p h
    obtain ⟨hinv', hkeys'⟩ := ih _ hinv
    refine ⟨hinv', ?_⟩
    rw [List.foldl_cons, hkeys', hkeys]
    by_cases hm : p.Manager = ""
    · simp [hm]
    · simp [hm, List.filter_cons]

/-- The manager with number `k` is given the palette color of index `k mod 4`. -/
theorem managerToColor_palette (projects : List Project) (k : Nat) (m : String)
    (hk : (distinctManagers projects)[k]? = some m) :
    (projects.foldl assignManagerColor (GoMap.empty, 0)).1.get? m =
        some (projectColors.getD (k % 4) "") ∧
      projectColors[k % 4]? = some (projectColors.getD (k % 4) "") := by
  have h0 : ManagerColorsInv (GoMap.empty, 0) := ⟨rfl, fun k m hk => by simp [GoMap.empty] at hk⟩
  obtain ⟨hinv, hkeys⟩ := foldl_assignManagerColor_inv projects (GoMap.empty, 0) h0
  constructor
  · apply hinv.2 k m
    rw [hkeys]
    exact hk
  · have h : k % 4 < 4 := Nat.mod_lt _ (by decide)
    generalize k % 4 = j at h
    interval_cases j <;> rfl

/-- When projects with the same key have the same manager, the color of a
project's key is the color of its manager. -/
theorem getProjectKeyToColor_key (projects : List Project)
    (hkeys : ∀ p ∈ projects, ∀ q ∈ projects, p.Key = q.Key → p.Manager = q.Manager)
    (p : Project) (hp : p ∈ projects) :
    (getProjectKeyToColor projects).get? p.Key =
      (projects.foldl assignManagerColor (GoMap.empty, 0)).1.get? p.Manager := by
  unfold getProjectKeyToColor
  simp only []
  rw [get?_assignProjectColor _ projects GoMap.empty p.Key
    ((projects.foldl assignManagerColor (GoMap.empty, 0)).1.get? p.Manager)
    (fun q hq hk => by rw [hkeys q hq p hp hk]), if_pos ⟨p, hp, rfl⟩]
  cases (projects.foldl assignManagerColor (GoMap.empty, 0)).1.get? p.Manager <;>
    simp [GoMap.get?_empty]

/-- The mapping is determined by the keys and managers of the projects, in order. -/
theorem getProjectKeyToColor_congr (projects projects' : List Project)
    (h : projects.map (fun p => (p.Key, p.Manager)) =
      projects'.map (fun p => (p.Key, p.Manager))) :
    getProjectKeyToColor projects = getProjectKeyToColor projects' := by
  have hfold : ∀ {σ : Type} (f : σ → Project → σ),
      (∀ s p q, (p.Key, p.Manager) = (q.Key, q.Manager) → f s p = f s q) →
      ∀ (l l' : List Project), l.map (fun p => (p.Key, p.Manager)) =
        l'.map (fun p => (p.Key, p.Manager)) → ∀ s, l.foldl f s = l'.foldl f s := by
    intro σ f hf l
    induction l with
    | nil =>
      intro l' hl s
      cases l' with
      | nil => rfl
      | cons q rest => simp at hl
    | cons p rest ih =>
      intro l' hl s
      cases l' with
      | nil => simp at hl
      | cons q rest' =>
        simp only [List.map_cons, List.cons.injEq] at hl
        rw [List.foldl_cons, List.foldl_cons, hf s p q hl.1]
        exact ih rest' hl.2 _
  have h1 : projects.foldl assignManagerColor (GoMap.empty, 0) =
      projects'.foldl assignManagerColor (GoMap.empty, 0) :=
    hfold assignManagerColor (fun s p q hpq => by
      simp only [Prod.mk.injEq] at hpq
      unfold assignManagerColor
      rw [hpq.2]) projects projects' h _
  unfold getProjectKeyToColor
  simp only []
  rw [h1]
  exact hfold _ (fun s p q hpq => by
    simp only [Prod.mk.injEq] at hpq
    unfold assignProjectColor
    rw [hpq.1, hpq.2]) projects projects' h _

/-- Five projects with five managers. -/
def fiveManagers : List Project :=
  [projectOf "A" "Mia", projectOf "B" "Al", projectOf "C" "Bo", projectOf "D" "Cy",
   projectOf "E" "Di", projectOf "F" "Al"]

/-- C11. The palette is "#46bdc6", "#92d050", "#b6d7a8", "#d9ead3".  For every
list of projects, if the distinct non-empty managers are numbered 0, 1, 2, ...
in order of first appearance in the list, every project whose manager has
number k is mapped by `getProjectKeyToColor` to palette[k mod 4]: this holds
for the projects of every report that `Create` builds, the lists on which the
program calls `getProjectKeyToColor`, and for every other list in which
projects with the same key have the same manager (in a report of `Create`
they do).  For every list the result depends only on the keys and managers
of the projects, in their order. -/
theorem getProjectKeyToColor_palette (projects : List Project) :
    projectColors = ["#46bdc6", "#92d050", "#b6d7a8", "#d9ead3"] ∧
    (((∃ rt services tokens dateFrom dateTo report,
        (Create rt services tokens dateFrom dateTo).result = Except.ok report ∧
        report.Projects = projects) ∨
      (∀ p ∈ projects, ∀ q ∈ projects, p.Key = q.Key → p.Manager = q.Manager)) →
      ∀ p ∈ projects, ∀ k, (distinctManagers projects)[k]? = some p.Manager →
        ∃ color, projectColors[k % 4]? = some color ∧
          (getProjectKeyToColor projects).get? p.Key = some color) ∧
    (∀ projects' : List Project,
      projects'.map (fun p => (p.Key, p.Manager)) = projects.map (fun p => (p.Key, p.Manager)) →
        getProjectKeyToColor projects' = getProjectKeyToColor projects) := by
  refine ⟨rfl, ?_, fun projects' h => getProjectKeyToColor_congr projects' projects h⟩
  intro hprojects p hp k hk
  have hkeys : ∀ p ∈ projects, ∀ q ∈ projects, p.Key = q.Key → p.Manager = q.Manager := by
    rcases hprojects with ⟨rt, services, tokens, dateFrom, dateTo, report, hcreate, rfl⟩ | hkeys
    · exact Create_key_manager rt services tokens dateFrom dateTo report hcreate
    · exact hkeys
  obtain ⟨hcolor, hpalette⟩ := managerToColor_palette projects k p.Manager hk
  exact ⟨_, hpalette, (getProjectKeyToColor_key projects hkeys p hp).trans hcolor⟩

theorem getProjectKeyToColor_palette_witness :
    (∃ color, projectColors[4 % 4]? = some color ∧
      (getProjectKeyToColor fiveManagers).get? "E" = some color) ∧
    (∃ color, projectColors[1 % 4]? = some color ∧
      (getProjectKeyToColor fiveManagers).get? "F" = some color) ∧
    (∃ color, projectColors[0 % 4]? = some color ∧
      (getProjectKeyToColor sampleCreated.Projects).get? "ABC" = some color) :=
  ⟨(getProjectKeyToColor_palette fiveManagers).2.1 (Or.inr (by decide)) (projectOf "E" "Di")
      (by decide) 4 (by decide),
   (getProjectKeyToColor_palette fiveManagers).2.1 (Or.inr (by decide)) (projectOf "F" "Al")
      (by decide) 1 (by decide),
   (getProjectKeyToColor_palette sampleCreated.Projects).2.1
      (Or.inl ⟨Runtime.insertion, sampleServices, sampleTokens, march1, march31,
        sampleCreated, sample_Create, rfl⟩)
      { Key := "ABC", DisplayName := "Alphabet", Owner := "Olga", Manager := "Mia"
        Users := [sampleAlice, sampleBob] } (by decide) 0 (by decide)⟩

/-- In a list that is of no report of `Create`, with projects that share a key:
in [A/Mia, A/Al] the manager "Mia" has number 0, and the project A/Mia is
mapped to palette[1]. -/
theorem getProjectKeyToColor_shared_key_palette :
    (distinctManagers [projectOf "A" "Mia", projectOf "A" "Al"])[0]? = some "Mia" ∧
      projectColors[0 % 4]? = some "#46bdc6" ∧
      (getProjectKeyToColor [projectOf "A" "Mia", projectOf "A" "Al"]).get?
        (projectOf "A" "Mia").Key = some "#92d050" := by
  decide

/-! ## Reading the roster (`services/project_config.go`) -/

/-- Value of a sequence of decimal digits, continuing from `acc`. -/
def parseDecimalDigits : List Char → Nat → Option Nat
  | [], acc => some acc
  | c :: cs, acc =>
    if '0' ≤ c ∧ c ≤ '9' then parseDecimalDigits cs (acc * 10 + (c.toNat - '0'.toNat))
    else none

/-- Go `strconv.Atoi`: an optional sign and then decimal digits, at least one,
and nothing else, with a value that fits an `int`; an error otherwise (its
message is kept without the quoting of the input). -/
def Atoi (s : String) : Except String GoInt64 :=
  match s.data with
  | [] => Except.error ("strconv.Atoi: parsing " ++ s ++ ": invalid syntax")
  | c :: cs =>
    let negative := decide (c = '-')
    let digits := if c = '+' ∨ c = '-' then cs else c :: cs
    if digits = [] then Except.error ("strconv.Atoi: parsing " ++ s ++ ": invalid syntax")
    else
      match parseDecimalDigits digits 0 with
      | none => Except.error ("strconv.Atoi: parsing " ++ s ++ ": invalid syntax")
      | some n =>
        let value : Int := if negative then -(n : Int) else (n : Int)
        if -9223372036854775808 ≤ value ∧ value < 9223372036854775808 then
          Except.ok (GoInt64.ofInt value)
        else Except.error ("strconv.Atoi: parsing " ++ s ++ ": value out of range")

/-- What excelize reads from one sheet of the roster file: its name, the values
of the cells B3, B4 and B5 (`f.GetCellValue`), the rows of `f.Rows(sheet)` with
the result of `rows.Columns()` for each (`none` for a nil slice), and the result
of `rows.Close()`. -/
structure RosterSheet where
  Name : String
  DisplayName : Except String String
  Owner : Except String String
  Manager : Except String String
  Rows : Except String (List (Except String (Option (List String))))
  RowsClose : Except String Unit

/-- The `User.HeaderRowIndex` of `ProjectConfigService.createContext`. -/
def HeaderRowIndex : Nat := 7

/-- Body of the loop of `getUserConfigs` for a row after the header row. -/
def userConfigsRow (userConfigs : GoMap UserConfig)
    (row : Except String (Option (List String))) : Except String (GoMap UserConfig) :=
  match row with
  | Except.error err => Except.error err
  | Except.ok none => Except.ok userConfigs
  | Except.ok (some rowCols) =>
    let userName := if rowCols.length > 0 then rowCols.getD 0 "" else ""
    if userName.data.length = 0 then Except.ok userConfigs
    else
      let position := if rowCols.length > 1 then rowCols.getD 1 "" else ""
      let rate := if rowCols.length > 2 then Atoi (rowCols.getD 2 "") else Except.ok 0
      match rate with
      | Except.error err => Except.error err
      | Except.ok rate =>
        Except.ok (userConfigs.set userName { Position := position, Rate := rate })

/-- The loop of `getUserConfigs` over the rows after the header row. -/
def userConfigsLoop (userConfigs : GoMap UserConfig) :
    List (Except String (Option (List String))) → Except String (GoMap UserConfig)
  | [] => Except.ok userConfigs
  | row :: rest =>
    match userConfigsRow userConfigs row with
    | Except.error err => Except.error err
    | Except.ok userConfigs => userConfigsLoop userConfigs rest

/-- `ProjectConfigService.getUserConfigs`: the rows up to the header row are
passed over without being read. -/
def getUserConfigs (sheet : RosterSheet) : Except String (GoMap UserConfig) :=
  match sheet.Rows with
  | Except.error err => Except.error err
  | Except.ok rows =>
    match userConfigsLoop GoMap.empty (rows.drop HeaderRowIndex) with
    | Except.error err => Except.error err
    | Except.ok userConfigs =>
      match sheet.RowsClose with
      | Except.error err => Except.error err
      | Except.ok _ => Except.ok userConfigs

/-- `ProjectConfigService.getProjectConfig`. -/
def getProjectConfig (sheet : RosterSheet) : Except String ProjectConfig :=
  match sheet.DisplayName with
  | Except.error err => Except.error err
  | Except.ok displayName =>
    match sheet.Owner with
    | Except.error err => Except.error err
    | Except.ok owner =>
      match sheet.Manager with
      | Except.error err => Except.error err
      | Except.ok manager =>
        match getUserConfigs sheet with
        | Except.error err => Except.error err
        | Except.ok userConfigs =>
          Except.ok
            { Key := sheet.Name
              DisplayName := displayName
              Owner := owner
              Manager := manager
              UserNameToConfig := userConfigs }

/-- The loop of `ProjectConfigService.Get` over the sheets. -/
def getProjectConfigs : List RosterSheet → Except String (List ProjectConfig)
  | [] => Except.ok []
  | sheet :: rest =>
    match getProjectConfig sheet with
    | Except.error err => Except.error err
    | Except.ok projectConfig =>
      match getProjectConfigs rest with
      | Except.error err => Except.error err
      | Except.ok projectConfigs => Except.ok (projectConfig :: projectConfigs)

/-- Result of `os.Stat` on the roster file: the file is there, the error is
`os.ErrNotExist`, or the error is another one. -/
inductive StatResult where
  | found
  | notExist
  | failed
deriving DecidableEq, Repr

/-- What the file system and excelize give `ProjectConfigService.Get`: the
result of `os.Stat`, of `excelize.OpenFile` with the sheets of
`f.GetSheetList()`, and of `f.Close()`. -/
structure RosterFile where
  Stat : StatResult
  Open : Except String (List RosterSheet)
  Close : Except String Unit

/-- `ProjectConfigService.Get`. -/
def ProjectConfigService.Get (file : RosterFile) : Except String ProjectConfigWrapper :=
  if file.Stat = StatResult.notExist then Except.ok { ProjectConfigs := [] }
  else
    match file.Open with
    | Except.error err => Except.error err
    | Except.ok sheets =>
      match getProjectConfigs sheets with
      | Except.error err => Except.error err
      | Except.ok projectConfigs =>
        match file.Close with
        | Except.error err => Except.error err
        | Except.ok _ => Except.ok { ProjectConfigs := projectConfigs }

/-! ### Reading the roster: claims -/

/-- Name that `getUserConfigs` reads in a row: its first column, "" without one. -/
def rowName (row : Except String (Option (List String))) : String :=
  match row with
  | Except.ok (some rowCols) => rowCols.getD 0 ""
  | _ => ""

theorem length_data_eq_zero_iff (s : String) : s.data.length = 0 ↔ s = "" := by
  rw [List.length_eq_zero]
  exact data_eq_nil_iff s

/-- A row with a name and a third column that `Atoi` rejects stops the loop with an error. -/
theorem userConfigsRow_malformed (userConfigs : GoMap UserConfig) (rowCols : List String)
    (name rate err : String) (hname : rowCols[0]? = some name) (hne : name ≠ "")
    (hrate : rowCols[2]? = some rate) (hbad : Atoi rate = Except.error err) :
    userConfigsRow userConfigs (Except.ok (some rowCols)) = Except.error err := by
  have h0 : rowCols.getD 0 "" = name := by simp [List.getD, hname]
  have h2 : rowCols.getD 2 "" = rate := by simp [List.getD, hrate]
  have hlen : rowCols.length > 2 := by
    by_contra h
    rw [List.getElem?_eq_none (by omega)] at hrate
    cases hrate
  have hl0 : rowCols.length > 0 := by omega
  have hnz : ¬ name.data.length = 0 := fun h => hne ((length_data_eq_zero_iff name).mp h)
  simp only [userConfigsRow, hl0, hlen, if_true, h0, h2, hnz, if_false, hbad]

theorem userConfigsLoop_error (userConfigs : GoMap UserConfig)
    (rows : List (Except String (Option (List String)))) (rowCols : List String)
    (hrow : Except.ok (some rowCols) ∈ rows)
    (name rate err : String) (hname : rowCols[0]? = some name) (hne : name ≠ "")
    (hrate : rowCols[2]? = some rate) (hbad : Atoi rate = Except.error err) :
    ∃ e, userConfigsLoop userConfigs rows = Except.error e := by
  induction rows generalizing userConfigs with
  | nil => cases hrow
  | cons row rest ih =>
    unfold userConfigsLoop
    cases hstep : userConfigsRow userConfigs row with
    | error e => exact ⟨e, rfl⟩
    | ok next =>
      rcases List.mem_cons.mp hrow with h | h
      · rw [← h, userConfigsRow_malformed userConfigs rowCols name rate err hname hne hrate
          hbad] at hstep
        cases hstep
      · exact ih next h

theorem getProjectConfigs_error (sheets : List RosterSheet) (sheet : RosterSheet)
    (hsheet : sheet ∈ sheets) (err : String) (h : getProjectConfig sheet = Except.error err) :
    ∃ e, getProjectConfigs sheets = Except.error e := by
  induction sheets with
  | nil => cases hsheet
  | cons first rest ih =>
    unfold getProjectConfigs
    cases hfirst : getProjectConfig first with
    | error e => exact ⟨e, rfl⟩
    | ok projectConfig =>
      rcases List.mem_cons.mp hsheet with hs | hs
      · rw [← hs, h] at hfirst
        cases hfirst
      · obtain ⟨e, he⟩ := ih hs
        exact ⟨e, by simp only [he]⟩

/-- A row that the loop accepts either leaves the map as it is or sets the
entry of its name, which is not "". -/
theorem userConfigsRow_ok (userConfigs next : GoMap UserConfig)
    (row : Except String (Option (List String)))
    (h : userConfigsRow userConfigs row = Except.ok next) :
    next = userConfigs ∨
      (rowName row ≠ "" ∧ ∃ config, next = userConfigs.set (rowName row) config) := by
  cases row with
  | error e => simp only [userConfigsRow] at h; cases h
  | ok cols =>
    cases cols with
    | none =>
      simp only [userConfigsRow, Except.ok.injEq] at h
      exact Or.inl h.symm
    | some rowCols =>
      have hname : (if rowCols.length > 0 then rowCols.getD 0 "" else "") = rowCols.getD 0 "" := by
        split
        · rfl
        · rename_i hl
          have : rowCols = [] := List.length_eq_zero.mp (by omega)
          rw [this]; rfl
      simp only [userConfigsRow, hname] at h
      by_cases hz : (rowCols.getD 0 "").data.length = 0
      · simp only [hz, if_true, Except.ok.injEq] at h
        exact Or.inl h.symm
      · simp only [hz, if_false] at h
        right
        refine ⟨fun e => hz ((length_data_eq_zero_iff _).mpr e), ?_⟩
        split at h
        · cases h
        · simp only [Except.ok.injEq] at h
          exact ⟨_, h.symm⟩

/-- The name "" is never a key of the map that the loop builds. -/
theorem userConfigsLoop_empty_name (rows : List (Except String (Option (List String))))
    (userConfigs result : GoMap UserConfig)
    (h : userConfigsLoop userConfigs rows = Except.ok result) :
    result.get? "" = userConfigs.get? "" := by
  induction rows generalizing userConfigs with
  | nil =>
    simp only [userConfigsLoop, Except.ok.injEq] at h
    rw [h]
  | cons row rest ih =>
    simp only [userConfigsLoop] at h
    cases hstep : userConfigsRow userConfigs row with
    | error e => rw [hstep] at h; cases h
    | ok next =>
      rw [hstep] at h
      rw [ih next h]
      rcases userConfigsRow_ok userConfigs next row hstep with hsame | ⟨hne, config, hset⟩
      · rw [hsame]
      · rw [hset, GoMap.get?_set, if_neg hne]

/-- Rows whose name is not `name` leave the entry of `name` as it is. -/
theorem userConfigsLoop_other_names (rows : List (Except String (Option (List String))))
    (userConfigs result : GoMap UserConfig) (name : String)
    (hother : ∀ row ∈ rows, rowName row ≠ name)
    (h : userConfigsLoop userConfigs rows = Except.ok result) :
    result.get? name = userConfigs.get? name := by
  induction rows generalizing userConfigs with
  | nil =>
    simp only [userConfigsLoop, Except.ok.injEq] at h
    rw [h]
  | cons row rest ih =>
    simp only [userConfigsLoop] at h
    cases hstep : userConfigsRow userConfigs row with
    | error e => rw [hstep] at h; cases h
    | ok next =>
      rw [hstep] at h
      rw [ih next (fun r hr => hother r (List.mem_cons_of_mem _ hr)) h]
      rcases userConfigsRow_ok userConfigs next row hstep with hsame | ⟨_, config, hset⟩
      · rw [hsame]
      · rw [hset, GoMap.get?_set, if_neg (hother row (List.mem_cons_self _ _))]

theorem userConfigsLoop_append (rows₁ rows₂ : List (Except String (Option (List String))))
    (userConfigs result : GoMap UserConfig)
    (h : userConfigsLoop userConfigs (rows₁ ++ rows₂) = Except.ok result) :
    ∃ middle, userConfigsLoop userConfigs rows₁ = Except.ok middle ∧
      userConfigsLoop middle rows₂ = Except.ok result := by
  induction rows₁ generalizing userConfigs with
  | nil => exact ⟨userConfigs, rfl, h⟩
  | cons row rest ih =>
    simp only [List.cons_append, userConfigsLoop] at h
    cases hstep : userConfigsRow userConfigs row with
    | error e => rw [hstep] at h; cases h
    | ok next =>
      rw [hstep] at h
      obtain ⟨middle, h1, h2⟩ := ih next h
      refine ⟨middle, ?_, h2⟩
      simp only [userConfigsLoop, hstep]
      exact h1

theorem getUserConfigs_loop (sheet : RosterSheet)
    (rows : List (Except String (Option (List String)))) (hrows : sheet.Rows = Except.ok rows)
    (userConfigs : GoMap UserConfig) (h : getUserConfigs sheet = Except.ok userConfigs) :
    userConfigsLoop GoMap.empty (rows.drop HeaderRowIndex) = Except.ok userConfigs := by
  unfold getUserConfigs at h
  rw [hrows] at h
  simp only [] at h
  cases hloop : userConfigsLoop GoMap.empty (rows.drop HeaderRowIndex) with
  | error e => rw [hloop] at h; cases h
  | ok result =>
    rw [hloop] at h
    simp only [] at h
    split at h
    · cases h
    · simp only [Except.ok.injEq] at h
      rw [h]

/-- A row with a name and fewer than three columns sets the rate 0. -/
theorem userConfigsRow_short (userConfigs : GoMap UserConfig) (rowCols : List String)
    (hname : rowCols.getD 0 "" ≠ "") (hshort : rowCols.length < 3) :
    userConfigsRow userConfigs (Except.ok (some rowCols)) =
      Except.ok (userConfigs.set (rowCols.getD 0 "")
        { Position := rowCols.getD 1 "", Rate := 0 }) := by
  have hl0 : rowCols.length > 0 := by
    by_contra h
    have : rowCols = [] := List.length_eq_zero.mp (by omega)
    rw [this] at hname
    exact hname rfl
  have hnz : ¬ (rowCols.getD 0 "").data.length = 0 :=
    fun h => hname ((length_data_eq_zero_iff _).mp h)
  have hl2 : ¬ rowCols.length > 2 := by omega
  have hpos : (if rowCols.length > 1 then rowCols.getD 1 "" else "") = rowCols.getD 1 "" := by
    split
    · rfl
    · rename_i hl
      simp [List.getD, List.getElem?_eq_none (show rowCols.length ≤ 1 by omega)]
  simp only [userConfigsRow, hl0, if_true, hnz, if_false, hl2, hpos]

/-- C18. In the user table of a roster sheet, a row after the header row with
a non-empty name and a third column that strconv.Atoi rejects makes
getUserConfigs fail with an error (no user map), and with it
ProjectConfigService.Get and Create, which then never reaches the roster
writer; rows with an empty name are skipped (the empty string is no key of
the map); and a row with a name and fewer than three columns gives that name
the rate 0. -/
theorem getUserConfigs_rows (sheet : RosterSheet)
    (rows : List (Except String (Option (List String))))
    (hrows : sheet.Rows = Except.ok rows) :
    (∀ rowCols name rate err, Except.ok (some rowCols) ∈ rows.drop HeaderRowIndex →
      rowCols[0]? = some name → name ≠ "" → rowCols[2]? = some rate →
      Atoi rate = Except.error err →
        (∃ e, getUserConfigs sheet = Except.error e) ∧
        ∀ (file : RosterFile) (sheets : List RosterSheet),
          file.Stat ≠ StatResult.notExist → file.Open = Except.ok sheets → sheet ∈ sheets →
            (∃ e, ProjectConfigService.Get file = Except.error e) ∧
            ∀ (rt : Runtime) (services : Services) (tokens : List TokenTempoAppConfig)
              (dateFrom dateTo : Time), services.Get = ProjectConfigService.Get file →
                (∃ e, (Create rt services tokens dateFrom dateTo).result = Except.error e) ∧
                (Create rt services tokens dateFrom dateTo).saved = none) ∧
    (∀ userConfigs, getUserConfigs sheet = Except.ok userConfigs →
      userConfigs.get? "" = none) ∧
    (∀ (userConfigs : GoMap UserConfig) (rowCols : List String), rowCols.getD 0 "" = "" →
      userConfigsRow userConfigs (Except.ok (some rowCols)) = Except.ok userConfigs) ∧
    (∀ before rowCols after userConfigs,
      rows.drop HeaderRowIndex = before ++ Except.ok (some rowCols) :: after →
      rowCols.getD 0 "" ≠ "" → rowCols.length < 3 →
      (∀ row ∈ after, rowName row ≠ rowCols.getD 0 "") →
      getUserConfigs sheet = Except.ok userConfigs →
        userConfigs.get? (rowCols.getD 0 "") =
          some { Position := rowCols.getD 1 "", Rate := 0 }) := by
  refine ⟨?_, ?_, ?_, ?_⟩
  · intro rowCols name rate err hrow hname hne hrate hbad
    have hfail : ∃ e, getUserConfigs sheet = Except.error e := by
      obtain ⟨e, he⟩ := userConfigsLoop_error GoMap.empty _ rowCols hrow name rate err hname hne
        hrate hbad
      exact ⟨e, by simp only [getUserConfigs, hrows, he]⟩
    refine ⟨hfail, ?_⟩
    intro file sheets hstat hopen hsheet
    obtain ⟨e, he⟩ := hfail
    have hconfig : ∃ e', getProjectConfig sheet = Except.error e' := by
      unfold getProjectConfig
      rw [he]
      cases sheet.DisplayName with
      | error e₁ => exact ⟨e₁, rfl⟩
      | ok _ =>
        cases sheet.Owner with
        | error e₂ => exact ⟨e₂, rfl⟩
        | ok _ =>
          cases sheet.Manager with
          | error e₃ => exact ⟨e₃, rfl⟩
          | ok _ => exact ⟨e, rfl⟩
    obtain ⟨e', he'⟩ := hconfig
    obtain ⟨e'', he''⟩ := getProjectConfigs_error sheets sheet hsheet e' he'
    have hget : ProjectConfigService.Get file = Except.error e'' := by
      simp only [ProjectConfigService.Get, hstat, if_false, hopen, he'']
    refine ⟨⟨e'', hget⟩, ?_⟩
    intro rt services tokens dateFrom dateTo hservices
    rw [hget] at hservices
    refine ⟨⟨e'', ?_⟩, ?_⟩ <;> simp only [Create, hservices]
  · intro userConfigs h
    rw [userConfigsLoop_empty_name _ _ _ (getUserConfigs_loop sheet rows hrows userConfigs h)]
    rfl
  · intro userConfigs rowCols hname
    have hname' : (if rowCols.length > 0 then rowCols.getD 0 "" else "") = "" := by
      split
      · exact hname
      · rfl
    simp only [userConfigsRow, hname']
    rfl
  · intro before rowCols after userConfigs hsplit hname hshort hafter h
    have hloop := getUserConfigs_loop sheet rows hrows userConfigs h
    rw [hsplit] at hloop
    obtain ⟨middle, _, hrest⟩ := userConfigsLoop_append before _ GoMap.empty userConfigs hloop
    simp only [userConfigsLoop, userConfigsRow_short middle rowCols hname hshort] at hrest
    rw [userConfigsLoop_other_names after _ userConfigs _ hafter hrest, GoMap.get?_set,
      if_pos rfl]

/-- The seven rows of a roster sheet up to the header row of the user table. -/
def sampleHeaderRows : List (Except String (Option (List String))) :=
  [Except.ok (some ["Project Info"]), Except.ok (some ["Key", "ABC"]),
   Except.ok (some ["Display Name", "Alphabet"]), Except.ok (some ["Owner", "Olga"]),
   Except.ok (some ["Manager", "Mia"]), Except.ok none,
   Except.ok (some ["Name", "Position", "Rate"])]

/-- A roster sheet with a row without a name and a row of two columns. -/
def sampleSheet : RosterSheet :=
  { Name := "ABC"
    DisplayName := Except.ok "Alphabet"
    Owner := Except.ok "Olga"
    Manager := Except.ok "Mia"
    Rows := Except.ok (sampleHeaderRows ++
      [Except.ok (some ["bob", "dev", "40"]), Except.ok (some ["", "ghost", "x"]),
       Except.ok (some ["Zed", "qa"])])
    RowsClose := Except.ok () }

/-- A roster sheet with a rate that is no integer. -/
def malformedSheet : RosterSheet :=
  { Name := "NEW"
    DisplayName := Except.ok ""
    Owner := Except.ok ""
    Manager := Except.ok ""
    Rows := Except.ok (sampleHeaderRows ++ [Except.ok (some ["Ann", "dev", "40.5"])])
    RowsClose := Except.ok () }

theorem getUserConfigs_rows_witness :
    (∃ e, getUserConfigs malformedSheet = Except.error e) ∧
      (getUserConfigs sampleSheet).map (fun m => (m.get? "Zed", m.get? "", m.get? "bob")) =
        Except.ok (some { Position := "qa", Rate := 0 }, none,
          some { Position := "dev", Rate := 40 }) :=
  ⟨((getUserConfigs_rows malformedSheet _ rfl).1 ["Ann", "dev", "40.5"] "Ann" "40.5"
      "strconv.Atoi: parsing 40.5: invalid syntax" (by decide) rfl (by decide) rfl
      (by decide)).1,
   by decide⟩

/-! ## Roster synchronisation with an absent roster file: claims -/

/-- The roster entry that `updateProjectConfigs` writes for a user of the report. -/
def rosterEntry (u : User) : String × UserConfig :=
  (u.Name, { Position := u.Position, Rate := u.Rate })

theorem isSome_updateFromReport (users : List User) (acc : GoMap UserConfig) (name : String) :
    (users.foldl updateFromReport acc).get? name ≠ none ↔
      (∃ u ∈ users, u.Name = name) ∨ acc.get? name ≠ none := by
  induction users generalizing acc with
  | nil => simp
  | cons u rest ih =>
    rw [List.foldl_cons, ih]
    unfold updateFromReport
    rw [GoMap.get?_set]
    by_cases hu : u.Name = name
    · simp [hu]
    · simp [hu]

theorem entries_updateFromReport (users : List User) (acc : GoMap UserConfig)
    (hnodup : (users.map (fun u => u.Name)).Nodup)
    (hnew : ∀ u ∈ users, u.Name ∉ acc.entries.map Prod.fst) :
    (users.foldl updateFromReport acc).entries = acc.entries ++ users.map rosterEntry := by
  induction users generalizing acc with
  | nil => simp
  | cons u rest ih =>
    rw [List.map_cons, List.nodup_cons] at hnodup
    have hu : u.Name ∉ acc.entries.map Prod.fst := hnew u (List.mem_cons_self _ _)
    have hstep : (updateFromReport acc u).entries = acc.entries ++ [rosterEntry u] :=
      setEntries_of_not_mem acc.entries u.Name _ hu
    rw [List.foldl_cons, ih _ hnodup.2, hstep]
    · simp
    · intro v hv hmem
      rw [hstep, List.map_append, List.mem_append] at hmem
      rcases hmem with hmem | hmem
      · exact hnew v (List.mem_cons_of_mem _ hv) hmem
      · simp only [rosterEntry, List.map_cons, List.map_nil, List.mem_singleton] at hmem
        exact hnodup.1 (List.mem_map.mpr ⟨v, hv, hmem⟩)

/-- C15 (amended). When the roster file is absent, `ProjectConfigService.Get`
returns an empty roster and no error, and for every report the roster that
`updateProjectConfigs` builds from that empty roster holds, for each project
of the report, an entry under a name exactly when a user of the project has
that name; when the users of the project have pairwise distinct display
names, the entries are exactly the users of the project, one entry per user,
each with that user's position and rate. -/
theorem updateProjectConfigs_absent_roster (rt : Runtime) (file : RosterFile)
    (hstat : file.Stat = StatResult.notExist) (report : Report) :
    ∃ wrapper, ProjectConfigService.Get file = Except.ok wrapper ∧
      wrapper.ProjectConfigs = [] ∧
      ∀ updated reportProject,
        (updated, reportProject) ∈
          (updateProjectConfigs rt wrapper report).ProjectConfigs.zip report.Projects →
        (∀ name, updated.UserNameToConfig.get? name ≠ none ↔
          ∃ u ∈ reportProject.Users, u.Name = name) ∧
        ((reportProject.Users.map (fun u => u.Name)).Nodup →
          updated.UserNameToConfig.entries.Perm (reportProject.Users.map rosterEntry)) := by
  refine ⟨{ ProjectConfigs := [] }, ?_, rfl, ?_⟩
  · simp only [ProjectConfigService.Get, hstat, if_true]
  · intro updated reportProject hpair
    obtain ⟨hupd, _⟩ := mem_zip_update rt _ report updated reportProject hpair
    have hmap : updated.UserNameToConfig =
        reportProject.Users.foldl updateFromReport GoMap.empty := by
      rw [hupd]
      rfl
    rw [hmap]
    refine ⟨fun name => ?_, fun hnodup => ?_⟩
    · rw [isSome_updateFromReport]
      simp [GoMap.get?_empty]
    · rw [entries_updateFromReport _ _ hnodup (fun u _ h => by cases h)]
      exact List.Perm.refl _

/-- What `ProjectConfigService.Get` meets when there is no roster file. -/
def absentFile : RosterFile :=
  { Stat := StatResult.notExist
    Open := Except.error "open roster.xlsx: no such file or directory"
    Close := Except.ok () }

theorem updateProjectConfigs_absent_roster_witness :
    (updateProjectConfig Runtime.insertion { ProjectConfigs := [] }
        sampleProject).UserNameToConfig.entries.Perm
      [("Alice", { Position := "", Rate := 0 }), ("bob", { Position := "lead", Rate := 50 })] := by
  obtain ⟨wrapper, _, hempty, h⟩ :=
    updateProjectConfigs_absent_roster Runtime.insertion absentFile rfl sampleReport
  obtain ⟨configs⟩ := wrapper
  simp only [] at hempty
  subst hempty
  exact (h _ sampleProject (List.mem_cons_self _ _)).2 (by decide)

/-- Collaborators of a run without a roster file, in which two accounts with
the display name "Ann" have logged time on the project. -/
def namesakeServices : Services :=
  { Get := ProjectConfigService.Get absentFile
    GetTempoWorklogs := fun _ _ _ _ =>
      Except.ok [sampleEntry "u1" "Ann" "ABC-1" "2024-03-05" 3600,
                 sampleEntry "u2" "Ann" "ABC-1" "2024-03-06" 1800]
    saveProjectConfigs := fun _ => Except.ok () }

/-- C15 as stated fails: with the empty roster of an absent roster file, a
project of the report with two users of the same display name gets one roster
entry, not one per user, and the entry does not carry the rate of the first;
so it is in a run of `Create` without a roster file in which two accounts
named "Ann" have logged time: the report has two users, the roster that is
saved one entry. -/
theorem updateProjectConfigs_absent_roster_counterexample :
    (∃ wrapper, ProjectConfigService.Get absentFile = Except.ok wrapper ∧
      (updateProjectConfigs Runtime.insertion wrapper namesakesReport).ProjectConfigs.map
          (fun updated => updated.UserNameToConfig.entries) =
        [[("Ann", { Position := "dev", Rate := 20 })]] ∧
      namesakesReport.Projects.map (fun p => p.Users.map rosterEntry) =
        [[("Ann", { Position := "dev", Rate := 10 }), ("Ann", { Position := "dev", Rate := 20 })]]) ∧
    (Create Runtime.insertion namesakeServices [{ Token := "secret", Projects := "ABC" }]
        march1 march31).result.map (fun report => report.Projects.map
          (fun p => p.Users.map (fun u => (u.AccountId, rosterEntry u)))) =
      Except.ok [[("u1", "Ann", { Position := "", Rate := 0 }),
                  ("u2", "Ann", { Position := "", Rate := 0 })]] ∧
    (Create Runtime.insertion namesakeServices [{ Token := "secret", Projects := "ABC" }]
        march1 march31).saved.map (fun roster => roster.ProjectConfigs.map
          (fun updated => updated.UserNameToConfig.entries)) =
      some [[("Ann", { Position := "", Rate := 0 })]] :=
  ⟨⟨{ ProjectConfigs := [] }, rfl, by decide, by decide⟩, by rfl, by rfl⟩

/-! ## Order of users with tied names: claims -/

/-- A runtime: maps are visited in the reverse order of their entries, slices
are sorted by insertion (a stable sort). -/
def Runtime.reversedRange : Runtime where
  rangeOrder := fun _ l => l.reverse
  rangeOrder_perm := fun _ l => List.reverse_perm l
  sortSlice := fun less l => List.insertionSort (fun a b => less b a = false) l
  sortSlice_perm := fun _ l => List.perm_insertionSort _ l
  sortSlice_sorted := fun less h l => insertionSort_sorted less h l
  toLower := asciiLower

/-- What identifies a user of the report apart from the issues. -/
def userKey (u : User) : String × String × String × GoInt64 :=
  (u.AccountId, u.Name, u.Position, u.Rate)

/-- The key of the user that `getUsers` builds from a group of results. -/
def groupKey (projectConfig : ProjectConfig) (kv : String × List TempoResult) :
    String × String × String × GoInt64 :=
  match kv.2 with
  | [] => ("", "", "", 0)
  | first :: _ =>
    (first.Author.AccountId, first.Author.DisplayName,
      (userConfigOf projectConfig first.Author.DisplayName).Position,
      (userConfigOf projectConfig first.Author.DisplayName).Rate)

theorem forall₂_map_eq {α β γ : Type} {R : α → β → Prop} (f : α → γ) (g : β → γ)
    (hR : ∀ a b, R a b → g b = f a) {l : List α} {u : List β} (h : List.Forall₂ R l u) :
    u.map g = l.map f := by
  induction h with
  | nil => rfl
  | cons hr _ ih => rw [List.map_cons, List.map_cons, ih, hR _ _ hr]

/-- The users of the result of `getUsers`, apart from their issues, are those
of the groups by account id, in some order. -/
theorem getUsers_keys_perm (rt : Runtime) (results : List TempoResult)
    (projectConfig : ProjectConfig) :
    ∃ users, getUsers rt results projectConfig = Except.ok users ∧
      (users.map userKey).Perm
        ((results.foldl (groupStep (fun r => r.Author.AccountId)) GoMap.empty).entries.map
          (groupKey projectConfig)) ∧
      List.Pairwise (fun a b => rt.toLower a.Name ≤ rt.toLower b.Name) users := by
  obtain ⟨unsorted, hu, hall⟩ := getUsers_eq_sort rt results projectConfig
  refine ⟨_, hu, ?_, ?_⟩
  · have hmap : unsorted.map userKey =
        ((results.foldl (groupStep (fun r => r.Author.AccountId)) GoMap.empty).range rt []).map
          (groupKey projectConfig) := by
      refine forall₂_map_eq (groupKey projectConfig) userKey ?_ hall
      rintro kv u ⟨first, rest, hkv, hueq⟩
      rw [hueq]
      unfold groupKey
      rw [hkv]
      rfl
    refine ((rt.sortSlice_perm (userLess rt) unsorted).map userKey).trans ?_
    rw [hmap]
    exact (rt.rangeOrder_perm _ _).map _
  · refine (rt.sortSlice_sorted (userLess rt) (userLess_strictWeakOrder rt) unsorted).imp ?_
    intro a b h
    exact (stringLess_eq_false_iff _ _).mp h

/-- Two issues with the same key and the same efforts, up to the order of the
efforts. -/
def SameIssue (a b : Issue) : Prop := a.Key = b.Key ∧ a.Efforts.Perm b.Efforts

/-- Two lists with the same elements up to `R`, up to their order. -/
def PermUpTo {α : Type} (R : α → α → Prop) (l₁ l₂ : List α) : Prop :=
  ∃ l, l₁.Perm l ∧ List.Forall₂ R l l₂

/-- Two users with the same account id, name, position and rate and the same
issues, up to the order of the issues and of the efforts of an issue. -/
def SameUser (u v : User) : Prop :=
  u.AccountId = v.AccountId ∧ u.Name = v.Name ∧ u.Position = v.Position ∧ u.Rate = v.Rate ∧
    PermUpTo SameIssue u.Issues v.Issues

/-- The user that `getUsers` builds from an entry of its map. -/
def userOfGroup (rt : Runtime) (projectConfig : ProjectConfig)
    (kv : String × List TempoResult) : User :=
  match kv.2 with
  | [] => { AccountId := "", Name := "", Position := "", Rate := 0, Issues := [] }
  | first :: _ => userOf rt projectConfig kv.1 kv.2 first

theorem forall₂_map_same {α β : Type} (R : β → β → Prop) (f g : α → β) (l : List α)
    (h : ∀ x ∈ l, R (f x) (g x)) : List.Forall₂ R (l.map f) (l.map g) := by
  induction l with
  | nil => exact List.Forall₂.nil
  | cons x rest ih =>
    exact List.Forall₂.cons (h x (List.mem_cons_self _ _))
      (ih (fun y hy => h y (List.mem_cons_of_mem _ hy)))

theorem permUpTo_map {α β : Type} (R : β → β → Prop) (f g : α → β) (l₁ l₂ : List α)
    (hperm : l₁.Perm l₂) (h : ∀ x ∈ l₂, R (f x) (g x)) :
    PermUpTo R (l₁.map f) (l₂.map g) :=
  ⟨l₂.map f, hperm.map f, forall₂_map_same R f g l₂ h⟩

theorem permUpTo_perm {α : Type} (R : α → α → Prop) (l₁ l₂ l₃ l₄ : List α)
    (h₁ : l₁.Perm l₂) (h : PermUpTo R l₂ l₃) (h₃ : l₃.Perm l₄) : PermUpTo R l₁ l₄ := by
  obtain ⟨l, hl, hall⟩ := h
  have hcomp : Relation.Comp (List.Forall₂ R) List.Perm l l₄ := ⟨l₃, hall, h₃⟩
  rw [List.forall₂_comp_perm_eq_perm_comp_forall₂] at hcomp
  obtain ⟨l', hl', hall'⟩ := hcomp
  exact ⟨l', (h₁.trans hl).trans hl', hall'⟩

theorem range_perm {β : Type} (rt₁ rt₂ : Runtime) (site₁ site₂ : List String) (m : GoMap β) :
    (m.range rt₁ site₁).Perm (m.range rt₂ site₂) :=
  (rt₁.rangeOrder_perm site₁ m.entries).trans (rt₂.rangeOrder_perm site₂ m.entries).symm

theorem effortsList_perm (rt₁ rt₂ : Runtime) (site₁ site₂ : List String)
    (results : List TempoResult) :
    (effortsList rt₁ site₁ results).Perm (effortsList rt₂ site₂ results) :=
  (range_perm rt₁ rt₂ site₁ site₂ _).map _

theorem issuesList_permUpTo (rt₁ rt₂ : Runtime) (site₁ site₂ : List String)
    (results : List TempoResult) :
    PermUpTo SameIssue (issuesList rt₁ site₁ results) (issuesList rt₂ site₂ results) :=
  permUpTo_map SameIssue (issueOf rt₁ site₁) (issueOf rt₂ site₂) _ _
    (range_perm rt₁ rt₂ site₁ site₂ _)
    (fun kv _ => ⟨rfl, effortsList_perm rt₁ rt₂ _ _ kv.2⟩)

theorem sameUser_userOfGroup (rt₁ rt₂ : Runtime) (projectConfig : ProjectConfig)
    (kv : String × List TempoResult) :
    SameUser (userOfGroup rt₁ projectConfig kv) (userOfGroup rt₂ projectConfig kv) := by
  obtain ⟨k, rs⟩ := kv
  cases rs with
  | nil => exact ⟨rfl, rfl, rfl, rfl, [], List.Perm.nil, List.Forall₂.nil⟩
  | cons first rest =>
    exact ⟨rfl, rfl, rfl, rfl, issuesList_permUpTo rt₁ rt₂ [k] [k] (first :: rest)⟩

/-- The result of `getUsers`: the users built from the groups by account id,
in an order in which the lower-cased names do not descend. -/
theorem getUsers_perm_groups (rt : Runtime) (results : List TempoResult)
    (projectConfig : ProjectConfig) :
    ∃ users, getUsers rt results projectConfig = Except.ok users ∧
      users.Perm
        (((results.foldl (groupStep (fun r => r.Author.AccountId)) GoMap.empty).range rt []).map
          (userOfGroup rt projectConfig)) ∧
      List.Pairwise (fun a b => rt.toLower a.Name ≤ rt.toLower b.Name) users := by
  obtain ⟨unsorted, hu, hall⟩ := getUsers_eq_sort rt results projectConfig
  refine ⟨_, hu, ?_, ?_⟩
  · have hmap : unsorted.map id =
        ((results.foldl (groupStep (fun r => r.Author.AccountId)) GoMap.empty).range rt []).map
          (userOfGroup rt projectConfig) := by
      refine forall₂_map_eq (userOfGroup rt projectConfig) id ?_ hall
      rintro kv u ⟨first, rest, hkv, hueq⟩
      rw [hueq]
      unfold userOfGroup
      rw [hkv]
      rfl
    rw [List.map_id] at hmap
    rw [← hmap]
    exact rt.sortSlice_perm (userLess rt) unsorted
  · refine (rt.sortSlice_sorted (userLess rt) (userLess_strictWeakOrder rt) unsorted).imp ?_
    intro a b h
    exact (stringLess_eq_false_iff _ _).mp h

/-- C17 (amended). For every list of raw entries and any two runs (two
runtimes with the same `strings.ToLower`), `getUsers` returns the same users
up to their order: users with the same account id, name, position and rate
and the same issues with the same efforts, the issues of a user and the
efforts of an issue up to their order; and it returns the same sequence of
lower-cased display names.  When no two users have the same lower-cased name,
the users come in the same order on both runs.  The order among users with
tied names is not fixed by the input. -/
theorem getUsers_tied_names (rt₁ rt₂ : Runtime) (hlower : rt₁.toLower = rt₂.toLower)
    (results : List TempoResult) (projectConfig : ProjectConfig) :
    ∃ users₁ users₂, getUsers rt₁ results projectConfig = Except.ok users₁ ∧
      getUsers rt₂ results projectConfig = Except.ok users₂ ∧
      PermUpTo SameUser users₁ users₂ ∧
      users₁.map (fun u => rt₁.toLower u.Name) = users₂.map (fun u => rt₂.toLower u.Name) ∧
      ((users₁.map (fun u => rt₁.toLower u.Name)).Nodup →
        List.Forall₂ SameUser users₁ users₂) := by
  obtain ⟨users₁, h₁, hperm₁, hsorted₁⟩ := getUsers_perm_groups rt₁ results projectConfig
  obtain ⟨users₂, h₂, hperm₂, hsorted₂⟩ := getUsers_perm_groups rt₂ results projectConfig
  have hsame : PermUpTo SameUser users₁ users₂ :=
    permUpTo_perm SameUser _ _ _ _ hperm₁
      (permUpTo_map SameUser (userOfGroup rt₁ projectConfig) (userOfGroup rt₂ projectConfig) _ _
        (range_perm rt₁ rt₂ [] [] _) (fun kv _ => sameUser_userOfGroup rt₁ rt₂ projectConfig kv))
      hperm₂.symm
  rw [← hlower] at hsorted₂
  obtain ⟨l, hl, hall⟩ := hsame
  have hlnames : users₂.map (fun u => rt₁.toLower u.Name) =
      l.map (fun u => rt₁.toLower u.Name) :=
    forall₂_map_eq (fun u : User => rt₁.toLower u.Name) (fun u : User => rt₁.toLower u.Name)
      (fun a b hab => by simp only [hab.2.1]) hall
  have hlsorted : List.Pairwise (fun a b => rt₁.toLower a.Name ≤ rt₁.toLower b.Name) l := by
    have hs : List.Pairwise (fun a b : String => a ≤ b)
        (users₂.map (fun u => rt₁.toLower u.Name)) := (List.pairwise_map).mpr hsorted₂
    rw [hlnames] at hs
    exact (List.pairwise_map).mp hs
  have hnames : users₁.map (fun u => rt₁.toLower u.Name) =
      users₂.map (fun u => rt₂.toLower u.Name) := by
    rw [← hlower, hlnames]
    have hs₁ : List.Sorted (fun a b : String => a ≤ b)
        (users₁.map (fun u => rt₁.toLower u.Name)) := (List.pairwise_map).mpr hsorted₁
    have hs₂ : List.Sorted (fun a b : String => a ≤ b)
        (l.map (fun u => rt₁.toLower u.Name)) := (List.pairwise_map).mpr hlsorted
    exact List.eq_of_perm_of_sorted (hl.map _) hs₁ hs₂
  refine ⟨users₁, users₂, h₁, h₂, ⟨l, hl, hall⟩, hnames, ?_⟩
  intro hnodup
  have hnodup' : (l.map (fun u => rt₁.toLower u.Name)).Nodup :=
    ((hl.map _).nodup_iff).mp hnodup
  have strict : ∀ users : List User,
      List.Pairwise (fun a b => rt₁.toLower a.Name ≤ rt₁.toLower b.Name) users →
      (users.map (fun u => rt₁.toLower u.Name)).Nodup →
      List.Pairwise (fun a b : User => rt₁.toLower a.Name < rt₁.toLower b.Name) users := by
    intro users hs hn
    have hne := (List.pairwise_map).mp hn
    exact (hs.and hne).imp (fun h => lt_of_le_of_ne h.1 h.2)
  haveI : IsAntisymm User (fun a b => rt₁.toLower a.Name < rt₁.toLower b.Name) :=
    ⟨fun _ _ hab hba => absurd hab (lt_asymm hba)⟩
  have heq : users₁ = l :=
    List.eq_of_perm_of_sorted hl (strict users₁ hsorted₁ hnodup) (strict l hlsorted hnodup')
  rw [heq]
  exact hall

/-- Raw entries of two accounts whose display names are equal ignoring case. -/
def tiedResults : List TempoResult :=
  [sampleEntry "u1" "bob" "ABC-1" "2024-03-05" 3600,
   sampleEntry "u2" "Bob" "ABC-1" "2024-03-06" 1800]

theorem getUsers_tied_names_witness :
    ∃ users₁ users₂, getUsers Runtime.insertion tiedResults sampleConfig = Except.ok users₁ ∧
      getUsers Runtime.reversedRange tiedResults sampleConfig = Except.ok users₂ ∧
      PermUpTo SameUser users₁ users₂ ∧
      users₁.map (fun u => asciiLower u.Name) = users₂.map (fun u => asciiLower u.Name) ∧
      ((users₁.map (fun u => asciiLower u.Name)).Nodup →
        List.Forall₂ SameUser users₁ users₂) :=
  getUsers_tied_names Runtime.insertion Runtime.reversedRange rfl tiedResults sampleConfig

/-- C17 as stated fails: on the same input, two runs that differ only in the
order in which `range` visits the map of account ids (the sort is the same
stable insertion sort in both) return the two users with tied names in
opposite orders. -/
theorem getUsers_tied_names_counterexample :
    (getUsers Runtime.insertion tiedResults sampleConfig).map (List.map userKey) =
        Except.ok [("u1", "bob", "dev", 40), ("u2", "Bob", "", 0)] ∧
      (getUsers Runtime.reversedRange tiedResults sampleConfig).map (List.map userKey) =
        Except.ok [("u2", "Bob", "", 0), ("u1", "bob", "dev", 40)] :=
  ⟨by rfl, by rfl⟩

/-! ## The spreadsheet library (excelize v2, as far as the program uses it)

The library is not part of the sources; what follows records its documented
behaviour on one sheet: cells are kept by their coordinates (column, row), a
cell name is valid when `CellNameToCoordinates` accepts it, and styles, merged
cells and conditional formats leave the values and formulas of the cells
alone. -/

/-- Go `strconv.Itoa`. -/
def Itoa (n : GoInt64) : String :=
  if n.val < 0 then "-" ++ Nat.repr n.val.natAbs else Nat.repr n.val.natAbs

/-- The constant `MaxColumns` of excelize. -/
def MaxColumns : Int := 16384

/-- The constant `TotalRows` of excelize. -/
def TotalRows : Int := 1048576

/-- The loop of `excelize.ColumnNumberToName`; on entry `fuel` is `num`, which
is enough, as `num` decreases in every round. -/
def columnLetters : Nat → Nat → List Char → List Char
  | 0, _, col => col
  | fuel + 1, num, col =>
    if num > 0 then columnLetters fuel ((num - 1) / 26) (Char.ofNat ((num - 1) % 26 + 65) :: col)
    else col

/-- The function `excelize.ColumnNumberToName`. -/
def ColumnNumberToName (num : GoInt64) : Except String String :=
  if num.val < 1 ∨ num.val > MaxColumns then
    Except.error "the column number must be greater than or equal to 1 and less than or equal to 16384"
  else Except.ok (String.mk (columnLetters num.val.toNat num.val.toNat []))

/-- The loop of `excelize.ColumnNameToNumber`, from the last letter to the first. -/
def columnNumber (name : String) : List Char → GoInt64 → GoInt64 → Except String GoInt64
  | [], col, _ => Except.ok col
  | r :: rest, col, multi =>
    if 'A' ≤ r ∧ r ≤ 'Z' then
      columnNumber name rest
        (col + GoInt64.mul (GoInt64.ofInt (r.toNat - 'A'.toNat + 1)) multi) (GoInt64.mul multi 26)
    else if 'a' ≤ r ∧ r ≤ 'z' then
      columnNumber name rest
        (col + GoInt64.mul (GoInt64.ofInt (r.toNat - 'a'.toNat + 1)) multi) (GoInt64.mul multi 26)
    else Except.error ("invalid column name " ++ name)

/-- The function `excelize.ColumnNameToNumber`. -/
def ColumnNameToNumber (name : String) : Except String GoInt64 :=
  if name.data.length = 0 then Except.error ("invalid column name " ++ name)
  else
    match columnNumber name name.data.reverse 0 1 with
    | Except.error err => Except.error err
    | Except.ok col =>
      if col.val > MaxColumns then
        Except.error "the column number must be greater than or equal to 1 and less than or equal to 16384"
      else Except.ok col

/-- The letters of a cell name, for `excelize.SplitCellName`: `$` counts as one. -/
def isAlpha (r : Char) : Bool :=
  decide (('A' ≤ r ∧ r ≤ 'Z') ∨ ('a' ≤ r ∧ r ≤ 'z') ∨ r = '$')

/-- A cell name cut after its last letter. -/
def splitAtLastAlpha : List Char → List Char × List Char
  | [] => ([], [])
  | r :: rest =>
    let parts := splitAtLastAlpha rest
    if parts.1 = [] ∧ isAlpha r = false then ([], r :: parts.2) else (r :: parts.1, parts.2)

/-- The function `excelize.SplitCellName`: the name starts with a letter, its
letters with `$` taken out are the column name, and what follows the last
letter is the row, a number above 0 in the eyes of `strconv.Atoi`. -/
def SplitCellName (cell : String) : Except String (String × GoInt64) :=
  match cell.data with
  | [] => Except.error ("invalid cell name " ++ cell)
  | first :: _ =>
    if isAlpha first = false then Except.error ("invalid cell name " ++ cell)
    else
      let parts := splitAtLastAlpha cell.data
      if parts.2 = [] then Except.error ("invalid cell name " ++ cell)
      else
        match Atoi (String.mk parts.2) with
        | Except.error _ => Except.error ("invalid cell name " ++ cell)
        | Except.ok row =>
          if row.val > 0 then
            Except.ok (String.mk (parts.1.filter (fun r => decide (r ≠ '$'))), row)
          else Except.error ("invalid cell name " ++ cell)

/-- The function `excelize.CellNameToCoordinates`. -/
def CellNameToCoordinates (cell : String) : Except String (Int × Int) :=
  match SplitCellName cell with
  | Except.error err => Except.error err
  | Except.ok (colName, row) =>
    if row.val > TotalRows then Except.error "row number exceeds maximum limit"
    else
      match ColumnNameToNumber colName with
      | Except.error err => Except.error err
      | Except.ok col => Except.ok (col.val, row.val)

/-- The function `excelize.CoordinatesToCellName`. -/
def CoordinatesToCellName (col row : GoInt64) : Except String String :=
  if col.val < 1 ∨ row.val < 1 then Except.error "invalid cell coordinates"
  else if row.val > TotalRows then Except.error "row number exceeds maximum limit"
  else
    match ColumnNumberToName col with
    | Except.error err => Except.error err
    | Except.ok colName => Except.ok (colName ++ Itoa row)

/-- What `SetCellValue` stores in a cell: a string, an `int`, or the `float64`
that `convertSecondsToHours` returns for a number of seconds (the value is kept
as the seconds it is computed from; `convertSecondsToHoursFloat64` gives the
`float64`). -/
inductive CellValue where
  | text (value : String)
  | number (value : GoInt64)
  | hours (seconds : GoInt64)
deriving DecidableEq, Repr

/-- `ExcelService.convertSecondsToHours`, with the `float64` it computes kept
as the seconds it is computed from. -/
def convertSecondsToHours (seconds : GoInt64) : CellValue := CellValue.hours seconds

/-- The sheet that the program fills: the value and the formula of the cells
that have one, the latest first. -/
structure Sheet where
  values : List ((Int × Int) × CellValue)
  formulas : List ((Int × Int) × String)

/-- The entry of a cell in a list of cells, the latest first. -/
def lookupCell {β : Type} : List ((Int × Int) × β) → Int × Int → Option β
  | [], _ => none
  | (key, value) :: rest, cell => if key = cell then some value else lookupCell rest cell

/-- The method `File.SetCellValue` on the sheet. -/
def SetCellValue (sheet : Sheet) (cell : String) (value : CellValue) : Except String Sheet :=
  match CellNameToCoordinates cell with
  | Except.error err => Except.error err
  | Except.ok key => Except.ok { sheet with values := (key, value) :: sheet.values }

/-- The method `File.SetCellFormula` on the sheet. -/
def SetCellFormula (sheet : Sheet) (cell : String) (formula : String) : Except String Sheet :=
  match CellNameToCoordinates cell with
  | Except.error err => Except.error err
  | Except.ok key => Except.ok { sheet with formulas := (key, formula) :: sheet.formulas }

/-- The method `File.SetCellStyle` on the sheet: it fails on an invalid cell
name and has no effect on values and formulas. -/
def SetCellStyle (hCell vCell : String) : Except String Unit :=
  match CellNameToCoordinates hCell with
  | Except.error err => Except.error err
  | Except.ok _ =>
    match CellNameToCoordinates vCell with
    | Except.error err => Except.error err
    | Except.ok _ => Except.ok ()

/-- The method `File.MergeCell` on the sheet: it fails on an invalid cell name
and has no effect on values and formulas. -/
def MergeCell (hCell vCell : String) : Except String Unit :=
  match CellNameToCoordinates hCell with
  | Except.error err => Except.error err
  | Except.ok _ =>
    match CellNameToCoordinates vCell with
    | Except.error err => Except.error err
    | Except.ok _ => Except.ok ()

/-- The method `File.GetCellValue` on the sheet: the text of the value of the
cell, "" for a cell without value; `hoursText` is the text that the library
shows for the `float64` of `convertSecondsToHours`. -/
def GetCellValue (hoursText : GoInt64 → String) (sheet : Sheet) (cell : String) :
    Except String String :=
  match CellNameToCoordinates cell with
  | Except.error err => Except.error err
  | Except.ok key =>
    match lookupCell sheet.values key with
    | none => Except.ok ""
    | some (CellValue.text value) => Except.ok value
    | some (CellValue.number value) => Except.ok (Itoa value)
    | some (CellValue.hours seconds) => Except.ok (hoursText seconds)

/-! ## Dates (`time.Parse`, `fmt.Sprintf`) -/

/-- The number that two decimal digits write. -/
def twoDigits (a b : Char) : Option Nat :=
  if ('0' ≤ a ∧ a ≤ '9') ∧ ('0' ≤ b ∧ b ≤ '9') then
    some ((a.toNat - '0'.toNat) * 10 + (b.toNat - '0'.toNat))
  else none

/-- The function `daysIn` of package `time`. -/
def daysIn (month : Nat) (year : Nat) : Nat :=
  if month = 2 then
    if year % 4 = 0 ∧ (year % 100 ≠ 0 ∨ year % 400 = 0) then 29 else 28
  else if month = 4 ∨ month = 6 ∨ month = 9 ∨ month = 11 then 30
  else 31

/-- Go `time.Parse("2006-01-02", value)`: four digits of year, two of month and
two of day, with `-` between them and nothing else, that name a day of the
calendar. -/
def Parse (value : String) : Except String Time :=
  match value.data with
  | [y1, y2, y3, y4, s1, m1, m2, s2, d1, d2] =>
    match twoDigits y1 y2, twoDigits y3 y4, twoDigits m1 m2, twoDigits d1 d2 with
    | some century, some years, some month, some day =>
      if s1 = '-' ∧ s2 = '-' ∧ 1 ≤ month ∧ month ≤ 12 ∧ 1 ≤ day ∧
          day ≤ daysIn month (century * 100 + years) then
        Except.ok { Year := Int.ofNat (century * 100 + years), Month := month, Day := day }
      else Except.error ("parsing time " ++ value)
    | _, _, _, _ => Except.error ("parsing time " ++ value)
  | _ => Except.error ("parsing time " ++ value)

/-- Go `fmt.Sprintf("%02d", n)` for `n ≥ 0`. -/
def pad2 (n : Nat) : String := if n < 10 then "0" ++ Nat.repr n else Nat.repr n

/-- Go `fmt.Sprintf(columnDateFormat, date.Month(), date.Day())`. -/
def formatColumnDate (date : Time) : String := pad2 date.Month ++ "/" ++ pad2 date.Day

/-! ## The report sheet (`services/excel.go`) -/

structure ExcelContext where
  NameColumn : String
  ManagerColumn : String
  PositionColumn : String
  RateColumn : String
  TotalHoursColumn : String
  TotalCostColumn : String
  FirstDateColumnIndex : GoInt64
  LastDateColumnIndex : GoInt64
  ColsCount : GoInt64
  LastRowIndex : GoInt64
  ProjectKeyToColor : GoMap String

/-- `ExcelService.createContext`. -/
def createContext (report : Report) : ExcelContext :=
  { NameColumn := "A"
    ManagerColumn := "B"
    PositionColumn := "C"
    RateColumn := "D"
    TotalHoursColumn := "E"
    TotalCostColumn := "F"
    FirstDateColumnIndex := 0
    LastDateColumnIndex := 0
    ColsCount := 0
    LastRowIndex := 1
    ProjectKeyToColor := getProjectKeyToColor report.Projects }

/-- The colours that `fillProjectRow` shades for the styles of a project with
a colour; the styles themselves are not recorded. -/
def projectRowColors (project : Project) (context : ExcelContext) : Except String Unit :=
  match context.ProjectKeyToColor.get? project.Key with
  | some color =>
    match shadeColor color 15 with
    | none => Except.error "panic: runtime error"
    | some _ =>
      match shadeColor color 10 with
      | none => Except.error "panic: runtime error"
      | some _ => Except.ok ()
  | none => Except.ok ()

/-- `ExcelService.fillProjectRow`, with the context it leaves. -/
def fillProjectRow (sheet : Sheet) (project : Project) (context : ExcelContext) :
    Except String (Sheet × ExcelContext) := do
  let context := { context with LastRowIndex := context.LastRowIndex + 1 }
  let cell ← CoordinatesToCellName context.ColsCount context.LastRowIndex
  SetCellStyle (context.NameColumn ++ Itoa context.LastRowIndex) cell
  let context := { context with LastRowIndex := context.LastRowIndex + 1 }
  let rowIndex := Itoa context.LastRowIndex
  projectRowColors project context
  let cell ← CoordinatesToCellName context.ColsCount context.LastRowIndex
  SetCellStyle (context.NameColumn ++ rowIndex) cell
  SetCellStyle (context.TotalCostColumn ++ rowIndex) (context.TotalCostColumn ++ rowIndex)
  let name := if project.DisplayName.data.length > 0 then project.DisplayName else project.Key
  let sheet ← SetCellValue sheet (context.NameColumn ++ rowIndex) (CellValue.text name)
  SetCellStyle (context.ManagerColumn ++ rowIndex) (context.ManagerColumn ++ rowIndex)
  let sheet ← SetCellValue sheet (context.ManagerColumn ++ rowIndex)
    (CellValue.text project.Manager)
  MergeCell (context.PositionColumn ++ rowIndex) (context.RateColumn ++ rowIndex)
  SetCellStyle (context.PositionColumn ++ rowIndex) (context.PositionColumn ++ rowIndex)
  let sheet ← SetCellValue sheet (context.PositionColumn ++ rowIndex)
    (CellValue.text project.Owner)
  let firstRowIndex := Itoa (context.LastRowIndex + 1)
  let lastRowIndex := Itoa (context.LastRowIndex + GoInt64.ofInt project.Users.length)
  let formula := "sum(" ++ context.TotalHoursColumn ++ firstRowIndex ++ ":" ++
    context.TotalHoursColumn ++ lastRowIndex ++ ")"
  let sheet ← SetCellFormula sheet (context.TotalHoursColumn ++ rowIndex) formula
  let formula := "sum(" ++ context.TotalCostColumn ++ firstRowIndex ++ ":" ++
    context.TotalCostColumn ++ lastRowIndex ++ ")"
  let sheet ← SetCellFormula sheet (context.TotalCostColumn ++ rowIndex) formula
  pure (sheet, context)

/-- `ExcelService.prepareUserRows`: styles only, so that what is left of it is
whether it fails. -/
def prepareUserRows (project : Project) (context : ExcelContext) : Except String Unit := do
  let rowIndex := Itoa (context.LastRowIndex + 1)
  let lastUserRowIndex := Itoa (context.LastRowIndex + GoInt64.ofInt project.Users.length)
  match context.ProjectKeyToColor.get? project.Key with
  | some color =>
    match shadeColor color 15 with
    | none => Except.error "panic: runtime error"
    | some _ => pure ()
  | none => pure ()
  let cell ← CoordinatesToCellName context.ColsCount
    (context.LastRowIndex + GoInt64.ofInt project.Users.length)
  SetCellStyle (context.NameColumn ++ rowIndex) cell
  let firstDateCell ← CoordinatesToCellName context.FirstDateColumnIndex
    (context.LastRowIndex + 1)
  SetCellStyle firstDateCell cell
  SetCellStyle (context.RateColumn ++ rowIndex) (context.RateColumn ++ lastUserRowIndex)
  SetCellStyle (context.TotalCostColumn ++ rowIndex) (context.TotalCostColumn ++ lastUserRowIndex)

/-- One iteration of the loops of `fillUserRow` over the efforts of the issues
of the user. -/
def addTimeSpent (dateToTimeSpentSeconds : GoMap GoInt64) (effort : Effort) : GoMap GoInt64 :=
  let date := effort.Date
  match dateToTimeSpentSeconds.get? date with
  | some seconds => dateToTimeSpentSeconds.set date (seconds + effort.TimeSpentSeconds)
  | none => dateToTimeSpentSeconds.set date effort.TimeSpentSeconds

/-- The map `dateToTimeSpentSeconds` that `fillUserRow` builds. -/
def dateToTimeSpentSeconds (user : User) : GoMap GoInt64 :=
  user.Issues.foldl (fun acc issue => issue.Efforts.foldl addTimeSpent acc) GoMap.empty

/-- The column indices `FirstDateColumnIndex, ..., LastDateColumnIndex` that the
inner loop of `fillUserRow` goes through (it ends with an error on the first
index that is no column number, so `i++` never overflows). -/
def dateColumnIndices (context : ExcelContext) : List GoInt64 :=
  (List.range (context.LastDateColumnIndex.val - context.FirstDateColumnIndex.val + 1).toNat).map
    (fun k => GoInt64.ofInt (context.FirstDateColumnIndex.val + Int.ofNat k))

/-- The inner loop of `fillUserRow`, over the date columns, for one date of
the user: the hours go into the first column whose header is the date. -/
def fillDateCell (hoursText : GoInt64 → String) (sheet : Sheet) (rowIndex : String)
    (formattedDate : String) (timeSpentSeconds : GoInt64) : List GoInt64 → Except String Sheet
  | [] => Except.ok sheet
  | i :: rest =>
    match ColumnNumberToName i with
    | Except.error err => Except.error err
    | Except.ok col =>
      match GetCellValue hoursText sheet (col ++ "1") with
      | Except.error err => Except.error err
      | Except.ok headerDate =>
        if headerDate = formattedDate then
          SetCellValue sheet (col ++ rowIndex) (convertSecondsToHours timeSpentSeconds)
        else fillDateCell hoursText sheet rowIndex formattedDate timeSpentSeconds rest

/-- The loop of `fillUserRow` over the map `dateToTimeSpentSeconds`. -/
def fillDateCells (hoursText : GoInt64 → String) (context : ExcelContext) (rowIndex : String) :
    Sheet → List (String × GoInt64) → Except String Sheet
  | sheet, [] => Except.ok sheet
  | sheet, (date, timeSpentSeconds) :: rest =>
    match Parse date with
    | Except.error err => Except.error err
    | Except.ok parsedDate =>
      match fillDateCell hoursText sheet rowIndex (formatColumnDate parsedDate) timeSpentSeconds
          (dateColumnIndices context) with
      | Except.error err => Except.error err
      | Except.ok sheet => fillDateCells hoursText context rowIndex sheet rest

/-- The first part of `fillUserRow`: name, position, rate and the two formulas
of the row of the user. -/
def fillUserCells (sheet : Sheet) (user : User) (context : ExcelContext) (rowIndex : String) :
    Except String Sheet := do
  let sheet ← SetCellValue sheet (context.NameColumn ++ rowIndex) (CellValue.text user.Name)
  let sheet ← SetCellValue sheet (context.PositionColumn ++ rowIndex)
    (CellValue.text user.Position)
  let sheet ← SetCellValue sheet (context.RateColumn ++ rowIndex) (CellValue.number user.Rate)
  let firstDateColumnName ← ColumnNumberToName context.FirstDateColumnIndex
  let lastDateColumnName ← ColumnNumberToName context.LastDateColumnIndex
  let formula := "sum(" ++ firstDateColumnName ++ rowIndex ++ ":" ++ lastDateColumnName ++
    rowIndex ++ ")"
  let sheet ← SetCellFormula sheet (context.TotalHoursColumn ++ rowIndex) formula
  let formula := context.RateColumn ++ rowIndex ++ "*" ++ context.TotalHoursColumn ++ rowIndex
  SetCellFormula sheet (context.TotalCostColumn ++ rowIndex) formula

/-- `ExcelService.fillUserRow`, with the context it leaves. -/
def fillUserRow (rt : Runtime) (hoursText : GoInt64 → String) (sheet : Sheet) (user : User)
    (projectKey : String) (context : ExcelContext) : Except String (Sheet × ExcelContext) :=
  let context := { context with LastRowIndex := context.LastRowIndex + 1 }
  let rowIndex := Itoa context.LastRowIndex
  match fillUserCells sheet user context rowIndex with
  | Except.error err => Except.error err
  | Except.ok sheet =>
    match fillDateCells hoursText context rowIndex sheet
        ((dateToTimeSpentSeconds user).range rt [projectKey, user.AccountId]) with
    | Except.error err => Except.error err
    | Except.ok sheet => Except.ok (sheet, context)

/-- The loop of `fillBody` over the users of a project. -/
def fillUserRows (rt : Runtime) (hoursText : GoInt64 → String) (projectKey : String) :
    Sheet → ExcelContext → List User → Except String (Sheet × ExcelContext)
  | sheet, context, [] => Except.ok (sheet, context)
  | sheet, context, user :: rest =>
    match fillUserRow rt hoursText sheet user projectKey context with
    | Except.error err => Except.error err
    | Except.ok (sheet, context) => fillUserRows rt hoursText projectKey sheet context rest

/-- `ExcelService.fillBody`, with the context it leaves. -/
def fillBody (rt : Runtime) (hoursText : GoInt64 → String) :
    Sheet → ExcelContext → List Project → Except String (Sheet × ExcelContext)
  | sheet, context, [] => Except.ok (sheet, context)
  | sheet, context, project :: rest =>
    match fillProjectRow sheet project context with
    | Except.error err => Except.error err
    | Except.ok (sheet, context) =>
      match prepareUserRows project context with
      | Except.error err => Except.error err
      | Except.ok _ =>
        match fillUserRows rt hoursText project.Key sheet context project.Users with
        | Except.error err => Except.error err
        | Except.ok (sheet, context) => fillBody rt hoursText sheet context rest

/-! ## The total row of a project: claims -/

/-- An empty sheet. -/
def emptySheet : Sheet := { values := [], formulas := [] }

/-- The context after a header of six fixed columns and two date columns. -/
def sampleContext : ExcelContext :=
  { createContext sampleReport with
    ColsCount := 8, FirstDateColumnIndex := 7, LastDateColumnIndex := 8 }

/-- A project for which nobody reported time. -/
def idleProject : Project :=
  { Key := "IDLE", DisplayName := "Idle", Owner := "Olga", Manager := "", Users := [] }

/-- What a run of `fillBody` leaves in the name cell and in the two formula
cells of a row, and the last row index. -/
def totalsAt (row : Int) (result : Except String (Sheet × ExcelContext)) :
    Except String (Option CellValue × Option String × Option String × Int) :=
  result.map (fun r => (lookupCell r.1.values (1, row), lookupCell r.1.formulas (5, row),
    lookupCell r.1.formulas (6, row), r.2.LastRowIndex.val))

/-- C19. The total row of a project without users sums a range that holds the
total row itself: in a report whose first project has no users and whose
second has two, the first project has its total row at row 3 with the
formulas sum(E4:E3) and sum(F4:F3), a range that ends in row 3 and starts
in row 4, which is the spacer row of the second project; the second project
has its total row at row 5 with sum(E6:E7) and sum(F6:F7), and its users are
in the rows 6 and 7. -/
theorem fillBody_total_row_without_users :
    totalsAt 3 (fillBody Runtime.insertion (fun _ => "") emptySheet sampleContext
        [idleProject, sampleProject]) =
      Except.ok (some (CellValue.text "Idle"), some "sum(E4:E3)", some "sum(F4:F3)", 7) ∧
    totalsAt 4 (fillBody Runtime.insertion (fun _ => "") emptySheet sampleContext
        [idleProject, sampleProject]) = Except.ok (none, none, none, 7) ∧
    totalsAt 5 (fillBody Runtime.insertion (fun _ => "") emptySheet sampleContext
        [idleProject, sampleProject]) =
      Except.ok (some (CellValue.text "Alphabet"), some "sum(E6:E7)", some "sum(F6:F7)", 7) ∧
    totalsAt 6 (fillBody Runtime.insertion (fun _ => "") emptySheet sampleContext
        [idleProject, sampleProject]) =
      Except.ok (some (CellValue.text "Alice"), some "sum(G6:H6)", some "D6*E6", 7) ∧
    totalsAt 7 (fillBody Runtime.insertion (fun _ => "") emptySheet sampleContext
        [idleProject, sampleProject]) =
      Except.ok (some (CellValue.text "bob"), some "sum(G7:H7)", some "D7*E7", 7) := by
  refine ⟨?_, ?_, ?_, ?_, ?_⟩ <;> rfl

/-! ## Lemmas on cell names -/

theorem digitChar_decimal (d : Nat) (h : d < 10) :
    ('0' ≤ Nat.digitChar d ∧ Nat.digitChar d ≤ '9') ∧
      (Nat.digitChar d).toNat - '0'.toNat = d := by
  interval_cases d <;> decide

theorem parseDecimalDigits_toDigitsCore (fuel n : Nat) (ds : List Char) (h : n < fuel) :
    parseDecimalDigits (Nat.toDigitsCore 10 fuel n ds) 0 = parseDecimalDigits ds n := by
  induction fuel generalizing n ds with
  | zero => omega
  | succ fuel ih =>
    have hd := digitChar_decimal (n % 10) (Nat.mod_lt n (by decide))
    unfold Nat.toDigitsCore
    simp only []
    split
    · rename_i hq
      have hn : n % 10 = n := Nat.mod_eq_of_lt (by omega)
      rw [hn] at hd
      simp only [parseDecimalDigits, hd.1, and_self, if_true, hd.2, Nat.zero_mul, Nat.zero_add, hn]
    · rename_i hq
      rw [ih (n / 10) _ (by omega)]
      have hn : n / 10 * 10 + n % 10 = n := by omega
      simp only [parseDecimalDigits, hd.1, and_self, if_true, hd.2, hn]

theorem toDigitsCore_decimal (fuel n : Nat) (ds : List Char) :
    ∀ c ∈ Nat.toDigitsCore 10 fuel n ds, ('0' ≤ c ∧ c ≤ '9') ∨ c ∈ ds := by
  induction fuel generalizing n ds with
  | zero => intro c hc; exact Or.inr hc
  | succ fuel ih =>
    have hd := digitChar_decimal (n % 10) (Nat.mod_lt n (by decide))
    intro c hc
    unfold Nat.toDigitsCore at hc
    simp only [] at hc
    split at hc
    · rcases List.mem_cons.mp hc with rfl | hc
      · exact Or.inl hd.1
      · exact Or.inr hc
    · rcases ih _ _ c hc with h | h
      · exact Or.inl h
      · rcases List.mem_cons.mp h with rfl | h
        · exact Or.inl hd.1
        · exact Or.inr h

/-- The decimal digits of a number: at least one, all of them digits, and
read back they give the number. -/
theorem toDigits_decimal (n : Nat) :
    Nat.toDigits 10 n ≠ [] ∧ (∀ c ∈ Nat.toDigits 10 n, '0' ≤ c ∧ c ≤ '9') ∧
      parseDecimalDigits (Nat.toDigits 10 n) 0 = some n := by
  refine ⟨?_, ?_, ?_⟩
  · intro h
    have := (toDigitsCore_length 10 (n + 1) n []).2 (Nat.succ_pos n)
    unfold Nat.toDigits at h
    rw [h] at this
    exact absurd this (by simp)
  · intro c hc
    rcases toDigitsCore_decimal (n + 1) n [] c hc with h | h
    · exact h
    · cases h
  · unfold Nat.toDigits
    rw [parseDecimalDigits_toDigitsCore _ _ _ (Nat.lt_succ_self n)]
    rfl

/-- What `strconv.Itoa` prints, `strconv.Atoi` reads back. -/
theorem Atoi_Itoa (n : GoInt64) : Atoi (Itoa n) = Except.ok n := by
  obtain ⟨hne, hdig, hparse⟩ := toDigits_decimal n.val.natAbs
  have hprop := n.property
  unfold Itoa
  by_cases hneg : n.val < 0
  · rw [if_pos hneg]
    have hdata : ("-" ++ Nat.repr n.val.natAbs).data = '-' :: Nat.toDigits 10 n.val.natAbs := rfl
    unfold Atoi
    rw [hdata]
    have hval : -((n.val.natAbs : Nat) : Int) = n.val := by omega
    simp only [hne, hparse, if_false, decide_True, if_true, or_true, hval]
    rw [if_pos ⟨hprop.1, hprop.2⟩]
    congr 1
    exact Subtype.ext (wrapInt64_of_fits _ hprop.1 hprop.2)
  · rw [if_neg hneg]
    have hdata : (Nat.repr n.val.natAbs).data = Nat.toDigits 10 n.val.natAbs := rfl
    unfold Atoi
    rw [hdata]
    cases hl : Nat.toDigits 10 n.val.natAbs with
    | nil => exact absurd hl hne
    | cons c cs =>
      have hc : '0' ≤ c ∧ c ≤ '9' := hdig c (by rw [hl]; exact List.mem_cons_self _ _)
      have hplus : c ≠ '+' := by
        intro h; rw [h] at hc; exact absurd hc (by decide)
      have hminus : c ≠ '-' := by
        intro h; rw [h] at hc; exact absurd hc (by decide)
      have hval : ((n.val.natAbs : Nat) : Int) = n.val := by omega
      rw [hl] at hparse
      simp only [hplus, hminus, or_self, if_false, decide_False, hparse, hval]
      simp only [reduceCtorEq, if_false]
      rw [if_pos ⟨hprop.1, hprop.2⟩]
      congr 1
      exact Subtype.ext (wrapInt64_of_fits _ hprop.1 hprop.2)

/-- The capital letters, of which `ColumnNumberToName` makes its names. -/
def isCapital (r : Char) : Prop := 'A' ≤ r ∧ r ≤ 'Z'

theorem isAlpha_capital (r : Char) (h : isCapital r) : isAlpha r = true ∧ r ≠ '$' := by
  refine ⟨?_, ?_⟩
  · unfold isAlpha
    exact decide_eq_true (Or.inl h)
  · rintro rfl
    exact absurd h.1 (by decide)

theorem isAlpha_decimal (r : Char) (h : ('0' ≤ r ∧ r ≤ '9') ∨ r = '-') : isAlpha r = false := by
  unfold isAlpha
  apply decide_eq_false
  rcases h with ⟨h0, h9⟩ | rfl
  · rintro (⟨hA, _⟩ | ⟨ha, _⟩ | rfl)
    · exact absurd (le_trans hA h9) (by decide)
    · exact absurd (le_trans ha h9) (by decide)
    · exact absurd h0 (by decide)
  · decide

theorem columnLetters_capital (fuel num : Nat) (col : List Char)
    (h : ∀ r ∈ col, isCapital r) : ∀ r ∈ columnLetters fuel num col, isCapital r := by
  induction fuel generalizing num col with
  | zero => exact h
  | succ fuel ih =>
    unfold columnLetters
    split
    · apply ih
      intro r hr
      rcases List.mem_cons.mp hr with rfl | hr
      · have hlt : (num - 1) % 26 < 26 := Nat.mod_lt _ (by decide)
        generalize (num - 1) % 26 = k at hlt
        unfold isCapital
        interval_cases k <;> decide
      · exact h r hr
    · exact h

/-- The names that `ColumnNumberToName` makes consist of capital letters. -/
theorem ColumnNumberToName_capital (num : GoInt64) (col : String)
    (h : ColumnNumberToName num = Except.ok col) : ∀ r ∈ col.data, isCapital r := by
  unfold ColumnNumberToName at h
  split at h
  · cases h
  · simp only [Except.ok.injEq] at h
    rw [← h]
    exact columnLetters_capital _ _ [] (fun r hr => by cases hr)

theorem splitAtLastAlpha_digits (digits : List Char) (hd : ∀ r ∈ digits, isAlpha r = false) :
    splitAtLastAlpha digits = ([], digits) := by
  induction digits with
  | nil => rfl
  | cons r rest ih =>
    have hrest := ih (fun c hc => hd c (List.mem_cons_of_mem _ hc))
    have hr := hd r (List.mem_cons_self _ _)
    simp only [splitAtLastAlpha, hrest, hr, and_self, if_true]

theorem splitAtLastAlpha_append (letters digits : List Char)
    (hl : ∀ r ∈ letters, isAlpha r = true) (hd : ∀ r ∈ digits, isAlpha r = false) :
    splitAtLastAlpha (letters ++ digits) = (letters, digits) := by
  induction letters with
  | nil => exact splitAtLastAlpha_digits digits hd
  | cons r rest ih =>
    have hrest := ih (fun c hc => hl c (List.mem_cons_of_mem _ hc))
    have hr := hl r (List.mem_cons_self _ _)
    have hrest' : splitAtLastAlpha (rest.append digits) = (rest, digits) := hrest
    simp only [List.cons_append, splitAtLastAlpha, hrest', hr, and_false, if_false,
      Bool.true_eq_false]

/-- The column number of a column name, 0 for a name that has none. -/
def columnOf (col : String) : Int :=
  match ColumnNameToNumber col with
  | Except.ok column => column.val
  | Except.error _ => 0

/-- The coordinates of a cell whose name is made of a column name in capital
letters and a row in digits. -/
theorem CellNameToCoordinates_append (col rowIndex : String)
    (hcol : ∀ r ∈ col.data, isCapital r) (hrow : ∀ r ∈ rowIndex.data, isAlpha r = false)
    (key : Int × Int) (h : CellNameToCoordinates (col ++ rowIndex) = Except.ok key) :
    ∃ row, Atoi rowIndex = Except.ok row ∧ key = (columnOf col, row.val) := by
  have hsplit : splitAtLastAlpha (col ++ rowIndex).data = (col.data, rowIndex.data) := by
    rw [String.data_append]
    exact splitAtLastAlpha_append _ _ (fun r hr => (isAlpha_capital r (hcol r hr)).1) hrow
  have hfilter : col.data.filter (fun r => decide (r ≠ '$')) = col.data := by
    rw [List.filter_eq_self]
    intro r hr
    exact decide_eq_true (isAlpha_capital r (hcol r hr)).2
  unfold CellNameToCoordinates SplitCellName at h
  rw [hsplit] at h
  simp only [hfilter] at h
  split at h
  · cases h
  · rename_i colName row hsplitName
    split at hsplitName
    · cases hsplitName
    · split at hsplitName
      · cases hsplitName
      · split at hsplitName
        · cases hsplitName
        · split at hsplitName
          · cases hsplitName
          · rename_i row' hatoi
            split at hsplitName
            · simp only [Except.ok.injEq, Prod.mk.injEq] at hsplitName
              obtain ⟨hname, hrow'⟩ := hsplitName
              subst hrow'
              refine ⟨row', hatoi, ?_⟩
              split at h
              · cases h
              · split at h
                · cases h
                · rename_i column hcolumn
                  simp only [Except.ok.injEq] at h
                  rw [← h]
                  have : colName = col := by rw [← hname]
                  subst this
                  simp only [columnOf, hcolumn]
            · cases hsplitName

theorem Itoa_not_alpha (n : GoInt64) : ∀ r ∈ (Itoa n).data, isAlpha r = false := by
  obtain ⟨_, hdig, _⟩ := toDigits_decimal n.val.natAbs
  intro r hr
  unfold Itoa at hr
  split at hr
  · have hdata : ("-" ++ Nat.repr n.val.natAbs).data = '-' :: Nat.toDigits 10 n.val.natAbs := rfl
    rw [hdata] at hr
    rcases List.mem_cons.mp hr with rfl | hr
    · exact isAlpha_decimal _ (Or.inr rfl)
    · exact isAlpha_decimal _ (Or.inl (hdig r hr))
  · exact isAlpha_decimal _ (Or.inl (hdig r hr))

/-- The cell named by a column name in capital letters and the row that
`strconv.Itoa` prints is in that column and row. -/
theorem CellNameToCoordinates_Itoa (col : String) (n : GoInt64)
    (hcol : ∀ r ∈ col.data, isCapital r) (key : Int × Int)
    (h : CellNameToCoordinates (col ++ Itoa n) = Except.ok key) :
    key = (columnOf col, n.val) := by
  obtain ⟨row, hrow, hkey⟩ := CellNameToCoordinates_append col (Itoa n) hcol (Itoa_not_alpha n) key h
  rw [Atoi_Itoa] at hrow
  simp only [Except.ok.injEq] at hrow
  rw [hkey, hrow]

/-- The header cell of a column is in row 1 of that column. -/
theorem CellNameToCoordinates_header (col : String) (hcol : ∀ r ∈ col.data, isCapital r)
    (key : Int × Int) (h : CellNameToCoordinates (col ++ "1") = Except.ok key) :
    key = (columnOf col, 1) :=
  CellNameToCoordinates_Itoa col 1 hcol key h

/-! ## The hours of a user per date: claims -/

/-- The efforts of a user on a date, over all issues. -/
def effortsOn (user : User) (date : String) : List Effort :=
  (user.Issues.flatMap (fun issue => issue.Efforts)).filter
    (fun effort => decide (effort.Date = date))

/-- The seconds of a user on a date, summed over all issues in Go's `int`. -/
def secondsOn (user : User) (date : String) : GoInt64 :=
  ((effortsOn user date).map (fun effort => effort.TimeSpentSeconds)).sum

theorem get?_addTimeSpent (efforts : List Effort) (acc : GoMap GoInt64) (date : String) :
    (efforts.foldl addTimeSpent acc).get? date =
      if efforts.filter (fun effort => decide (effort.Date = date)) = [] then acc.get? date
      else some ((acc.get? date).getD 0 +
        ((efforts.filter (fun effort => decide (effort.Date = date))).map
          (fun effort => effort.TimeSpentSeconds)).sum) := by
  induction efforts generalizing acc with
  | nil => simp
  | cons e rest ih =>
    rw [List.foldl_cons, ih]
    by_cases hk : e.Date = date
    · subst hk
      have hstep : (addTimeSpent acc e).get? e.Date =
          some ((acc.get? e.Date).getD 0 + e.TimeSpentSeconds) := by
        unfold addTimeSpent
        cases h : acc.get? e.Date <;> simp [GoMap.get?_set, h]
      rw [hstep]
      by_cases hr : rest.filter (fun effort => decide (effort.Date = e.Date)) = []
      · simp [List.filter_cons, hr]
      · simp [List.filter_cons, hr, add_assoc]
    · have hstep : (addTimeSpent acc e).get? date = acc.get? date := by
        unfold addTimeSpent
        cases h : acc.get? e.Date <;> simp [GoMap.get?_set, hk, h]
      rw [hstep]
      simp [List.filter_cons, hk]

theorem foldl_issues (issues : List Issue) (acc : GoMap GoInt64) :
    issues.foldl (fun acc issue => issue.Efforts.foldl addTimeSpent acc) acc =
      (issues.flatMap (fun issue => issue.Efforts)).foldl addTimeSpent acc := by
  induction issues generalizing acc with
  | nil => rfl
  | cons issue rest ih => rw [List.foldl_cons, ih, List.flatMap_cons, List.foldl_append]

/-- The map `dateToTimeSpentSeconds` holds, for each date on which the user
has efforts, the sum of their seconds, and nothing else. -/
theorem get?_dateToTimeSpentSeconds (user : User) (date : String) :
    (dateToTimeSpentSeconds user).get? date =
      if effortsOn user date = [] then none else some (secondsOn user date) := by
  unfold dateToTimeSpentSeconds secondsOn effortsOn
  rw [foldl_issues, get?_addTimeSpent, GoMap.get?_empty]
  simp

/-- The text that `GetCellValue` returns for the entry of a cell. -/
def cellText (hoursText : GoInt64 → String) : Option CellValue → String
  | none => ""
  | some (CellValue.text value) => value
  | some (CellValue.number value) => Itoa value
  | some (CellValue.hours seconds) => hoursText seconds

theorem GetCellValue_eq (hoursText : GoInt64 → String) (sheet : Sheet) (cell : String) :
    GetCellValue hoursText sheet cell =
      (CellNameToCoordinates cell).map (fun key => cellText hoursText (lookupCell sheet.values key)) := by
  unfold GetCellValue
  cases CellNameToCoordinates cell with
  | error err => rfl
  | ok key =>
    simp only [Except.map]
    cases h : lookupCell sheet.values key with
    | none => rfl
    | some value => cases value <;> rfl

/-- Two sheets with the same values in row 1, the row of the headers. -/
def SameHeaders (a b : Sheet) : Prop :=
  ∀ column : Int, lookupCell a.values (column, 1) = lookupCell b.values (column, 1)

theorem GetCellValue_header (hoursText : GoInt64 → String) (a b : Sheet) (h : SameHeaders a b)
    (col : String) (hcol : ∀ r ∈ col.data, isCapital r) :
    GetCellValue hoursText a (col ++ "1") = GetCellValue hoursText b (col ++ "1") := by
  rw [GetCellValue_eq, GetCellValue_eq]
  cases hkey : CellNameToCoordinates (col ++ "1") with
  | error err => rfl
  | ok key =>
    rw [CellNameToCoordinates_header col hcol key hkey]
    simp only [Except.map, h (columnOf col)]

theorem GetCellValue_column (hoursText : GoInt64 → String) (sheet : Sheet)
    (col : String) (hcol : ∀ r ∈ col.data, isCapital r) (header : String)
    (h : GetCellValue hoursText sheet (col ++ "1") = Except.ok header) :
    header = cellText hoursText (lookupCell sheet.values (columnOf col, 1)) := by
  rw [GetCellValue_eq] at h
  cases hkey : CellNameToCoordinates (col ++ "1") with
  | error err => rw [hkey] at h; cases h
  | ok key =>
    rw [hkey, CellNameToCoordinates_header col hcol key hkey] at h
    simp only [Except.map, Except.ok.injEq] at h
    exact h.symm

theorem SetCellValue_ok (sheet next : Sheet) (cell : String) (value : CellValue)
    (h : SetCellValue sheet cell value = Except.ok next) :
    ∃ key, CellNameToCoordinates cell = Except.ok key ∧
      next.values = (key, value) :: sheet.values := by
  unfold SetCellValue at h
  cases hkey : CellNameToCoordinates cell with
  | error err => rw [hkey] at h; cases h
  | ok key =>
    rw [hkey] at h
    simp only [Except.ok.injEq] at h
    exact ⟨key, rfl, by rw [← h]⟩

theorem SetCellFormula_ok (sheet next : Sheet) (cell formula : String)
    (h : SetCellFormula sheet cell formula = Except.ok next) : next.values = sheet.values := by
  unfold SetCellFormula at h
  cases hkey : CellNameToCoordinates cell with
  | error err => rw [hkey] at h; cases h
  | ok key =>
    rw [hkey] at h
    simp only [Except.ok.injEq] at h
    rw [← h]

/-- A value set in a row other than row 1 leaves the headers alone. -/
theorem SetCellValue_headers (sheet next : Sheet) (col : String)
    (hcol : ∀ r ∈ col.data, isCapital r) (n : GoInt64) (hn : n.val ≠ 1) (value : CellValue)
    (h : SetCellValue sheet (col ++ Itoa n) value = Except.ok next) :
    next.values = ((columnOf col, n.val), value) :: sheet.values ∧ SameHeaders sheet next := by
  obtain ⟨key, hkey, hvalues⟩ := SetCellValue_ok sheet next _ value h
  rw [CellNameToCoordinates_Itoa col n hcol key hkey] at hvalues
  refine ⟨hvalues, ?_⟩
  intro column
  rw [hvalues]
  have hne : ¬ (columnOf col, n.val) = (column, (1 : Int)) := by
    intro e
    exact hn (congrArg Prod.snd e)
  simp only [lookupCell, hne, if_false]

theorem capital_of_letter (col : String) (h : col = "A" ∨ col = "C" ∨ col = "D") :
    ∀ r ∈ col.data, isCapital r := by
  unfold isCapital
  rcases h with rfl | rfl | rfl <;> decide

/-- The first part of `fillUserRow` leaves the headers alone when it fills a
row other than row 1. -/
theorem fillUserCells_headers (sheet next : Sheet) (user : User) (context : ExcelContext)
    (hcolumns : context.NameColumn = "A" ∧ context.PositionColumn = "C" ∧
      context.RateColumn = "D")
    (n : GoInt64) (hn : n.val ≠ 1)
    (h : fillUserCells sheet user context (Itoa n) = Except.ok next) :
    SameHeaders sheet next := by
  obtain ⟨hA, hC, hD⟩ := hcolumns
  simp only [fillUserCells, bind, Except.bind, hA, hC, hD] at h
  split at h
  · cases h
  · rename_i s₁ h₁
    split at h
    · cases h
    · rename_i s₂ h₂
      split at h
      · cases h
      · rename_i s₃ h₃
        split at h
        · cases h
        · split at h
          · cases h
          · split at h
            · cases h
            · rename_i s₄ h₄
              have e₁ := (SetCellValue_headers sheet s₁ "A" (capital_of_letter _ (Or.inl rfl)) n hn
                _ h₁).2
              have e₂ := (SetCellValue_headers s₁ s₂ "C"
                (capital_of_letter _ (Or.inr (Or.inl rfl))) n hn _ h₂).2
              have e₃ := (SetCellValue_headers s₂ s₃ "D"
                (capital_of_letter _ (Or.inr (Or.inr rfl))) n hn _ h₃).2
              have e₄ := SetCellFormula_ok s₃ s₄ _ _ h₄
              have e₅ := SetCellFormula_ok s₄ next _ _ h
              intro column
              rw [e₁ column, e₂ column, e₃ column, ← e₄, ← e₅]

/-- The header of a date column reads as a date label. -/
def headerIs (hoursText : GoInt64 → String) (sheet : Sheet) (formattedDate : String)
    (i : GoInt64) : Prop :=
  ∃ col, ColumnNumberToName i = Except.ok col ∧
    GetCellValue hoursText sheet (col ++ "1") = Except.ok formattedDate

theorem headerIs_congr (hoursText : GoInt64 → String) (a b : Sheet) (h : SameHeaders a b)
    (formattedDate : String) (i : GoInt64) (hi : headerIs hoursText a formattedDate i) :
    headerIs hoursText b formattedDate i := by
  obtain ⟨col, hcol, hheader⟩ := hi
  refine ⟨col, hcol, ?_⟩
  rw [← GetCellValue_header hoursText a b h col (ColumnNumberToName_capital i col hcol)]
  exact hheader

/-- What the inner loop of `fillUserRow` does when it returns: nothing, when no
header is the date, and else one value in the first column whose header is
the date. -/
theorem fillDateCell_ok (hoursText : GoInt64 → String) (sheet next : Sheet)
    (n : GoInt64) (hn : n.val ≠ 1) (formattedDate : String) (timeSpentSeconds : GoInt64)
    (indices : List GoInt64)
    (h : fillDateCell hoursText sheet (Itoa n) formattedDate timeSpentSeconds indices =
      Except.ok next) :
    (next = sheet ∧ ∀ i ∈ indices, ¬ headerIs hoursText sheet formattedDate i) ∨
    (∃ before i after col, indices = before ++ i :: after ∧
      (∀ j ∈ before, ¬ headerIs hoursText sheet formattedDate j) ∧
      ColumnNumberToName i = Except.ok col ∧
      GetCellValue hoursText sheet (col ++ "1") = Except.ok formattedDate ∧
      next.values =
        ((columnOf col, n.val), convertSecondsToHours timeSpentSeconds) :: sheet.values ∧
      SameHeaders sheet next) := by
  induction indices with
  | nil =>
    simp only [fillDateCell, Except.ok.injEq] at h
    exact Or.inl ⟨h.symm, (fun i hi => by cases hi)⟩
  | cons i rest ih =>
    simp only [fillDateCell] at h
    split at h
    · cases h
    · rename_i col hcol
      split at h
      · cases h
      · rename_i headerDate hheader
        split at h
        · rename_i hmatch
          right
          obtain ⟨hvalues, hsame⟩ := SetCellValue_headers sheet next col
            (ColumnNumberToName_capital i col hcol) n hn _ h
          exact ⟨[], i, rest, col, rfl, (fun j hj => by cases hj), hcol,
            (by rw [hheader, hmatch]), hvalues, hsame⟩
        · rename_i hmatch
          have hnot : ¬ headerIs hoursText sheet formattedDate i := by
            rintro ⟨col', hcol', hheader'⟩
            rw [hcol] at hcol'
            simp only [Except.ok.injEq] at hcol'
            subst hcol'
            rw [hheader] at hheader'
            simp only [Except.ok.injEq] at hheader'
            exact hmatch hheader'
          rcases ih h with ⟨hsame, hnone⟩ | ⟨before, k, after, col', hsplit, hbefore, hrest⟩
          · left
            refine ⟨hsame, ?_⟩
            intro j hj
            rcases List.mem_cons.mp hj with rfl | hj
            · exact hnot
            · exact hnone j hj
          · right
            refine ⟨i :: before, k, after, col', by rw [hsplit]; rfl, ?_, hrest⟩
            intro j hj
            rcases List.mem_cons.mp hj with rfl | hj
            · exact hnot
            · exact hbefore j hj

/-- A date without a header among the date columns is passed over: the inner
loop of `fillUserRow` returns the sheet as it is, and no error. -/
theorem fillDateCell_no_header (hoursText : GoInt64 → String) (sheet : Sheet)
    (rowIndex formattedDate : String) (timeSpentSeconds : GoInt64) (indices : List GoInt64)
    (h : ∀ i ∈ indices, ∃ col header, ColumnNumberToName i = Except.ok col ∧
      GetCellValue hoursText sheet (col ++ "1") = Except.ok header ∧ header ≠ formattedDate) :
    fillDateCell hoursText sheet rowIndex formattedDate timeSpentSeconds indices =
      Except.ok sheet := by
  induction indices with
  | nil => rfl
  | cons i rest ih =>
    obtain ⟨col, header, hcol, hheader, hne⟩ := h i (List.mem_cons_self _ _)
    simp only [fillDateCell, hcol, hheader, hne, if_false]
    exact ih (fun j hj => h j (List.mem_cons_of_mem _ hj))

theorem first_match_unique {α : Type} (P : α → Prop) (before after before' after' : List α)
    (i i' : α) (h : before ++ i :: after = before' ++ i' :: after')
    (hb : ∀ j ∈ before, ¬ P j) (hi : P i) (hb' : ∀ j ∈ before', ¬ P j) (hi' : P i') :
    i = i' := by
  induction before generalizing before' with
  | nil =>
    cases before' with
    | nil =>
      simp only [List.nil_append, List.cons.injEq] at h
      exact h.1
    | cons j rest =>
      simp only [List.nil_append, List.cons_append, List.cons.injEq] at h
      exact absurd hi (h.1 ▸ hb' j (List.mem_cons_self _ _))
  | cons j rest ih =>
    cases before' with
    | nil =>
      simp only [List.nil_append, List.cons_append, List.cons.injEq] at h
      exact absurd hi' (h.1 ▸ hb j (List.mem_cons_self _ _))
    | cons j' rest' =>
      simp only [List.cons_append, List.cons.injEq] at h
      exact ih rest' h.2 (fun k hk => hb k (List.mem_cons_of_mem _ hk))
        (fun k hk => hb' k (List.mem_cons_of_mem _ hk))

theorem sameHeaders_trans {a b c : Sheet} (h₁ : SameHeaders a b) (h₂ : SameHeaders b c) :
    SameHeaders a c := fun column => (h₁ column).trans (h₂ column)

theorem sameHeaders_symm {a b : Sheet} (h : SameHeaders a b) : SameHeaders b a :=
  fun column => (h column).symm

/-- The label of a date of the map of `fillUserRow`, or the error of `time.Parse`. -/
def dateLabel (date : String) : Except String String := (Parse date).map formatColumnDate

/-- The dates whose label is not the header of a column leave the cell of the
row in that column alone. -/
theorem fillDateCells_keeps (hoursText : GoInt64 → String) (context : ExcelContext)
    (n : GoInt64) (hn : n.val ≠ 1) (sheet : Sheet) (column : Int)
    (entries : List (String × GoInt64)) (s s' : Sheet) (hsame : SameHeaders sheet s)
    (hother : ∀ e ∈ entries,
      dateLabel e.1 ≠ Except.ok (cellText hoursText (lookupCell sheet.values (column, 1))))
    (h : fillDateCells hoursText context (Itoa n) s entries = Except.ok s') :
    lookupCell s'.values (column, n.val) = lookupCell s.values (column, n.val) := by
  induction entries generalizing s with
  | nil =>
    simp only [fillDateCells, Except.ok.injEq] at h
    rw [h]
  | cons e rest ih =>
    obtain ⟨date, seconds⟩ := e
    simp only [fillDateCells] at h
    split at h
    · cases h
    · rename_i parsedDate hparse
      split at h
      · cases h
      · rename_i s₂ hcell
        have hrest : ∀ e ∈ rest,
            dateLabel e.1 ≠ Except.ok (cellText hoursText (lookupCell sheet.values (column, 1))) :=
          fun e he => hother e (List.mem_cons_of_mem _ he)
        rcases fillDateCell_ok hoursText s s₂ n hn _ _ _ hcell with
          ⟨heq, _⟩ | ⟨before, i, after, col, _, _, hcol, hheader, hvalues, hsame₂⟩
        · rw [heq] at h
          exact ih s hsame hrest h
        · rw [ih s₂ (sameHeaders_trans hsame hsame₂) hrest h, hvalues]
          have hlabel := GetCellValue_column hoursText s col
            (ColumnNumberToName_capital i col hcol) _ hheader
          rw [← hsame (columnOf col)] at hlabel
          have hne : ¬ (columnOf col, n.val) = (column, n.val) := by
            intro e
            have hc : columnOf col = column := congrArg Prod.fst e
            apply hother (date, seconds) (List.mem_cons_self _ _)
            simp only [dateLabel, hparse, Except.map, hlabel, hc]
          simp only [lookupCell, hne, if_false]

/-- After the loop of `fillUserRow` over the dates, a date has its hours in the
first column whose header is its label, when no other date has that label. -/
theorem fillDateCells_value (hoursText : GoInt64 → String) (context : ExcelContext)
    (n : GoInt64) (hn : n.val ≠ 1) (sheet : Sheet)
    (entries : List (String × GoInt64)) (s s' : Sheet) (hsame : SameHeaders sheet s)
    (hnodup : (entries.map (fun e => dateLabel e.1)).Nodup)
    (h : fillDateCells hoursText context (Itoa n) s entries = Except.ok s') :
    ∀ e ∈ entries, ∃ parsedDate, Parse e.1 = Except.ok parsedDate ∧
      ∀ before i after col, dateColumnIndices context = before ++ i :: after →
        (∀ j ∈ before, ¬ headerIs hoursText sheet (formatColumnDate parsedDate) j) →
        ColumnNumberToName i = Except.ok col →
        GetCellValue hoursText sheet (col ++ "1") = Except.ok (formatColumnDate parsedDate) →
        lookupCell s'.values (columnOf col, n.val) = some (convertSecondsToHours e.2) := by
  induction entries generalizing s with
  | nil => intro e he; cases he
  | cons e₀ rest ih =>
    obtain ⟨date, seconds⟩ := e₀
    rw [List.map_cons, List.nodup_cons] at hnodup
    simp only [fillDateCells] at h
    split at h
    · cases h
    · rename_i parsedDate hparse
      split at h
      · cases h
      · rename_i s₂ hcell
        have hcases := fillDateCell_ok hoursText s s₂ n hn _ _ _ hcell
        have hsame₂ : SameHeaders sheet s₂ := by
          rcases hcases with ⟨heq, _⟩ | ⟨_, _, _, _, _, _, _, _, _, hs⟩
          · rw [heq]; exact hsame
          · exact sameHeaders_trans hsame hs
        intro e he
        rcases List.mem_cons.mp he with rfl | he
        · refine ⟨parsedDate, hparse, ?_⟩
          intro before i after col hsplit hbefore hcol hheader
          have hi : headerIs hoursText s (formatColumnDate parsedDate) i :=
            headerIs_congr hoursText sheet s hsame _ i ⟨col, hcol, hheader⟩
          rcases hcases with ⟨_, hnone⟩ |
            ⟨before', i', after', col', hsplit', hbefore', hcol', hheader', hvalues, _⟩
          · exact absurd hi (hnone i (by rw [hsplit]; simp))
          · have heq : i = i' :=
              first_match_unique (headerIs hoursText s (formatColumnDate parsedDate))
                before after before' after' i i' (hsplit.symm.trans hsplit')
                (fun j hj hP => hbefore j hj (headerIs_congr hoursText s sheet (sameHeaders_symm hsame) _ j hP))
                hi hbefore' ⟨col', hcol', hheader'⟩
            subst heq
            rw [hcol] at hcol'
            simp only [Except.ok.injEq] at hcol'
            subst hcol'
            have hlabel := GetCellValue_column hoursText sheet col
              (ColumnNumberToName_capital i col hcol) _ hheader
            rw [fillDateCells_keeps hoursText context n hn sheet (columnOf col) rest s₂ s' hsame₂
              ?_ h, hvalues]
            · simp only [lookupCell, if_true]
            · intro e he hlab
              apply hnodup.1
              rw [← hlabel] at hlab
              have : dateLabel date = Except.ok (formatColumnDate parsedDate) := by
                simp only [dateLabel, hparse, Except.map]
              rw [this, ← hlab]
              exact List.mem_map.mpr ⟨e, he, rfl⟩
        · exact ih s₂ hsame₂ hnodup.2 h e he

/-- C20 (amended). When `fillUserRow` returns, with the column names of
`createContext`, in a row below row 1, for a user no two of whose effort dates
have the same MM/DD label (the label leaves the year out): every date on which
the user has efforts is a date of the calendar, and in the row of the user, in
the first of the date columns whose header is the label of the date, is
`convertSecondsToHours` of the sum of the seconds of all efforts of the user
on that date, over all issues.  A date whose label is the header of no date
column is passed over by the inner loop, which returns the sheet unchanged and
no error. -/
theorem fillUserRow_date_cells (rt : Runtime) (hoursText : GoInt64 → String)
    (sheet sheet' : Sheet) (user : User) (projectKey : String) (context context' : ExcelContext)
    (hrun : fillUserRow rt hoursText sheet user projectKey context = Except.ok (sheet', context'))
    (hcolumns : context.NameColumn = "A" ∧ context.PositionColumn = "C" ∧
      context.RateColumn = "D")
    (hrow : 1 ≤ context.LastRowIndex.val)
    (hlabels : ((dateToTimeSpentSeconds user).entries.map (fun e => dateLabel e.1)).Nodup) :
    (∀ date, effortsOn user date ≠ [] →
      ∃ parsedDate, Parse date = Except.ok parsedDate ∧
        ∀ before i after col, dateColumnIndices context = before ++ i :: after →
          (∀ j ∈ before, ¬ headerIs hoursText sheet (formatColumnDate parsedDate) j) →
          ColumnNumberToName i = Except.ok col →
          GetCellValue hoursText sheet (col ++ "1") =
            Except.ok (formatColumnDate parsedDate) →
          lookupCell sheet'.values (columnOf col, (context.LastRowIndex + 1).val) =
            some (convertSecondsToHours (secondsOn user date))) ∧
    (∀ (s : Sheet) (rowIndex formattedDate : String) (timeSpentSeconds : GoInt64)
      (indices : List GoInt64),
      (∀ i ∈ indices, ∃ col header, ColumnNumberToName i = Except.ok col ∧
        GetCellValue hoursText s (col ++ "1") = Except.ok header ∧ header ≠ formattedDate) →
      fillDateCell hoursText s rowIndex formattedDate timeSpentSeconds indices =
        Except.ok s) := by
  refine ⟨?_, fillDateCell_no_header hoursText⟩
  have hn : (context.LastRowIndex + 1).val ≠ 1 := by
    have hprop := context.LastRowIndex.property
    rw [GoInt64.val_add]
    have h1 : (1 : GoInt64).val = 1 := rfl
    rw [h1]
    unfold wrapInt64
    omega
  unfold fillUserRow at hrun
  simp only [] at hrun
  split at hrun
  · cases hrun
  · rename_i s₁ hcells
    split at hrun
    · cases hrun
    · rename_i s₂ hdates
      simp only [Except.ok.injEq, Prod.mk.injEq] at hrun
      obtain ⟨hsheet, _⟩ := hrun
      subst hsheet
      have hsame : SameHeaders sheet s₁ :=
        fillUserCells_headers sheet s₁ user _ hcolumns _ hn hcells
      have hperm := rt.rangeOrder_perm [projectKey, user.AccountId]
        (dateToTimeSpentSeconds user).entries
      have hnodup : ((GoMap.range rt [projectKey, user.AccountId]
          (dateToTimeSpentSeconds user)).map (fun e => dateLabel e.1)).Nodup :=
        ((hperm.map _).nodup_iff).mpr hlabels
      intro date hdate
      have hmem : (date, secondsOn user date) ∈
          GoMap.range rt [projectKey, user.AccountId] (dateToTimeSpentSeconds user) := by
        rw [GoMap.mem_range_iff, get?_dateToTimeSpentSeconds, if_neg hdate]
      exact fillDateCells_value hoursText _ _ hn sheet _ s₁ s₂ hsame hnodup hdates _ hmem

/-- A sheet with the headers of two date columns, G and H. -/
def headerSheet : Sheet :=
  { values := [((7, 1), CellValue.text "03/05"), ((8, 1), CellValue.text "03/06")]
    formulas := [] }

/-- A user with efforts on one date in two issues, and on a date without column. -/
def busyUser : User :=
  { AccountId := "u1", Name := "bob", Position := "dev", Rate := 40
    Issues := [{ Key := "ABC-1", Efforts := [{ Date := "2024-03-05", TimeSpentSeconds := 5400 }] },
               { Key := "ABC-2", Efforts := [{ Date := "2024-03-05", TimeSpentSeconds := 3600 },
                                             { Date := "2024-03-09", TimeSpentSeconds := 7200 }] }] }

/-- A user with efforts on the same day of two years. -/
def yearsUser : User :=
  { AccountId := "u1", Name := "bob", Position := "dev", Rate := 40
    Issues := [{ Key := "ABC-1", Efforts := [{ Date := "2024-03-05", TimeSpentSeconds := 7200 },
                                             { Date := "2023-03-05", TimeSpentSeconds := 3600 }] }] }

theorem fillUserRow_date_cells_witness :
    ∃ sheet' context',
      fillUserRow Runtime.insertion (fun _ => "") headerSheet busyUser "ABC" sampleContext =
        Except.ok (sheet', context') ∧
      lookupCell sheet'.values (7, 2) = some (convertSecondsToHours 9000) := by
  cases hrun : fillUserRow Runtime.insertion (fun _ => "") headerSheet busyUser "ABC"
      sampleContext with
  | error err =>
    have hok : (fillUserRow Runtime.insertion (fun _ => "") headerSheet busyUser "ABC"
      sampleContext).toBool = true := rfl
    rw [hrun] at hok
    cases hok
  | ok result =>
    obtain ⟨sheet', context'⟩ := result
    refine ⟨sheet', context', rfl, ?_⟩
    obtain ⟨parsedDate, hparse, hcell⟩ :=
      (fillUserRow_date_cells Runtime.insertion (fun _ => "") headerSheet sheet' busyUser "ABC"
        sampleContext context' hrun ⟨rfl, rfl, rfl⟩ (by decide) (by decide)).1
        "2024-03-05" (by decide)
    have hdate : Parse "2024-03-05" = Except.ok { Year := 2024, Month := 3, Day := 5 } := rfl
    rw [hdate] at hparse
    simp only [Except.ok.injEq] at hparse
    subst hparse
    exact hcell [] 7 [8] "G" rfl (fun j hj => by cases hj) rfl rfl

/-- C20 as stated fails: the date 2024-03-05 lies in the range of the report,
the header of column G is its label 03/05, and the efforts of the user on that
date sum to 7200 seconds; but the user also has 3600 seconds on 2023-03-05,
which has the same label, and it is their hours that end up in column G of the
row of the user. -/
theorem fillUserRow_date_cells_counterexample :
    (fillUserRow Runtime.insertion (fun _ => "") headerSheet yearsUser "ABC" sampleContext).map
        (fun r => lookupCell r.1.values (7, 2)) =
      Except.ok (some (convertSecondsToHours 3600)) ∧
    secondsOn yearsUser "2024-03-05" = 7200 ∧
    dateLabel "2024-03-05" = Except.ok "03/05" ∧
    dateLabel "2023-03-05" = Except.ok "03/05" ∧
    GetCellValue (fun _ => "") headerSheet "G1" = Except.ok "03/05" ∧
    CellNameToCoordinates "G2" = Except.ok (7, 2) :=
  ⟨rfl, rfl, rfl, rfl, rfl, rfl⟩

/-! ## One user per account: claims -/

/-- The entries of the map of `getUsers`: an account id with the results of
that account, which are not empty. -/
theorem accountGroups (results : List TempoResult) :
    ∀ kv ∈ (results.foldl (groupStep (fun r => r.Author.AccountId)) GoMap.empty).entries,
      kv.2 = withKey (fun r => r.Author.AccountId) kv.1 results ∧ kv.2 ≠ [] := by
  intro kv hkv
  have h := (GoMap.mem_entries_iff _ kv.1 kv.2).mp hkv
  rw [get?_group] at h
  split at h
  · cases h
  · rename_i hne
    simp only [Option.some.injEq] at h
    exact ⟨h.symm, h ▸ hne⟩

theorem groupKey_accountId (results : List TempoResult) (projectConfig : ProjectConfig) :
    ∀ kv ∈ (results.foldl (groupStep (fun r => r.Author.AccountId)) GoMap.empty).entries,
      (groupKey projectConfig kv).1 = kv.1 := by
  intro kv hkv
  obtain ⟨hgroup, hne⟩ := accountGroups results kv hkv
  unfold groupKey
  cases hkv2 : kv.2 with
  | nil => exact absurd hkv2 hne
  | cons first rest =>
    have hin : first ∈ withKey (fun r => r.Author.AccountId) kv.1 results := by
      rw [← hgroup, hkv2]; exact List.mem_cons_self _ _
    simpa using (List.mem_filter.mp hin).2

/-- The account ids of the users of `getUsers` are the keys of its map, in
some order. -/
theorem getUsers_accountIds (rt : Runtime) (results : List TempoResult)
    (projectConfig : ProjectConfig) :
    ∃ users, getUsers rt results projectConfig = Except.ok users ∧
      (users.map (fun u => u.AccountId)).Perm
        ((results.foldl (groupStep (fun r => r.Author.AccountId)) GoMap.empty).entries.map
          Prod.fst) := by
  obtain ⟨users, hok, hperm, _⟩ := getUsers_keys_perm rt results projectConfig
  refine ⟨users, hok, ?_⟩
  have h := hperm.map Prod.fst
  simp only [List.map_map] at h
  have hleft : users.map (Prod.fst ∘ userKey) = users.map (fun u => u.AccountId) := rfl
  have hright : (results.foldl (groupStep (fun r => r.Author.AccountId)) GoMap.empty).entries.map
      (Prod.fst ∘ groupKey projectConfig) =
      (results.foldl (groupStep (fun r => r.Author.AccountId)) GoMap.empty).entries.map
        Prod.fst :=
    List.map_congr_left (fun kv hkv => groupKey_accountId results projectConfig kv hkv)
  rw [hleft, hright] at h
  exact h

/-- C23. For every list of raw entries, `getUsers` returns exactly one user per
distinct account id of the input: the account ids of the users are pairwise
distinct, and an account id is that of a user exactly when an input entry has
it (so two accounts with the same display name give two users); the display
name of each user is that of the first input entry of its account id, and its
position and rate are the roster lookup for that display name. -/
theorem getUsers_one_per_account (rt : Runtime) (results : List TempoResult)
    (projectConfig : ProjectConfig) :
    ∃ users, getUsers rt results projectConfig = Except.ok users ∧
      (users.map (fun u => u.AccountId)).Nodup ∧
      (∀ accountId, accountId ∈ users.map (fun u => u.AccountId) ↔
        ∃ r ∈ results, r.Author.AccountId = accountId) ∧
      ∀ u ∈ users, ∃ first rest,
        results.filter (fun r => decide (r.Author.AccountId = u.AccountId)) = first :: rest ∧
        u.Name = first.Author.DisplayName ∧
        u.Position = (userConfigOf projectConfig first.Author.DisplayName).Position ∧
        u.Rate = (userConfigOf projectConfig first.Author.DisplayName).Rate := by
  obtain ⟨users, hok, hperm⟩ := getUsers_accountIds rt results projectConfig
  obtain ⟨users', hok', hall⟩ := getUsers_ok rt results projectConfig
  have heq : users' = users := by
    rw [hok] at hok'
    simp only [Except.ok.injEq] at hok'
    exact hok'.symm
  subst heq
  refine ⟨users', hok, ?_, ?_, ?_⟩
  · exact hperm.nodup_iff.mpr
      (results.foldl (groupStep (fun r => r.Author.AccountId)) GoMap.empty).nodup
  · intro accountId
    rw [hperm.mem_iff, ← not_iff_not, ← lookupEntries_eq_none]
    change (results.foldl (groupStep (fun r => r.Author.AccountId)) GoMap.empty).get? accountId
      = none ↔ _
    rw [get?_group]
    unfold withKey
    constructor
    · intro h
      split at h
      · rename_i hnil
        rintro ⟨r, hr, hacc⟩
        have : r ∈ results.filter (fun r => decide (r.Author.AccountId = accountId)) :=
          List.mem_filter.mpr ⟨hr, decide_eq_true hacc⟩
        rw [hnil] at this
        cases this
      · cases h
    · intro h
      rw [if_pos]
      apply List.eq_nil_iff_forall_not_mem.mpr
      intro r hr
      obtain ⟨hmem, hacc⟩ := List.mem_filter.mp hr
      exact h ⟨r, hmem, of_decide_eq_true hacc⟩
  · intro u hu
    obtain ⟨first, rest, hgroup, hueq⟩ := hall u hu
    refine ⟨first, rest, hgroup, ?_, ?_, ?_⟩
    · rw [hueq]; rfl
    · rw [hueq]; rfl
    · rw [hueq]; rfl

/-- Raw entries of two accounts with the same display name. -/
def namesakeResults : List TempoResult :=
  [sampleEntry "u1" "Ann" "ABC-1" "2024-03-05" 3600,
   sampleEntry "u2" "Ann" "ABC-1" "2024-03-06" 1800,
   sampleEntry "u1" "Ann B." "ABC-2" "2024-03-07" 60]

theorem getUsers_one_per_account_witness :
    (getUsers Runtime.insertion namesakeResults sampleConfig).map (List.map userKey) =
      Except.ok [("u1", "Ann", "", 0), ("u2", "Ann", "", 0)] ∧
    ∃ users, getUsers Runtime.insertion namesakeResults sampleConfig = Except.ok users ∧
      (users.map (fun u => u.AccountId)).Nodup :=
  ⟨by rfl,
   (getUsers_one_per_account Runtime.insertion namesakeResults sampleConfig).imp
     (fun _ h => ⟨h.1, h.2.1⟩)⟩

/-! ## The total of the seconds: claims -/

/-- All efforts of all issues of the users. -/
def allEfforts (users : List User) : List Effort :=
  (users.flatMap (fun u => u.Issues)).flatMap (fun issue => issue.Efforts)

theorem sum_map_flatMap {α β M : Type} [AddCommMonoid M] (l : List α) (g : α → List β)
    (φ : β → M) :
    ((l.flatMap g).map φ).sum = (l.map (fun x => ((g x).map φ).sum)).sum := by
  induction l with
  | nil => rfl
  | cons x rest ih =>
    rw [List.flatMap_cons, List.map_append, List.sum_append, ih, List.map_cons, List.sum_cons]

theorem sum_map_ite_key {M : Type} [AddCommMonoid M] (keys : List String) (hnodup : keys.Nodup)
    (key : String) (x : M) (hmem : key ∈ keys) :
    (keys.map (fun k => if key = k then x else 0)).sum = x := by
  induction keys with
  | nil => cases hmem
  | cons k rest ih =>
    rw [List.nodup_cons] at hnodup
    rw [List.map_cons, List.sum_cons]
    by_cases hk : key = k
    · subst hk
      have hzero : rest.map (fun k => if key = k then x else 0) = rest.map (fun _ => (0 : M)) :=
        List.map_congr_left (fun k hk => by
          have : key ≠ k := fun e => hnodup.1 (e ▸ hk)
          simp only [this, if_false])
      rw [if_pos rfl, hzero]
      simp
    · rw [if_neg hk, zero_add]
      rcases List.mem_cons.mp hmem with h | h
      · exact absurd h hk
      · exact ih hnodup.2 h

/-- A list of entries is the sum of its groups by key. -/
theorem sum_groups {M : Type} [AddCommMonoid M] (key : TempoResult → String)
    (f : TempoResult → M) (keys : List String) (hnodup : keys.Nodup) (l : List TempoResult)
    (hall : ∀ r ∈ l, key r ∈ keys) :
    (keys.map (fun k => ((withKey key k l).map f).sum)).sum = (l.map f).sum := by
  induction l with
  | nil => simp [withKey]
  | cons r rest ih =>
    have hstep : ∀ k, ((withKey key k (r :: rest)).map f).sum =
        (if key r = k then f r else 0) + ((withKey key k rest).map f).sum := by
      intro k
      unfold withKey
      by_cases hk : key r = k
      · simp [List.filter_cons, hk]
      · simp [List.filter_cons, hk]
    simp only [hstep]
    rw [List.sum_map_add, sum_map_ite_key keys hnodup (key r) (f r)
      (hall r (List.mem_cons_self _ _)), ih (fun x hx => hall x (List.mem_cons_of_mem _ hx)),
      List.map_cons, List.sum_cons]

/-- The total over the entries of a map that holds one entry per group. -/
theorem sum_map_entries {β M : Type} [AddCommMonoid M] (m : GoMap β) (val : String × β → M)
    (key : TempoResult → String) (f : TempoResult → M) (l : List TempoResult)
    (hval : ∀ kv ∈ m.entries, val kv = ((withKey key kv.1 l).map f).sum)
    (hkeys : ∀ r ∈ l, m.get? (key r) ≠ none)
    (visited : List (String × β)) (hperm : visited.Perm m.entries) :
    (visited.map val).sum = (l.map f).sum := by
  rw [(hperm.map val).sum_eq]
  have h1 : m.entries.map val =
      (m.entries.map Prod.fst).map (fun k => ((withKey key k l).map f).sum) := by
    rw [List.map_map]
    exact List.map_congr_left hval
  rw [h1]
  refine sum_groups key f _ m.nodup l ?_
  intro r hr
  by_contra hno
  exact hkeys r hr ((lookupEntries_eq_none m.entries (key r)).mpr hno)

theorem withKey_self_ne_nil (key : TempoResult → String) (l : List TempoResult)
    (r : TempoResult) (hr : r ∈ l) : withKey key (key r) l ≠ [] := by
  intro h
  have : r ∈ withKey key (key r) l := List.mem_filter.mpr ⟨hr, decide_eq_true rfl⟩
  rw [h] at this
  cases this

/-- The total over the efforts that `getEfforts` returns. -/
theorem effortsList_total {M : Type} [AddCommMonoid M] (φ : Effort → M) (f : TempoResult → M)
    (rt : Runtime) (site : List String) (l : List TempoResult)
    (hφ : ∀ d, withKey (fun r => r.StartDate) d l ≠ [] →
      φ { Date := d, TimeSpentSeconds := sumSeconds (withKey (fun r => r.StartDate) d l) } =
        ((withKey (fun r => r.StartDate) d l).map f).sum) :
    ((effortsList rt site l).map φ).sum = (l.map f).sum := by
  unfold effortsList
  rw [List.map_map]
  refine sum_map_entries (l.foldl getEffortsStep GoMap.empty) (φ ∘ fun entry => entry.2)
    (fun r => r.StartDate) f l ?_ ?_ _ (rt.rangeOrder_perm _ _)
  · intro kv hkv
    have h := (GoMap.mem_entries_iff _ kv.1 kv.2).mp hkv
    rw [get?_efforts] at h
    split at h
    · cases h
    · rename_i hne
      simp only [Option.some.injEq] at h
      simp only [Function.comp, ← h]
      exact hφ kv.1 hne
  · intro r hr
    rw [get?_efforts, if_neg (withKey_self_ne_nil _ l r hr)]
    simp

/-- The total over the efforts of the issues that `getIssues` returns. -/
theorem issuesList_total {M : Type} [AddCommMonoid M] (φ : Effort → M) (f : TempoResult → M)
    (rt : Runtime) (site : List String) (l : List TempoResult)
    (hφ : ∀ i d,
      withKey (fun r => r.StartDate) d (withKey (fun r => r.Issue.Key) i l) ≠ [] →
      φ { Date := d
          TimeSpentSeconds :=
            sumSeconds (withKey (fun r => r.StartDate) d (withKey (fun r => r.Issue.Key) i l)) } =
        ((withKey (fun r => r.StartDate) d (withKey (fun r => r.Issue.Key) i l)).map f).sum) :
    ((issuesList rt site l).map (fun issue => (issue.Efforts.map φ).sum)).sum =
      (l.map f).sum := by
  unfold issuesList
  rw [List.map_map]
  refine sum_map_entries (l.foldl (groupStep (fun r => r.Issue.Key)) GoMap.empty) _
    (fun r => r.Issue.Key) f l ?_ ?_ _ (rt.rangeOrder_perm _ _)
  · intro kv hkv
    have h := (GoMap.mem_entries_iff _ kv.1 kv.2).mp hkv
    rw [get?_group] at h
    split at h
    · cases h
    · simp only [Option.some.injEq] at h
      simp only [Function.comp, issueOf]
      rw [effortsList_total φ f rt _ kv.2 (by rw [← h]; exact hφ kv.1), ← h]
  · intro r hr
    rw [get?_group, if_neg (withKey_self_ne_nil _ l r hr)]
    simp

theorem forall₂_map_eq_of_mem {α β γ : Type} {R : α → β → Prop} (f : α → γ) (g : β → γ)
    {l : List α} {u : List β} (hR : ∀ a ∈ l, ∀ b, R a b → g b = f a)
    (h : List.Forall₂ R l u) : u.map g = l.map f := by
  induction h with
  | nil => rfl
  | cons hr _ ih =>
    rw [List.map_cons, List.map_cons, ih (fun a ha => hR a (List.mem_cons_of_mem _ ha)),
      hR _ (List.mem_cons_self _ _) _ hr]

/-- The total over all efforts of the users that `getUsers` returns. -/
theorem getUsers_total {M : Type} [AddCommMonoid M] (φ : Effort → M) (f : TempoResult → M)
    (rt : Runtime) (results : List TempoResult) (projectConfig : ProjectConfig)
    (hφ : ∀ a i d,
      entriesOf results a i d ≠ [] →
      φ { Date := d, TimeSpentSeconds := sumSeconds (entriesOf results a i d) } =
        ((entriesOf results a i d).map f).sum) :
    ∃ users, getUsers rt results projectConfig = Except.ok users ∧
      ((allEfforts users).map φ).sum = (results.map f).sum := by
  obtain ⟨unsorted, hok, hall⟩ := getUsers_eq_sort rt results projectConfig
  refine ⟨_, hok, ?_⟩
  unfold allEfforts
  rw [sum_map_flatMap, sum_map_flatMap,
    ((rt.sortSlice_perm (userLess rt) unsorted).map _).sum_eq]
  have hmap : unsorted.map
      (fun u => (u.Issues.map (fun issue => (issue.Efforts.map φ).sum)).sum) =
      ((results.foldl (groupStep (fun r => r.Author.AccountId)) GoMap.empty).range rt []).map
        (fun kv => (kv.2.map f).sum) := by
    refine forall₂_map_eq_of_mem _ _ ?_ hall
    rintro kv hkv u ⟨first, rest, _, hueq⟩
    obtain ⟨hgroup, _⟩ := userGroups rt results kv hkv
    simp only [hueq, userOf]
    refine issuesList_total φ f rt [kv.1] kv.2 ?_
    intro i d
    rw [hgroup, ← entriesOf_eq]
    exact hφ kv.1 i d
  rw [hmap]
  refine sum_map_entries (results.foldl (groupStep (fun r => r.Author.AccountId)) GoMap.empty)
    (fun kv => (kv.2.map f).sum) (fun r => r.Author.AccountId) f results ?_ ?_ _
    (rt.rangeOrder_perm _ _)
  · intro kv hkv
    show (kv.2.map f).sum = _
    rw [← (accountGroups results kv hkv).1]
  · intro r hr
    rw [get?_group, if_neg (withKey_self_ne_nil _ results r hr)]
    simp

theorem exactSeconds_filter (l : List TempoResult) (p : TempoResult → Bool)
    (hpos : ∀ r ∈ l, 0 ≤ r.TimeSpentSeconds.val) :
    0 ≤ exactSeconds (l.filter p) ∧ exactSeconds (l.filter p) ≤ exactSeconds l := by
  induction l with
  | nil => exact ⟨le_refl _, le_refl _⟩
  | cons r rest ih =>
    have hr := hpos r (List.mem_cons_self _ _)
    have hrest := ih (fun x hx => hpos x (List.mem_cons_of_mem _ hx))
    unfold exactSeconds at hrest ⊢
    by_cases hp : p r = true
    · rw [List.filter_cons_of_pos hp]
      simp only [List.map_cons, List.sum_cons]
      omega
    · rw [List.filter_cons_of_neg hp]
      simp only [List.map_cons, List.sum_cons]
      omega

/-- C22. For every list of raw entries `getUsers` returns users, and the total
of TimeSpentSeconds over all efforts of all issues of all users equals the
total of TimeSpentSeconds over the input entries, both totals taken in Go's
`int`; the totals are equal as integers as well whenever the sum of the
seconds of the entries of every account, issue and date fits in an `int`,
which is so when no entry has negative seconds and the total of the input
fits in an `int`. -/
theorem getUsers_total_seconds (rt : Runtime) (results : List TempoResult)
    (projectConfig : ProjectConfig) :
    ∃ users, getUsers rt results projectConfig = Except.ok users ∧
      ((allEfforts users).map (fun e => e.TimeSpentSeconds)).sum = sumSeconds results ∧
      ((∀ accountId issueKey date,
          -9223372036854775808 ≤ exactSeconds (entriesOf results accountId issueKey date) ∧
          exactSeconds (entriesOf results accountId issueKey date) < 9223372036854775808) →
        ((allEfforts users).map (fun e => e.TimeSpentSeconds.val)).sum =
          exactSeconds results) ∧
      ((∀ r ∈ results, 0 ≤ r.TimeSpentSeconds.val) →
        exactSeconds results < 9223372036854775808 →
        ((allEfforts users).map (fun e => e.TimeSpentSeconds.val)).sum =
          exactSeconds results) := by
  obtain ⟨users, hok, htotal⟩ :=
    getUsers_total (fun e => e.TimeSpentSeconds) (fun r => r.TimeSpentSeconds) rt results
      projectConfig (fun _ _ _ _ => rfl)
  have hexact : (∀ accountId issueKey date,
      -9223372036854775808 ≤ exactSeconds (entriesOf results accountId issueKey date) ∧
      exactSeconds (entriesOf results accountId issueKey date) < 9223372036854775808) →
      ((allEfforts users).map (fun e => e.TimeSpentSeconds.val)).sum = exactSeconds results := by
    intro hfits
    obtain ⟨users', hok', htotal'⟩ :=
      getUsers_total (fun e => e.TimeSpentSeconds.val) (fun r => r.TimeSpentSeconds.val) rt
        results projectConfig
        (fun a i d _ => sumSeconds_val_of_fits _ (hfits a i d).1 (hfits a i d).2)
    rw [hok] at hok'
    simp only [Except.ok.injEq] at hok'
    rw [hok']
    exact htotal'
  refine ⟨users, hok, htotal, hexact, ?_⟩
  intro hpos hfits
  apply hexact
  intro accountId issueKey date
  have h := exactSeconds_filter results
    (fun r => decide (r.Author.AccountId = accountId ∧ r.Issue.Key = issueKey ∧
      r.StartDate = date)) hpos
  unfold entriesOf
  constructor
  · omega
  · omega

theorem getUsers_total_seconds_witness :
    ∃ users, getUsers Runtime.insertion sampleResults sampleConfig = Except.ok users ∧
      ((allEfforts users).map (fun e => e.TimeSpentSeconds.val)).sum = 12660 := by
  obtain ⟨users, hok, _, _, hexact⟩ :=
    getUsers_total_seconds Runtime.insertion sampleResults sampleConfig
  exact ⟨users, hok, (hexact (by decide) (by decide)).trans (by decide)⟩

/-! ## Column names and column numbers -/

theorem toNat_letter (k : Nat) (h : k < 26) : (Char.ofNat (k + 65)).toNat = k + 65 := by
  interval_cases k <;> rfl

theorem isCapital_letter (k : Nat) (h : k < 26) : isCapital (Char.ofNat (k + 65)) := by
  unfold isCapital
  interval_cases k <;> decide

theorem columnLetters_zero (fuel : Nat) (col : List Char) : columnLetters fuel 0 col = col := by
  cases fuel <;> simp [columnLetters]

theorem columnLetters_pos (fuel num : Nat) (col : List Char) (hnum : 0 < num) (hfuel : 0 < fuel) :
    columnLetters fuel num col =
      columnLetters (fuel - 1) ((num - 1) / 26) (Char.ofNat ((num - 1) % 26 + 65) :: col) := by
  cases fuel with
  | zero => omega
  | succ fuel => simp [columnLetters, hnum]

/-- One round of the loop of `ColumnNameToNumber` on a letter of `ColumnNumberToName`. -/
theorem columnNumber_letter (name : String) (k : Nat) (hk : k < 26) (rest : List Char)
    (col multi : GoInt64) :
    columnNumber name (Char.ofNat (k + 65) :: rest) col multi =
      columnNumber name rest (col + GoInt64.mul (GoInt64.ofInt (k + 1)) multi)
        (GoInt64.mul multi 26) := by
  have hcap := isCapital_letter k hk
  unfold isCapital at hcap
  have hnat : (('A'.toNat : Nat) : Int) = 65 := rfl
  have hval : ((Char.ofNat (k + 65)).toNat : Int) - (('A'.toNat : Nat) : Int) + 1 = k + 1 := by
    rw [toNat_letter k hk, hnat]
    push_cast
    omega
  simp only [columnNumber, hcap, and_self, if_true, hval]

theorem columnNumber_nil (name : String) (col multi : GoInt64) :
    columnNumber name [] col multi = Except.ok col := by
  simp only [columnNumber]

theorem val_mul_small (x : Int) (c : GoInt64) (hx₀ : 0 ≤ x) (hx : x ≤ 26) (hc₀ : 0 ≤ c.val)
    (hc : c.val ≤ 676) : (GoInt64.mul (GoInt64.ofInt x) c).val = x * c.val := by
  show wrapInt64 (wrapInt64 x * c.val) = x * c.val
  rw [wrapInt64_of_fits x (by omega) (by omega)]
  have h₁ : 0 ≤ x * c.val := Int.mul_nonneg hx₀ hc₀
  have h₂ : x * c.val ≤ 26 * 676 := Int.mul_le_mul hx hc hc₀ (by omega)
  exact wrapInt64_of_fits _ (by omega) (by omega)

/-- The column number of the name of a column number is that number. -/
theorem ColumnNameToNumber_ColumnNumberToName (num : GoInt64) (col : String)
    (h : ColumnNumberToName num = Except.ok col) : ColumnNameToNumber col = Except.ok num := by
  unfold ColumnNumberToName MaxColumns at h
  split at h
  · cases h
  · rename_i hrange
    simp only [Except.ok.injEq] at h
    obtain ⟨n, hn⟩ : ∃ n : Nat, num.val = n := ⟨num.val.toNat, by omega⟩
    have hn₁ : 1 ≤ n := by omega
    have hn₂ : n ≤ 16384 := by omega
    have htoNat : num.val.toNat = n := by omega
    rw [htoNat] at h
    have h1 : (1 : GoInt64).val = 1 := rfl
    have h26 : (GoInt64.mul 1 26).val = 26 := rfl
    have h676 : (GoInt64.mul (GoInt64.mul 1 26) 26).val = 676 := rfl
    have h0 : (0 : GoInt64).val = 0 := rfl
    have ha₀ : (n - 1) % 26 < 26 := Nat.mod_lt _ (by decide)
    rw [columnLetters_pos n n [] (by omega) (by omega)] at h
    have finish : ∀ (letters : List Char) (value : GoInt64), letters ≠ [] →
        columnNumber (String.mk letters) letters.reverse 0 1 = Except.ok value →
        value.val = n → ColumnNameToNumber (String.mk letters) = Except.ok num := by
      intro letters value hne hloop hvalue
      have hlen : ¬ (String.mk letters).data.length = 0 := by
        simp only [List.length_eq_zero]
        exact hne
      have hmax : ¬ value.val > MaxColumns := by
        unfold MaxColumns
        omega
      have heq : value = num := Subtype.ext (by rw [hvalue, hn])
      subst heq
      simp only [ColumnNameToNumber, hlen, if_false, hloop, hmax]
    by_cases hq₁ : (n - 1) / 26 = 0
    · rw [hq₁, columnLetters_zero] at h
      rw [← h]
      refine finish _ ?_ (by simp) ?_ ?_
      rotate_left
      · simp only [List.reverse_cons, List.reverse_nil, List.nil_append]
        rw [columnNumber_letter _ _ ha₀]
        exact columnNumber_nil _ _ _
      · rw [GoInt64.val_add, val_mul_small _ _ (by omega) (by omega) (by omega) (by omega), h0,
          h1]
        rw [wrapInt64_of_fits _ (by omega) (by omega)]
        omega
    · have ha₁ : ((n - 1) / 26 - 1) % 26 < 26 := Nat.mod_lt _ (by decide)
      rw [columnLetters_pos _ _ _ (by omega) (by omega)] at h
      by_cases hq₂ : ((n - 1) / 26 - 1) / 26 = 0
      · rw [hq₂, columnLetters_zero] at h
        rw [← h]
        refine finish _ ?_ (by simp) ?_ ?_
        rotate_left
        · simp only [List.reverse_cons, List.reverse_nil, List.nil_append, List.cons_append]
          rw [columnNumber_letter _ _ ha₀, columnNumber_letter _ _ ha₁]
          exact columnNumber_nil _ _ _
        · rw [GoInt64.val_add, val_mul_small _ _ (by omega) (by omega) (by omega) (by omega),
            GoInt64.val_add, val_mul_small _ _ (by omega) (by omega) (by omega) (by omega), h0,
            h1, h26]
          rw [wrapInt64_of_fits (0 + _) (by omega) (by omega)]
          rw [wrapInt64_of_fits _ (by omega) (by omega)]
          omega
      · have ha₂ : (((n - 1) / 26 - 1) / 26 - 1) % 26 < 26 := Nat.mod_lt _ (by decide)
        have hq₃ : (((n - 1) / 26 - 1) / 26 - 1) / 26 = 0 := by omega
        rw [columnLetters_pos _ _ _ (by omega) (by omega), hq₃, columnLetters_zero] at h
        rw [← h]
        refine finish _ ?_ (by simp) ?_ ?_
        rotate_left
        · simp only [List.reverse_cons, List.reverse_nil, List.nil_append, List.cons_append]
          rw [columnNumber_letter _ _ ha₀, columnNumber_letter _ _ ha₁,
            columnNumber_letter _ _ ha₂]
          exact columnNumber_nil _ _ _
        · rw [GoInt64.val_add, val_mul_small _ _ (by omega) (by omega) (by omega) (by omega),
            GoInt64.val_add, val_mul_small _ _ (by omega) (by omega) (by omega) (by omega),
            GoInt64.val_add, val_mul_small _ _ (by omega) (by omega) (by omega) (by omega), h0,
            h1, h26, h676]
          rw [wrapInt64_of_fits (0 + _) (by omega) (by omega)]
          rw [wrapInt64_of_fits (_ + _ * 26) (by omega) (by omega)]
          rw [wrapInt64_of_fits _ (by omega) (by omega)]
          omega

/-- The column of the name of a column number. -/
theorem columnOf_ColumnNumberToName (num : GoInt64) (col : String)
    (h : ColumnNumberToName num = Except.ok col) : columnOf col = num.val := by
  unfold columnOf
  rw [ColumnNameToNumber_ColumnNumberToName num col h]

/-! ## The header row (`services/excel.go`) -/

/-- Go `t.After(u)` on whole days. -/
def Time.After (t u : Time) : Bool :=
  decide (u.Year < t.Year ∨ (u.Year = t.Year ∧
    (u.Month < t.Month ∨ (u.Month = t.Month ∧ u.Day < t.Day))))

/-- Go `date.AddDate(0, 0, 1)` on a day of the calendar: the next day. -/
def nextDay (date : Time) : Time :=
  if date.Day < daysIn date.Month date.Year.natAbs then { date with Day := date.Day + 1 }
  else if date.Month < 12 then { date with Month := date.Month + 1, Day := 1 }
  else { Year := date.Year + 1, Month := 1, Day := 1 }

/-- Go `strings.TrimRight(s, cutset)`. -/
def TrimRight (s cutset : String) : String :=
  String.mk (s.data.reverse.dropWhile (fun r => decide (r ∈ cutset.data))).reverse

/-- The method `File.SetColWidth` on the sheet: it fails on an invalid column
name or a width above 255, and has no effect on values and formulas. -/
def SetColWidth (startCol endCol : String) (width : Nat) : Except String Unit :=
  match ColumnNameToNumber startCol with
  | Except.error err => Except.error err
  | Except.ok _ =>
    match ColumnNameToNumber endCol with
    | Except.error err => Except.error err
    | Except.ok _ =>
      if width > 255 then Except.error "the width of the column must be less than or equal to 255"
      else Except.ok ()

/-- The method `File.SetRowStyle` on the sheet: it fails on an invalid row
number, and has no effect on values and formulas. -/
def SetRowStyle (start last : GoInt64) : Except String Unit :=
  let first := if last.val < start.val then last else start
  let final := if last.val < start.val then start else last
  if first.val < 1 then Except.error "invalid row number"
  else if final.val > TotalRows then Except.error "row number exceeds maximum limit"
  else Except.ok ()

/-- Whether a cell shows in `Rows.Columns`: it has a value that is not the
empty string. -/
def hasContent : Option CellValue → Bool
  | none => false
  | some (CellValue.text value) => decide (value ≠ "")
  | some (CellValue.number _) => true
  | some (CellValue.hours _) => true

/-- The number of columns that `Rows.Columns` returns for row 1: the column of
the last cell of the row that has a value other than "" or a formula. -/
def firstRowColumns (sheet : Sheet) : Int :=
  (((sheet.values.map (fun cell => cell.1) ++ sheet.formulas.map (fun cell => cell.1)).filter
    (fun key => decide (key.2 = 1) &&
      (hasContent (lookupCell sheet.values key) || (lookupCell sheet.formulas key).isSome))).map
    (fun key => key.1)).foldl max 0

/-- `ExcelService.getColsCountInRow`: whatever `rowIndex` is, it counts the
columns of the first row; it fails on a sheet without rows. -/
def getColsCountInRow (sheet : Sheet) (_rowIndex : GoInt64) : Except String GoInt64 :=
  if sheet.values = [] ∧ sheet.formulas = [] then Except.error "no rows"
  else Except.ok (GoInt64.ofInt (firstRowColumns sheet))

/-- The first part of `fillHeader`: the six fixed columns and the style of the row. -/
def fillHeaderColumns (sheet : Sheet) (context : ExcelContext) (rowIndex : String) :
    Except String Sheet := do
  let sheet ← SetCellValue sheet (context.NameColumn ++ rowIndex) (CellValue.text "Name")
  SetColWidth context.NameColumn context.NameColumn 25
  let sheet ← SetCellValue sheet (context.ManagerColumn ++ rowIndex) (CellValue.text "Manager")
  SetColWidth context.ManagerColumn context.ManagerColumn 25
  let sheet ← SetCellValue sheet (context.PositionColumn ++ rowIndex) (CellValue.text "Position")
  SetColWidth context.PositionColumn context.PositionColumn 25
  let sheet ← SetCellValue sheet (context.RateColumn ++ rowIndex) (CellValue.text "Rate")
  SetColWidth context.RateColumn context.RateColumn 9
  let sheet ← SetCellValue sheet (context.TotalHoursColumn ++ rowIndex)
    (CellValue.text "Total hours")
  SetColWidth context.TotalHoursColumn context.TotalHoursColumn 12
  let sheet ← SetCellValue sheet (context.TotalCostColumn ++ rowIndex)
    (CellValue.text "Total cost")
  SetColWidth context.TotalCostColumn context.TotalCostColumn 12
  SetRowStyle context.LastRowIndex context.LastRowIndex
  pure sheet

/-- The loop of `fillHeader` over the days from `date` to `dateTo`, with the
sheet and the column index it leaves.  Every round but the last takes a new
column and fails when there is none, so that the loop ends within 16386
rounds, which is the `fuel` that `fillHeader` gives it.  On a Saturday or a
Sunday the cell gets its style by a second call of `SetCellStyle`, the same as
the first, which has succeeded. -/
def fillHeaderDates (dateTo : Time) (row : GoInt64) (rowIndex : String) :
    Nat → Time → GoInt64 → Sheet → Except String (Sheet × GoInt64)
  | 0, _, _, _ => Except.error "the loop over the days has not ended"
  | fuel + 1, date, colIndex, sheet =>
    if date.After dateTo then Except.ok (sheet, colIndex)
    else
      let colIndex := colIndex + 1
      match CoordinatesToCellName colIndex row with
      | Except.error err => Except.error err
      | Except.ok cell =>
        match SetCellValue sheet cell (CellValue.text (formatColumnDate date)) with
        | Except.error err => Except.error err
        | Except.ok sheet =>
          let col := TrimRight cell rowIndex
          match SetColWidth col col 6 with
          | Except.error err => Except.error err
          | Except.ok _ =>
            match SetCellStyle (col ++ rowIndex) (col ++ rowIndex) with
            | Except.error err => Except.error err
            | Except.ok _ =>
              fillHeaderDates dateTo row rowIndex fuel (nextDay date) colIndex sheet

/-- `ExcelService.fillHeader`, with the context it leaves. -/
def fillHeader (sheet : Sheet) (context : ExcelContext) (report : Report) :
    Except String (Sheet × ExcelContext) :=
  let rowIndex := Itoa context.LastRowIndex
  match fillHeaderColumns sheet context rowIndex with
  | Except.error err => Except.error err
  | Except.ok sheet =>
    match getColsCountInRow sheet context.LastRowIndex with
    | Except.error err => Except.error err
    | Except.ok colsCount =>
      let colIndex := colsCount
      let context := { context with FirstDateColumnIndex := colIndex + 1 }
      match fillHeaderDates report.DateTo context.LastRowIndex rowIndex 16386 report.DateFrom
          colIndex sheet with
      | Except.error err => Except.error err
      | Except.ok (sheet, colIndex) =>
        let context := { context with LastDateColumnIndex := colIndex }
        match getColsCountInRow sheet context.LastRowIndex with
        | Except.error err => Except.error err
        | Except.ok colsCount => Except.ok (sheet, { context with ColsCount := colsCount })

/-! ## The header row: claims -/

/-- The day `k` days after `date`. -/
def addDays (date : Time) : Nat → Time
  | 0 => date
  | k + 1 => addDays (nextDay date) k

/-- The cell named by the name of a column and the row that `strconv.Itoa`
prints is a cell of the sheet, in that column and row. -/
theorem CellNameToCoordinates_name (col : String) (column n : GoInt64)
    (hcol : ∀ r ∈ col.data, isCapital r) (hcolumn : ColumnNameToNumber col = Except.ok column)
    (hn₁ : 0 < n.val) (hn₂ : n.val ≤ TotalRows) :
    CellNameToCoordinates (col ++ Itoa n) = Except.ok (column.val, n.val) := by
  have hsplit : splitAtLastAlpha (col ++ Itoa n).data = (col.data, (Itoa n).data) := by
    rw [String.data_append]
    exact splitAtLastAlpha_append _ _ (fun r hr => (isAlpha_capital r (hcol r hr)).1)
      (Itoa_not_alpha n)
  have hfilter : col.data.filter (fun r => decide (r ≠ '$')) = col.data := by
    rw [List.filter_eq_self]
    intro r hr
    exact decide_eq_true (isAlpha_capital r (hcol r hr)).2
  have hdigits : (Itoa n).data ≠ [] := by
    intro h
    have hatoi := Atoi_Itoa n
    unfold Atoi at hatoi
    rw [h] at hatoi
    cases hatoi
  cases hdata : col.data with
  | nil =>
    have hlen : col.data.length = 0 := by rw [hdata]; rfl
    unfold ColumnNameToNumber at hcolumn
    rw [if_pos hlen] at hcolumn
    cases hcolumn
  | cons first rest =>
    have hfirst : isAlpha first = true :=
      (isAlpha_capital first (hcol first (by rw [hdata]; exact List.mem_cons_self _ _))).1
    have hname : (col ++ Itoa n).data = first :: (rest ++ (Itoa n).data) := by
      rw [String.data_append, hdata]
      rfl
    have hmax : ¬ n.val > TotalRows := by omega
    unfold CellNameToCoordinates SplitCellName
    rw [hsplit]
    simp only [hname, hfirst, hdigits, if_false, Bool.true_eq_false, hfilter]
    rw [show String.mk (Itoa n).data = Itoa n from rfl, Atoi_Itoa]
    simp only [hn₁, if_true, hmax, if_false]
    rw [show String.mk col.data = col from rfl, hcolumn]

theorem TrimRight_name (col : String) (hcol : ∀ r ∈ col.data, isCapital r) :
    TrimRight (col ++ "1") "1" = col := by
  unfold TrimRight
  have hdata : (col ++ "1").data = col.data ++ ['1'] := by
    rw [String.data_append]
  have hcut : ("1" : String).data = ['1'] := rfl
  rw [hdata, hcut, List.reverse_append]
  simp only [List.reverse_cons, List.reverse_nil, List.nil_append, List.singleton_append,
    List.dropWhile_cons, List.mem_singleton, decide_True, if_true]
  have hkeep : col.data.reverse.dropWhile (fun r => decide (r = '1')) = col.data.reverse := by
    cases hrev : col.data.reverse with
    | nil => rfl
    | cons r rest =>
      have hr : isCapital r :=
        hcol r (List.mem_reverse.mp (by rw [hrev]; exact List.mem_cons_self _ _))
      have hne : r ≠ '1' := by
        rintro rfl
        exact absurd hr.1 (by decide)
      simp only [List.dropWhile_cons, hne, decide_False, Bool.false_eq_true, if_false]
  rw [hkeep, List.reverse_reverse]

/-- One round of the loop of `fillHeader` in row 1, where there is a column
left: the label of the day goes into the next column. -/
theorem fillHeaderDates_step (dateTo date : Time) (fuel : Nat) (colIndex : GoInt64)
    (sheet : Sheet) (hdate : date.After dateTo = false) (h₀ : 0 ≤ colIndex.val)
    (h₁ : colIndex.val < 16384) :
    (colIndex + 1).val = colIndex.val + 1 ∧
    fillHeaderDates dateTo 1 "1" (fuel + 1) date colIndex sheet =
      fillHeaderDates dateTo 1 "1" fuel (nextDay date) (colIndex + 1)
        { sheet with
          values := ((colIndex.val + 1, 1), CellValue.text (formatColumnDate date)) ::
            sheet.values } := by
  have hval : (colIndex + 1).val = colIndex.val + 1 := by
    rw [GoInt64.val_add]
    have h1 : (1 : GoInt64).val = 1 := rfl
    rw [h1]
    exact wrapInt64_of_fits _ (by omega) (by omega)
  refine ⟨hval, ?_⟩
  have hrange : ¬ ((colIndex + 1).val < 1 ∨ (colIndex + 1).val > MaxColumns) := by
    unfold MaxColumns
    omega
  have hname : ColumnNumberToName (colIndex + 1) =
      Except.ok (String.mk (columnLetters (colIndex + 1).val.toNat (colIndex + 1).val.toNat [])) := by
    unfold ColumnNumberToName
    rw [if_neg hrange]
  generalize String.mk (columnLetters (colIndex + 1).val.toNat (colIndex + 1).val.toNat []) = col
    at hname
  have hcol := ColumnNumberToName_capital _ col hname
  have hnumber := ColumnNameToNumber_ColumnNumberToName _ col hname
  have h1 : (1 : GoInt64).val = 1 := rfl
  have hitoa : Itoa 1 = "1" := rfl
  have hcell : CoordinatesToCellName (colIndex + 1) 1 = Except.ok (col ++ "1") := by
    unfold CoordinatesToCellName TotalRows
    rw [if_neg (by rw [h1]; omega), if_neg (by rw [h1]; omega), hname, hitoa]
  have hkey : CellNameToCoordinates (col ++ "1") = Except.ok (colIndex.val + 1, 1) := by
    have := CellNameToCoordinates_name col (colIndex + 1) 1 hcol hnumber (by rw [h1]; omega)
      (by rw [h1]; unfold TotalRows; omega)
    rw [hitoa, hval, h1] at this
    exact this
  have hwidth : SetColWidth col col 6 = Except.ok () := by
    simp only [SetColWidth, hnumber]
    rfl
  have hstyle : SetCellStyle (col ++ "1") (col ++ "1") = Except.ok () := by
    simp only [SetCellStyle, hkey]
  simp only [fillHeaderDates, hdate, Bool.false_eq_true, if_false, hcell, SetCellValue, hkey,
    TrimRight_name col hcol, hwidth, hstyle]

/-- The loop of `fillHeader` in row 1 over a range of `N` days, for which there
are columns left: it ends, and it has put the labels of the days into the next
`N` columns. -/
theorem fillHeaderDates_days (dateTo : Time) (N : Nat) :
    ∀ (fuel : Nat) (date : Time) (colIndex : GoInt64) (sheet : Sheet),
      (∀ k < N, (addDays date k).After dateTo = false) →
      (addDays date N).After dateTo = true →
      0 ≤ colIndex.val → colIndex.val + N ≤ 16384 → N < fuel →
      ∃ sheet' colIndex',
        fillHeaderDates dateTo 1 "1" fuel date colIndex sheet = Except.ok (sheet', colIndex') ∧
        colIndex'.val = colIndex.val + N ∧
        (sheet.values ≠ [] → sheet'.values ≠ []) ∧
        ∀ key : Int × Int, lookupCell sheet'.values key =
          if key.2 = 1 ∧ colIndex.val < key.1 ∧ key.1 ≤ colIndex.val + N then
            some (CellValue.text
              (formatColumnDate (addDays date (key.1 - colIndex.val - 1).toNat)))
          else lookupCell sheet.values key := by
  induction N with
  | zero =>
    intro fuel date colIndex sheet _ hlast _ _ hfuel
    obtain ⟨fuel, rfl⟩ : ∃ f, fuel = f + 1 := ⟨fuel - 1, by omega⟩
    have hdate : date.After dateTo = true := hlast
    refine ⟨sheet, colIndex, ?_, by simp, fun h => h, ?_⟩
    · simp only [fillHeaderDates, hdate, if_true]
    · intro key
      rw [if_neg]
      intro h
      omega
  | succ N ih =>
    intro fuel date colIndex sheet hdays hlast h₀ h₁ hfuel
    obtain ⟨fuel, rfl⟩ : ∃ f, fuel = f + 1 := ⟨fuel - 1, by omega⟩
    have hdate : date.After dateTo = false := hdays 0 (Nat.succ_pos N)
    obtain ⟨hval, hstep⟩ := fillHeaderDates_step dateTo date fuel colIndex sheet hdate h₀
      (by omega)
    obtain ⟨sheet', colIndex', hrun, hindex, hvalues, hcells⟩ :=
      ih fuel (nextDay date) (colIndex + 1)
        { sheet with
          values := ((colIndex.val + 1, 1), CellValue.text (formatColumnDate date)) ::
            sheet.values }
        (fun k hk => hdays (k + 1) (by omega)) hlast (by omega) (by omega) (by omega)
    refine ⟨sheet', colIndex', by rw [hstep, hrun], ?_,
      fun _ => hvalues (List.cons_ne_nil _ _), ?_⟩
    · rw [hindex, hval]
      push_cast
      omega
    intro key
    obtain ⟨column, row⟩ := key
    rw [hcells, hval]
    simp only [lookupCell]
    by_cases hlater : row = 1 ∧ colIndex.val + 1 < column ∧ column ≤ colIndex.val + 1 + N
    · have hday : (column - colIndex.val - 1).toNat =
          (column - (colIndex.val + 1) - 1).toNat + 1 := by
        omega
      have hcond : row = 1 ∧ colIndex.val < column ∧ column ≤ colIndex.val + ((N + 1 : Nat) : Int) := by
        push_cast
        omega
      rw [if_pos hlater, if_pos hcond, hday]
      rfl
    · rw [if_neg hlater]
      by_cases hfirst : (colIndex.val + 1, (1 : Int)) = (column, row)
      · have hcond : row = 1 ∧ colIndex.val < column ∧
            column ≤ colIndex.val + ((N + 1 : Nat) : Int) := by
          simp only [Prod.mk.injEq] at hfirst
          push_cast
          omega
        have hday : (column - colIndex.val - 1).toNat = 0 := by
          simp only [Prod.mk.injEq] at hfirst
          omega
        rw [if_pos hfirst, if_pos hcond, hday]
        rfl
      · have hcond : ¬ (row = 1 ∧ colIndex.val < column ∧
            column ≤ colIndex.val + ((N + 1 : Nat) : Int)) := by
          intro h
          push_cast at h
          apply hfirst
          simp only [Prod.mk.injEq]
          by_contra hne
          apply hlater
          omega
        rw [if_neg hfirst, if_neg hcond]

/-- The sheet after the first part of `fillHeader` on an empty sheet. -/
def fixedColumns : Sheet :=
  { values := [((6, 1), CellValue.text "Total cost"), ((5, 1), CellValue.text "Total hours"),
               ((4, 1), CellValue.text "Rate"), ((3, 1), CellValue.text "Position"),
               ((2, 1), CellValue.text "Manager"), ((1, 1), CellValue.text "Name")]
    formulas := [] }

theorem fillHeaderColumns_empty (report : Report) :
    fillHeaderColumns emptySheet (createContext report) (Itoa (createContext report).LastRowIndex)
      = Except.ok fixedColumns := by
  simp only [fillHeaderColumns, createContext]
  rfl


/-- The message of excelize for a column number that is no column of a sheet. -/
def columnNumberError : String :=
  "the column number must be greater than or equal to 1 and less than or equal to 16384"

/-- The loop of `fillHeader` in row 1 over more days than there are columns
left fails when it asks for the name of column 16385. -/
theorem fillHeaderDates_no_column (dateTo : Time) (m : Nat) :
    ∀ (fuel : Nat) (date : Time) (colIndex : GoInt64) (sheet : Sheet),
      0 ≤ colIndex.val → colIndex.val + m = 16384 →
      (∀ k ≤ m, (addDays date k).After dateTo = false) → m < fuel →
      fillHeaderDates dateTo 1 "1" fuel date colIndex sheet = Except.error columnNumberError := by
  induction m with
  | zero =>
    intro fuel date colIndex sheet _ hindex hdays hfuel
    obtain ⟨fuel, rfl⟩ : ∃ f, fuel = f + 1 := ⟨fuel - 1, by omega⟩
    have hdate : date.After dateTo = false := hdays 0 (Nat.le_refl 0)
    have h1 : (1 : GoInt64).val = 1 := rfl
    have hval : (colIndex + 1).val = 16385 := by
      rw [GoInt64.val_add, h1]
      rw [wrapInt64_of_fits _ (by omega) (by omega)]
      omega
    have hname : ColumnNumberToName (colIndex + 1) = Except.error columnNumberError := by
      unfold ColumnNumberToName MaxColumns
      rw [if_pos (Or.inr (by omega))]
      rfl
    have hcell : CoordinatesToCellName (colIndex + 1) 1 = Except.error columnNumberError := by
      unfold CoordinatesToCellName TotalRows
      rw [if_neg (by rw [h1]; omega), if_neg (by rw [h1]; omega), hname]
    simp only [fillHeaderDates, hdate, Bool.false_eq_true, if_false, hcell]
  | succ m ih =>
    intro fuel date colIndex sheet h₀ hindex hdays hfuel
    obtain ⟨fuel, rfl⟩ : ∃ f, fuel = f + 1 := ⟨fuel - 1, by omega⟩
    have hdate : date.After dateTo = false := hdays 0 (Nat.zero_le _)
    obtain ⟨hval, hstep⟩ := fillHeaderDates_step dateTo date fuel colIndex sheet hdate h₀
      (by push_cast at hindex; omega)
    rw [hstep]
    exact ih fuel (nextDay date) (colIndex + 1) _ (by omega) (by push_cast at hindex; omega)
      (fun k hk => hdays (k + 1) (by omega)) (by omega)

theorem nextDay_year (date : Time) : (nextDay date).Year ≤ date.Year + 1 := by
  unfold nextDay
  split
  · simp
  · split
    · simp
    · simp

theorem addDays_year (k : Nat) : ∀ date : Time, (addDays date k).Year ≤ date.Year + k := by
  induction k with
  | zero => intro date; simp [addDays]
  | succ k ih =>
    intro date
    have h₁ := ih (nextDay date)
    have h₂ := nextDay_year date
    simp only [addDays]
    push_cast
    omega

/-- The context that `fillHeader` leaves for a report rendered into an empty
sheet, when its loop over the days has left `sheet` and the column index
`colIndex`. -/
def headerContext (report : Report) (sheet : Sheet) (colIndex : GoInt64) : ExcelContext :=
  { createContext report with
    FirstDateColumnIndex := 6 + 1
    LastDateColumnIndex := colIndex
    ColsCount := GoInt64.ofInt (firstRowColumns sheet) }

/-- On an empty sheet with the context of `createContext`, `fillHeader` is its
loop over the days in row 1, from column 6 on, after the six fixed columns. -/
theorem fillHeader_empty (report : Report) (sheet : Sheet) (colIndex : GoInt64)
    (hrun : fillHeaderDates report.DateTo 1 "1" 16386 report.DateFrom 6 fixedColumns =
      Except.ok (sheet, colIndex))
    (hrows : ¬ (sheet.values = [] ∧ sheet.formulas = [])) :
    fillHeader emptySheet (createContext report) report =
      Except.ok (sheet, headerContext report sheet colIndex) := by
  have hcolumns := fillHeaderColumns_empty report
  have hrow : (createContext report).LastRowIndex = 1 := rfl
  have hitoa : Itoa 1 = "1" := rfl
  have hcols : getColsCountInRow fixedColumns 1 = Except.ok 6 := rfl
  rw [hrow, hitoa] at hcolumns
  rw [fillHeader]
  simp only [hrow, hitoa, hcolumns, hcols, hrun]
  simp only [getColsCountInRow, hrows, if_false]
  rfl

theorem fillHeader_empty_error (report : Report) (err : String)
    (hrun : fillHeaderDates report.DateTo 1 "1" 16386 report.DateFrom 6 fixedColumns =
      Except.error err) :
    fillHeader emptySheet (createContext report) report = Except.error err := by
  have hcolumns := fillHeaderColumns_empty report
  have hrow : (createContext report).LastRowIndex = 1 := rfl
  have hitoa : Itoa 1 = "1" := rfl
  have hcols : getColsCountInRow fixedColumns 1 = Except.ok 6 := rfl
  rw [hrow, hitoa] at hcolumns
  rw [fillHeader]
  simp only [hrow, hitoa, hcolumns, hcols, hrun]

/-! ## The range of days of a report (`services/input_args.go`) -/

/-- `InputArgsService.createDateRange`, on the month of `monthTime` and the
year of `yearTime`.  The candidate, `strconv.Itoa` of the year and the name of
the month, is parsed with the layout "2006-January", which takes a year of
four digits; `dateFrom` is the first day of the month, and
`dateFrom.AddDate(0, 1, -1)`, a month later and a day back, is its last day. -/
def createDateRange (monthTime yearTime : Time) : Except String (Time × Time) :=
  if yearTime.Year < 1000 ∨ 9999 < yearTime.Year ∨ monthTime.Month < 1 ∨ 12 < monthTime.Month then
    Except.error "parsing time: cannot parse the candidate as 2006-January"
  else
    let dateFrom : Time := { Year := yearTime.Year, Month := monthTime.Month, Day := 1 }
    let dateTo : Time := { dateFrom with Day := daysIn dateFrom.Month dateFrom.Year.natAbs }
    Except.ok (dateFrom, dateTo)

theorem addDays_succ (k : Nat) : ∀ date : Time, addDays date (k + 1) = nextDay (addDays date k) := by
  induction k with
  | zero => intro date; rfl
  | succ k ih =>
    intro date
    show addDays (nextDay date) (k + 1) = nextDay (addDays (nextDay date) k)
    exact ih (nextDay date)

/-- Within a month, the day `k` days after a day of the month. -/
theorem addDays_same_month (year : Int) (month : Nat) (k : Nat) :
    ∀ day : Nat, day + k ≤ daysIn month year.natAbs →
      addDays { Year := year, Month := month, Day := day } k =
        { Year := year, Month := month, Day := day + k } := by
  induction k with
  | zero => intro day _; rfl
  | succ k ih =>
    intro day h
    have hstep : nextDay { Year := year, Month := month, Day := day } =
        { Year := year, Month := month, Day := day + 1 } := by
      unfold nextDay
      rw [if_pos (by simp only []; omega)]
    show addDays (nextDay { Year := year, Month := month, Day := day }) k = _
    rw [hstep, ih (day + 1) (by omega)]
    congr 1
    omega

theorem daysIn_bounds (month year : Nat) : 28 ≤ daysIn month year ∧ daysIn month year ≤ 31 := by
  unfold daysIn
  split_ifs <;> omega

/-- The range of days that `createDateRange` returns is a calendar month: its
days are the `daysIn` days from `dateFrom` on, at most 31. -/
theorem createDateRange_days (monthTime yearTime dateFrom dateTo : Time)
    (h : createDateRange monthTime yearTime = Except.ok (dateFrom, dateTo)) :
    (∀ k < daysIn monthTime.Month yearTime.Year.natAbs,
      (addDays dateFrom k).After dateTo = false) ∧
    (addDays dateFrom (daysIn monthTime.Month yearTime.Year.natAbs)).After dateTo = true ∧
    daysIn monthTime.Month yearTime.Year.natAbs ≤ 31 := by
  unfold createDateRange at h
  split at h
  · cases h
  · simp only [Except.ok.injEq, Prod.mk.injEq] at h
    obtain ⟨hfrom, hto⟩ := h
    subst hfrom hto
    obtain ⟨hmin, hmax⟩ := daysIn_bounds monthTime.Month yearTime.Year.natAbs
    refine ⟨?_, ?_, hmax⟩
    · intro k hk
      rw [addDays_same_month _ _ k 1 (by omega)]
      unfold Time.After
      apply decide_eq_false
      simp only []
      omega
    · obtain ⟨d, hd⟩ : ∃ d, daysIn monthTime.Month yearTime.Year.natAbs = d + 1 :=
        ⟨daysIn monthTime.Month yearTime.Year.natAbs - 1, by omega⟩
      rw [hd, addDays_succ, addDays_same_month _ _ d 1 (by omega)]
      unfold nextDay
      simp only []
      rw [if_neg (by omega)]
      split
      · unfold Time.After
        apply decide_eq_true
        right
        exact ⟨rfl, Or.inl (Nat.lt_succ_self _)⟩
      · unfold Time.After
        apply decide_eq_true
        left
        exact Int.lt_succ _

/-- The number of days of a range is fixed by its first day that is after `dateTo`. -/
theorem days_unique (dateFrom dateTo : Time) (N M : Nat)
    (hdays : ∀ k < N, (addDays dateFrom k).After dateTo = false)
    (hlast : (addDays dateFrom N).After dateTo = true)
    (hdays' : ∀ k < M, (addDays dateFrom k).After dateTo = false)
    (hlast' : (addDays dateFrom M).After dateTo = true) : N = M := by
  rcases Nat.lt_trichotomy N M with h | h | h
  · rw [hdays' N h] at hlast
    cases hlast
  · exact h
  · rw [hdays M h] at hlast'
    cases hlast'

/-- C21. For every report rendered into a fresh sheet (the empty sheet, with
the context of `createContext`), where N is the number of days of the range
from dateFrom to dateTo (dateFrom + k days is not after dateTo for k < N, and
dateFrom + N days is): `fillHeader` returns, it leaves the six fixed columns
in the columns 1 to 6 of row 1 and after them one column per day of the range
in ascending order, the k-th of them (k = 1..N) at column index 6 + k and
labelled with the zero-padded MM/DD of dateFrom + (k - 1) days, and no value
further right in row 1; and it records FirstDateColumnIndex = 7 and
LastDateColumnIndex = 6 + N in the context.  This holds for every range that
`createDateRange` builds, the ranges of the reports of the program, and for
every other range of at most 16378 days, the columns that a sheet has after
the six fixed ones. -/
theorem fillHeader_date_columns (report : Report) (N : Nat)
    (hdays : ∀ k < N, (addDays report.DateFrom k).After report.DateTo = false)
    (hlast : (addDays report.DateFrom N).After report.DateTo = true)
    (hrange :
      (∃ monthTime yearTime,
        createDateRange monthTime yearTime = Except.ok (report.DateFrom, report.DateTo)) ∨
      N ≤ 16378) :
    ∃ sheet context,
      fillHeader emptySheet (createContext report) report = Except.ok (sheet, context) ∧
      context.FirstDateColumnIndex = 7 ∧
      context.LastDateColumnIndex.val = 6 + N ∧
      (∀ k : Nat, 1 ≤ k → k ≤ N →
        lookupCell sheet.values (6 + (k : Int), 1) =
          some (CellValue.text (formatColumnDate (addDays report.DateFrom (k - 1))))) ∧
      [(1 : Int), 2, 3, 4, 5, 6].map (fun column => lookupCell sheet.values (column, 1)) =
        [some (CellValue.text "Name"), some (CellValue.text "Manager"),
         some (CellValue.text "Position"), some (CellValue.text "Rate"),
         some (CellValue.text "Total hours"), some (CellValue.text "Total cost")] ∧
      ∀ column : Int, 6 + (N : Int) < column → lookupCell sheet.values (column, 1) = none := by
  have hcolumns : N ≤ 16378 := by
    rcases hrange with ⟨monthTime, yearTime, hcreate⟩ | hcolumns
    · obtain ⟨hdays', hlast', hmax⟩ := createDateRange_days _ _ _ _ hcreate
      rw [days_unique _ _ N _ hdays hlast hdays' hlast']
      omega
    · exact hcolumns
  have h6 : (6 : GoInt64).val = 6 := rfl
  obtain ⟨sheet, colIndex, hrun, hindex, hvalues, hcells⟩ :=
    fillHeaderDates_days report.DateTo N 16386 report.DateFrom 6 fixedColumns hdays hlast
      (by rw [h6]; omega) (by rw [h6]; omega) (by omega)
  have hrows : ¬ (sheet.values = [] ∧ sheet.formulas = []) :=
    fun h => hvalues (by decide) h.1
  refine ⟨sheet, headerContext report sheet colIndex,
    fillHeader_empty report sheet colIndex hrun hrows, rfl, ?_, ?_, ?_, ?_⟩
  · show colIndex.val = 6 + N
    rw [hindex, h6]
  · intro k hk₁ hk₂
    rw [hcells, h6, if_pos ⟨rfl, by omega, by omega⟩]
    have hday : (6 + (k : Int) - 6 - 1).toNat = k - 1 := by omega
    rw [hday]
  · simp only [List.map_cons, List.map_nil, hcells, h6]
    rfl
  · intro column hcolumn
    rw [hcells, h6, if_neg (by omega)]
    have hfixed : ∀ c : Int, 6 < c → lookupCell fixedColumns.values (c, 1) = none := by
      intro c hc
      have e1 : ¬ ((6 : Int), (1 : Int)) = (c, 1) := by simp only [Prod.mk.injEq]; omega
      have e2 : ¬ ((5 : Int), (1 : Int)) = (c, 1) := by simp only [Prod.mk.injEq]; omega
      have e3 : ¬ ((4 : Int), (1 : Int)) = (c, 1) := by simp only [Prod.mk.injEq]; omega
      have e4 : ¬ ((3 : Int), (1 : Int)) = (c, 1) := by simp only [Prod.mk.injEq]; omega
      have e5 : ¬ ((2 : Int), (1 : Int)) = (c, 1) := by simp only [Prod.mk.injEq]; omega
      have e6 : ¬ ((1 : Int), (1 : Int)) = (c, 1) := by simp only [Prod.mk.injEq]; omega
      simp only [fixedColumns, lookupCell, e1, e2, e3, e4, e5, e6, if_false]
    exact hfixed column (by omega)

theorem fillHeader_date_columns_witness :
    createDateRange march1 march1 = Except.ok (sampleReport.DateFrom, sampleReport.DateTo) ∧
    ∃ sheet context,
      fillHeader emptySheet (createContext sampleReport) sampleReport =
        Except.ok (sheet, context) ∧
      context.FirstDateColumnIndex = 7 ∧ context.LastDateColumnIndex.val = 37 ∧
      lookupCell sheet.values (7, 1) = some (CellValue.text "03/01") ∧
      lookupCell sheet.values (37, 1) = some (CellValue.text "03/31") ∧
      lookupCell sheet.values (38, 1) = none := by
  have hcreate : createDateRange march1 march1 =
      Except.ok (sampleReport.DateFrom, sampleReport.DateTo) := by decide
  obtain ⟨sheet, context, hrun, hfirst, hlast, hcells, _, hnone⟩ :=
    fillHeader_date_columns sampleReport 31 (by decide) (by decide)
      (Or.inl ⟨march1, march1, hcreate⟩)
  exact ⟨hcreate, sheet, context, hrun, hfirst, hlast, hcells 1 (by decide) (by decide),
    hcells 31 (by decide) (by decide), hnone 38 (by decide)⟩

/-- A report over a range of more days than a sheet has columns. -/
def centuriesReport : Report :=
  { DateFrom := { Year := 2024, Month := 3, Day := 1 }
    DateTo := { Year := 20000, Month := 1, Day := 1 }
    Projects := [] }

/-- A sheet has 16384 columns: for a range that `createDateRange` does not
build, from 2024-03-01 to the year 20000, `fillHeader` fails when the loop
over the days asks for column 16385. -/
theorem fillHeader_column_limit :
    fillHeader emptySheet (createContext centuriesReport) centuriesReport =
      Except.error columnNumberError := by
  have h6 : (6 : GoInt64).val = 6 := rfl
  have hfrom : centuriesReport.DateFrom.Year = 2024 := rfl
  have hto : centuriesReport.DateTo = { Year := 20000, Month := 1, Day := 1 } := rfl
  refine fillHeader_empty_error centuriesReport columnNumberError
    (fillHeaderDates_no_column centuriesReport.DateTo 16378 16386
      centuriesReport.DateFrom 6 fixedColumns (by rw [h6]; omega) (by rw [h6]; rfl)
      (fun k hk => ?_) (by omega))
  have hyear := addDays_year k centuriesReport.DateFrom
  rw [hto]
  unfold Time.After
  apply decide_eq_false
  simp only []
  omega

/-! ## The hours of a number of seconds (`float64`, `math.Round`)

A finite `float64` is taken as the rational number that it is; the negative
zero is not told apart from zero.  A `float64` operation returns the exact
result of the operation, rounded to the nearest `float64` (IEEE 754 binary64:
53 significant bits, binary exponents from -1022 to 1023, ties to the even
significand). -/

/-- The integer nearest to `x`, the even one of the two when `x` lies halfway
between two integers. -/
def roundHalfEven (x : ℚ) : Int :=
  if x - ⌊x⌋ < 1 / 2 then ⌊x⌋
  else if 1 / 2 < x - ⌊x⌋ then ⌊x⌋ + 1
  else if ⌊x⌋ % 2 = 0 then ⌊x⌋ else ⌊x⌋ + 1

/-- The `float64` that a `float64` operation returns when its exact result is
`x`: the multiple of the unit in the last place of `x` that is nearest to `x`,
where the unit is 2 ^ (e - 52) for the binary exponent `e` of `x`, and
2 ^ (-1074) below the normal numbers; `none` when that is beyond the finite
`float64` numbers (the operation returns an infinity). -/
def Float64.round (x : ℚ) : Option ℚ :=
  let exponent := max (Int.log 2 |x|) (-1022)
  let ulp : ℚ := 2 ^ (exponent - 52)
  let value := roundHalfEven (x / ulp) * ulp
  if |value| < 2 ^ (1024 : Int) then some value else none

/-- The nearest integer, halves rounded away from zero: Go `math.Round` of a
finite `float64`. -/
def Round (x : ℚ) : ℚ := if 0 ≤ x then ⌊x + 1 / 2⌋ else -⌊-x + 1 / 2⌋

/-- The `float64` that `ExcelService.convertSecondsToHours` returns, for which
`CellValue.hours seconds` stands: `float64(seconds)`, the division by 3600,
the product with 100, `math.Round`, and the division by 100, each `float64`
operation rounded on its own (there is no sum that a product could be fused
with); `none` would be an infinity. -/
def convertSecondsToHoursFloat64 (seconds : GoInt64) : Option ℚ :=
  match Float64.round seconds.val with
  | none => none
  | some converted =>
    match Float64.round (converted / 3600) with
    | none => none
    | some value =>
      match Float64.round (value * 100) with
      | none => none
      | some scaled => Float64.round (Round scaled / 100)

/-! ### The hours of a number of seconds: claims -/

theorem roundHalfEven_sub_le (x : ℚ) : |(roundHalfEven x : ℚ) - x| ≤ 1 / 2 := by
  have h₁ := Int.floor_le x
  have h₂ := Int.lt_floor_add_one x
  unfold roundHalfEven
  split_ifs with ha hb hc
  all_goals (rw [abs_le]; constructor <;> push_cast <;> linarith)

theorem roundHalfEven_eq (x : ℚ) (n : Int) (h : |x - n| < 1 / 2) : roundHalfEven x = n := by
  rw [abs_lt] at h
  obtain ⟨h₁, h₂⟩ := h
  unfold roundHalfEven
  by_cases hx : (n : ℚ) ≤ x
  · have hf : ⌊x⌋ = n := Int.floor_eq_iff.mpr ⟨hx, by linarith⟩
    rw [hf, if_pos (by linarith)]
  · have hf : ⌊x⌋ = n - 1 :=
      Int.floor_eq_iff.mpr ⟨by push_cast; linarith, by push_cast; linarith⟩
    rw [hf, if_neg (by push_cast; linarith), if_pos (by push_cast; linarith)]
    ring

theorem roundHalfEven_intCast (n : Int) : roundHalfEven (n : ℚ) = n :=
  roundHalfEven_eq _ n (by simp)

theorem Float64.round_of_log (x : ℚ) (e : Int) (he : -1022 ≤ e) (hlog : Int.log 2 |x| = e) :
    Float64.round x =
      if |(roundHalfEven (x / 2 ^ (e - 52)) : ℚ) * 2 ^ (e - 52)| < 2 ^ (1024 : Int) then
        some ((roundHalfEven (x / 2 ^ (e - 52)) : ℚ) * 2 ^ (e - 52))
      else none := by
  unfold Float64.round
  simp only [hlog, max_eq_left he]

theorem zpow_two_sub (e : Int) : (2 : ℚ) ^ (e - 52) = 2 ^ e / 4503599627370496 := by
  rw [zpow_sub₀ (two_ne_zero)]
  norm_num

theorem Float64.round_error (x : ℚ) (h₁ : (2 : ℚ) ^ (-1022 : Int) ≤ |x|)
    (h₂ : |x| < 2 ^ (1023 : Int)) :
    ∃ y, Float64.round x = some y ∧ |y - x| ≤ |x| / 9007199254740992 := by
  have hpos : 0 < |x| := lt_of_lt_of_le (by positivity) h₁
  have hb : (1 : ℕ) < 2 := by decide
  have hlo : (-1022 : Int) ≤ Int.log 2 |x| :=
    (Int.zpow_le_iff_le_log hb hpos).mp (by simpa using h₁)
  have hle : (2 : ℚ) ^ Int.log 2 |x| ≤ |x| := by simpa using Int.zpow_log_le_self hb hpos
  generalize hlog : Int.log 2 |x| = e at hlo hle
  rw [Float64.round_of_log x e hlo hlog, zpow_two_sub]
  have hpow : (0 : ℚ) < 2 ^ e := by positivity
  generalize (2 : ℚ) ^ e = p at hle hpow
  have herr := roundHalfEven_sub_le (x / (p / 4503599627370496))
  generalize (roundHalfEven (x / (p / 4503599627370496)) : ℚ) = n at herr
  have hval : |n * (p / 4503599627370496) - x| ≤ |x| / 9007199254740992 := by
    have heq : n * (p / 4503599627370496) - x =
        (n - x / (p / 4503599627370496)) * (p / 4503599627370496) := by
      field_simp
      ring
    rw [heq, abs_mul, abs_of_pos (by positivity : (0 : ℚ) < p / 4503599627370496)]
    have hp : (0 : ℚ) ≤ p / 4503599627370496 := by positivity
    calc |n - x / (p / 4503599627370496)| * (p / 4503599627370496)
        ≤ 1 / 2 * (p / 4503599627370496) := mul_le_mul_of_nonneg_right herr hp
      _ ≤ |x| / 9007199254740992 := by linarith
  have hfin : |n * (p / 4503599627370496)| < 2 ^ (1024 : Int) := by
    have h₃ : |n * (p / 4503599627370496)| ≤ |x| + |x| / 9007199254740992 := by
      have := abs_sub_abs_le_abs_sub (n * (p / 4503599627370496)) x
      linarith
    have h₄ : (2 : ℚ) ^ (1024 : Int) = 2 * 2 ^ (1023 : Int) := by
      rw [show (1024 : Int) = 1 + 1023 from rfl, zpow_add₀ two_ne_zero]
      norm_num
    rw [h₄]
    linarith
  exact ⟨_, if_pos hfin, hval⟩

theorem Float64.round_intCast (n : Int) (h : |n| < 9007199254740992) :
    Float64.round (n : ℚ) = some (n : ℚ) := by
  by_cases hn : n = 0
  · subst hn
    have hlog : Int.log 2 |((0 : Int) : ℚ)| = 0 := Int.log_of_right_le_zero 2 (by simp)
    have hzero : roundHalfEven (((0 : Int) : ℚ) / 2 ^ ((0 : Int) - 52)) = 0 := by
      rw [Int.cast_zero, zero_div]
      exact roundHalfEven_intCast 0
    rw [Float64.round_of_log _ 0 (by decide) hlog, hzero]
    simp only [Int.cast_zero, zero_mul, abs_zero]
    rw [if_pos (by positivity)]
  · have hb : (1 : ℕ) < 2 := by decide
    have hpos : (0 : ℚ) < |(n : ℚ)| := abs_pos.mpr (Int.cast_ne_zero.mpr hn)
    have hone : (1 : ℚ) ≤ |(n : ℚ)| := by
      rw [← Int.cast_abs]
      exact_mod_cast Int.one_le_abs hn
    have hlt : |(n : ℚ)| < 9007199254740992 := by
      rw [← Int.cast_abs]
      exact_mod_cast h
    have hlo : (0 : Int) ≤ Int.log 2 |(n : ℚ)| :=
      (Int.zpow_le_iff_le_log hb hpos).mp (by simpa using hone)
    have hhi : Int.log 2 |(n : ℚ)| < 53 :=
      (Int.lt_zpow_iff_log_lt hb hpos).mp (by norm_num; exact hlt)
    generalize hlog : Int.log 2 |(n : ℚ)| = e at hlo hhi
    obtain ⟨k, hk⟩ : ∃ k : ℕ, e - 52 = -(k : Int) := ⟨(52 - e).toNat, by omega⟩
    rw [Float64.round_of_log _ e (by omega) hlog, hk, zpow_neg, zpow_natCast]
    have hscaled : (n : ℚ) / ((2 : ℚ) ^ k)⁻¹ = ((n * 2 ^ k : Int) : ℚ) := by
      push_cast
      field_simp
    have hpow : (0 : ℚ) < 2 ^ k := by positivity
    rw [hscaled, roundHalfEven_intCast]
    have hvalue : ((n * 2 ^ k : Int) : ℚ) * ((2 : ℚ) ^ k)⁻¹ = n := by
      push_cast
      field_simp
    rw [hvalue, if_pos]
    calc |(n : ℚ)| < 9007199254740992 := hlt
      _ ≤ 2 ^ (1024 : Int) := by norm_num

/-- Go `math.Round` of a number of 36ths that is not negative. -/
theorem Round_div_36 (s : Int) (h : 0 ≤ s) : Round ((s : ℚ) / 36) = (((s + 18) / 36 : Int) : ℚ) := by
  unfold Round
  rw [if_pos (by positivity)]
  congr 1
  rw [Int.floor_eq_iff]
  have h₁ : 36 * ((s + 18) / 36) ≤ s + 18 := Int.mul_ediv_self_le (by decide)
  have h₂ : s + 18 < 36 * ((s + 18) / 36) + 36 := Int.lt_mul_ediv_self_add (by decide)
  have h₁' : (36 : ℚ) * (((s + 18) / 36 : Int) : ℚ) ≤ s + 18 := by exact_mod_cast h₁
  have h₂' : (s : ℚ) + 18 < 36 * (((s + 18) / 36 : Int) : ℚ) + 36 := by exact_mod_cast h₂
  constructor <;> linarith

/-- The two `float64` operations `float64(seconds) / 3600` and `value * 100`
lose less than one 36th of what they compute, the number of 36ths of an hour. -/
theorem scaled_near (s : Int) (h₀ : 1 ≤ s) (h₁ : s < 4503599627370496) :
    ∃ value scaled, Float64.round ((s : ℚ) / 3600) = some value ∧
      Float64.round (value * 100) = some scaled ∧
      |scaled - (s : ℚ) / 36| < 1 / 36 ∧ 0 ≤ scaled := by
  have hs₀ : (1 : ℚ) ≤ s := by exact_mod_cast h₀
  have hs₁ : (s : ℚ) ≤ 4503599627370495 := by exact_mod_cast Int.le_of_lt_add_one (by omega : s < 4503599627370495 + 1)
  have hlow : (2 : ℚ) ^ (-1022 : Int) ≤ 1 / 262144 := by
    rw [show (1 : ℚ) / 262144 = 2 ^ (-18 : Int) by norm_num]
    exact zpow_le_zpow_right₀ (by norm_num) (by decide)
  have hhigh : (2 : ℚ) ^ (60 : Int) ≤ 2 ^ (1023 : Int) :=
    zpow_le_zpow_right₀ (by norm_num) (by decide)
  have hhigh' : (2 : ℚ) ^ (60 : Int) = 1152921504606846976 := by norm_num
  rw [hhigh'] at hhigh
  have hx : (0 : ℚ) < (s : ℚ) / 3600 := by positivity
  obtain ⟨value, hvalue, herr⟩ := Float64.round_error ((s : ℚ) / 3600)
    (by rw [abs_of_pos hx]; exact le_trans hlow (by linarith))
    (by rw [abs_of_pos hx]; exact lt_of_lt_of_le (by linarith) hhigh)
  rw [abs_of_pos hx, abs_le] at herr
  obtain ⟨herr₁, herr₂⟩ := herr
  have hy : (0 : ℚ) < value * 100 := by linarith
  obtain ⟨scaled, hscaled, herr'⟩ := Float64.round_error (value * 100)
    (by rw [abs_of_pos hy]; exact le_trans hlow (by linarith))
    (by rw [abs_of_pos hy]; exact lt_of_lt_of_le (by linarith) hhigh)
  rw [abs_of_pos hy, abs_le] at herr'
  obtain ⟨herr₃, herr₄⟩ := herr'
  refine ⟨value, scaled, hvalue, hscaled, ?_, by linarith⟩
  rw [abs_lt]
  constructor <;> linarith

/-- For a number of seconds from 0 to below 2 ^ 52, `convertSecondsToHours`
returns the `float64` of a hundredth of `math.Round(scaled)`, where `scaled`
is less than one 36th away from the number of 36ths of an hour. -/
theorem convertSecondsToHoursFloat64_eq (seconds : GoInt64) (h₀ : 0 ≤ seconds.val)
    (h₁ : seconds.val < 4503599627370496) :
    ∃ scaled, convertSecondsToHoursFloat64 seconds = Float64.round (Round scaled / 100) ∧
      |scaled - (seconds.val : ℚ) / 36| < 1 / 36 ∧ 0 ≤ scaled := by
  have hconverted : Float64.round (seconds.val : ℚ) = some (seconds.val : ℚ) :=
    Float64.round_intCast _ (by rw [abs_of_nonneg h₀]; omega)
  by_cases hzero : seconds.val = 0
  · refine ⟨0, ?_, by rw [hzero]; norm_num, le_refl _⟩
    have hround : Float64.round (0 : ℚ) = some 0 := by
      have := Float64.round_intCast 0 (by decide)
      simpa using this
    unfold convertSecondsToHoursFloat64
    rw [hconverted, hzero]
    simp only [Int.cast_zero, zero_div, hround, zero_mul]
  · obtain ⟨value, scaled, hvalue, hscaled, hnear, hpos⟩ :=
      scaled_near seconds.val (by omega) h₁
    refine ⟨scaled, ?_, hnear, hpos⟩
    unfold convertSecondsToHoursFloat64
    rw [hconverted]
    simp only [hvalue, hscaled]

/-- The `float64` of `x`, from the binary exponent `e` of `x` and an integer
`n` less than a half away from `x / 2 ^ (e - 52)`. -/
theorem Float64.round_eq (x : ℚ) (e n : Int) (he : -1022 ≤ e) (h₁ : (2 : ℚ) ^ e ≤ |x|)
    (h₂ : |x| < 2 ^ (e + 1)) (hn : |x / 2 ^ (e - 52) - n| < 1 / 2)
    (hfin : |(n : ℚ) * 2 ^ (e - 52)| < 2 ^ (1024 : Int)) :
    Float64.round x = some ((n : ℚ) * 2 ^ (e - 52)) := by
  have hb : (1 : ℕ) < 2 := by decide
  have hpos : 0 < |x| := lt_of_lt_of_le (by positivity) h₁
  have hlog : Int.log 2 |x| = e := by
    apply le_antisymm
    · exact Int.lt_add_one_iff.mp ((Int.lt_zpow_iff_log_lt hb hpos).mp (by simpa using h₂))
    · exact (Int.zpow_le_iff_le_log hb hpos).mp (by simpa using h₁)
  rw [Float64.round_of_log x e he hlog, roundHalfEven_eq _ n hn, if_pos hfin]

/-- The `float64` of a number of hundredths from 0 to 2 ^ 52 is finite. -/
theorem Float64.round_hundredths (r : Int) (h₀ : 0 ≤ r) (h₁ : r ≤ 4503599627370496) :
    ∃ hours, Float64.round ((r : ℚ) / 100) = some hours := by
  by_cases hr : r = 0
  · subst hr
    refine ⟨0, ?_⟩
    have := Float64.round_intCast 0 (by decide)
    simpa using this
  · have hr₀ : (1 : ℚ) ≤ r := by exact_mod_cast (by omega : 1 ≤ r)
    have hr₁ : (r : ℚ) ≤ 4503599627370496 := by exact_mod_cast h₁
    have hlow : (2 : ℚ) ^ (-1022 : Int) ≤ 1 / 262144 := by
      rw [show (1 : ℚ) / 262144 = 2 ^ (-18 : Int) by norm_num]
      exact zpow_le_zpow_right₀ (by norm_num) (by decide)
    have hhigh : (2 : ℚ) ^ (60 : Int) ≤ 2 ^ (1023 : Int) :=
      zpow_le_zpow_right₀ (by norm_num) (by decide)
    have hhigh' : (2 : ℚ) ^ (60 : Int) = 1152921504606846976 := by norm_num
    rw [hhigh'] at hhigh
    have hx : (0 : ℚ) < (r : ℚ) / 100 := by positivity
    obtain ⟨hours, hhours, _⟩ := Float64.round_error ((r : ℚ) / 100)
      (by rw [abs_of_pos hx]; exact le_trans hlow (by linarith))
      (by rw [abs_of_pos hx]; exact lt_of_lt_of_le (by linarith) hhigh)
    exact ⟨hours, hhours⟩

/-- For a number of seconds from 0 to below 2 ^ 52, `convertSecondsToHours`
returns a finite `float64`. -/
theorem convertSecondsToHours_finite (seconds : GoInt64) (h₀ : 0 ≤ seconds.val)
    (h₁ : seconds.val < 4503599627370496) :
    ∃ hours, convertSecondsToHoursFloat64 seconds = some hours := by
  obtain ⟨scaled, hconvert, hnear, hpos⟩ := convertSecondsToHoursFloat64_eq seconds h₀ h₁
  rw [hconvert]
  rw [abs_lt] at hnear
  obtain ⟨hnear₁, hnear₂⟩ := hnear
  have hround : Round scaled = ((⌊scaled + 1 / 2⌋ : Int) : ℚ) := by
    unfold Round
    rw [if_pos hpos]
  have hs : (seconds.val : ℚ) ≤ 4503599627370495 := by
    exact_mod_cast (by omega : seconds.val ≤ 4503599627370495)
  have hfloor₀ : 0 ≤ ⌊scaled + 1 / 2⌋ := Int.floor_nonneg.mpr (by linarith)
  have hfloor₁ : ⌊scaled + 1 / 2⌋ ≤ 4503599627370496 := by
    have h := Int.floor_le (scaled + 1 / 2)
    have h' : ((⌊scaled + 1 / 2⌋ : Int) : ℚ) ≤ ((4503599627370496 : Int) : ℚ) := by
      push_cast
      linarith
    exact_mod_cast h'
  rw [hround]
  exact Float64.round_hundredths _ hfloor₀ hfloor₁

/-- C12 (amended). For every number of seconds from 0 to below 2 ^ 52,
`convertSecondsToHours` returns a finite `float64`: when the seconds are not
halfway between two hundredths of an hour (the remainder of seconds by 36 is
not 18), the `float64` of round(seconds / 36) / 100 with halves rounded away
from zero, which is seconds / 3600 rounded to two decimals; when they are
halfway, that `float64` or the `float64` of one hundredth less. -/
theorem convertSecondsToHours_rounds (seconds : GoInt64) (h₀ : 0 ≤ seconds.val)
    (h₁ : seconds.val < 4503599627370496) :
    (∃ hours, convertSecondsToHoursFloat64 seconds = some hours) ∧
    (seconds.val % 36 ≠ 18 →
      convertSecondsToHoursFloat64 seconds =
        Float64.round (Round ((seconds.val : ℚ) / 36) / 100)) ∧
    (seconds.val % 36 = 18 →
      convertSecondsToHoursFloat64 seconds =
          Float64.round (Round ((seconds.val : ℚ) / 36) / 100) ∨
        convertSecondsToHoursFloat64 seconds =
          Float64.round ((Round ((seconds.val : ℚ) / 36) - 1) / 100)) := by
  refine ⟨convertSecondsToHours_finite seconds h₀ h₁, ?_⟩
  obtain ⟨scaled, hconvert, hnear, hpos⟩ := convertSecondsToHoursFloat64_eq seconds h₀ h₁
  rw [hconvert, Round_div_36 _ h₀]
  rw [abs_lt] at hnear
  obtain ⟨hnear₁, hnear₂⟩ := hnear
  have hq₁ : 36 * ((seconds.val + 18) / 36) ≤ seconds.val + 18 :=
    Int.mul_ediv_self_le (by decide)
  have hq₂ : seconds.val + 18 < 36 * ((seconds.val + 18) / 36) + 36 :=
    Int.lt_mul_ediv_self_add (by decide)
  generalize (seconds.val + 18) / 36 = k at hq₁ hq₂
  have hround : Round scaled = ((⌊scaled + 1 / 2⌋ : Int) : ℚ) := by
    unfold Round
    rw [if_pos hpos]
  rw [hround]
  constructor
  · intro htie
    have hk₁ : 36 * k + 1 ≤ seconds.val + 18 := by omega
    have hk₂ : seconds.val + 18 ≤ 36 * k + 35 := by omega
    have hk₁' : (36 : ℚ) * k + 1 ≤ seconds.val + 18 := by exact_mod_cast hk₁
    have hk₂' : (seconds.val : ℚ) + 18 ≤ 36 * k + 35 := by exact_mod_cast hk₂
    have hfloor : ⌊scaled + 1 / 2⌋ = k :=
      Int.floor_eq_iff.mpr ⟨by linarith, by linarith⟩
    rw [hfloor]
  · intro htie
    have hk : seconds.val + 18 = 36 * k := by omega
    have hk' : (seconds.val : ℚ) + 18 = 36 * k := by exact_mod_cast hk
    by_cases hup : (k : ℚ) ≤ scaled + 1 / 2
    · left
      have hfloor : ⌊scaled + 1 / 2⌋ = k :=
        Int.floor_eq_iff.mpr ⟨hup, by linarith⟩
      rw [hfloor]
    · right
      have hfloor : ⌊scaled + 1 / 2⌋ = k - 1 :=
        Int.floor_eq_iff.mpr ⟨by push_cast; linarith, by push_cast; linarith⟩
      rw [hfloor]
      push_cast
      rfl

/-- The `float64` of a positive `x`, from the binary exponent `e` of `x` and an
integer `n` less than a half away from `x / 2 ^ (e - 52)`. -/
theorem Float64.round_eq_of_pos (x : ℚ) (e n : Int) (value : ℚ) (hx : 0 < x) (he : -1022 ≤ e)
    (h₁ : (2 : ℚ) ^ e ≤ x) (h₂ : x < 2 ^ (e + 1)) (hn₁ : (n : ℚ) - 1 / 2 < x / 2 ^ (e - 52))
    (hn₂ : x / 2 ^ (e - 52) < n + 1 / 2) (hvalue : (n : ℚ) * 2 ^ (e - 52) = value)
    (hfin : value < 2 ^ (1024 : Int)) (hpos : 0 ≤ value) :
    Float64.round x = some value := by
  rw [← hvalue]
  refine Float64.round_eq x e n he (by rw [abs_of_pos hx]; exact h₁)
    (by rw [abs_of_pos hx]; exact h₂) (by rw [abs_lt]; constructor <;> linarith) ?_
  rw [hvalue, abs_of_nonneg hpos]
  exact hfin

/-- 18 seconds are half a hundredth of an hour, and here the product with 100
is the `float64` 0.5, which `math.Round` takes to 1. -/
theorem convertSecondsToHoursFloat64_18 :
    convertSecondsToHoursFloat64 18 = Float64.round (1 / 100) := by
  have hval : ((18 : GoInt64).val : ℚ) = ((18 : Int) : ℚ) := rfl
  have hconverted : Float64.round (((18 : Int) : ℚ)) = some (((18 : Int) : ℚ)) :=
    Float64.round_intCast 18 (by decide)
  have hvalue : Float64.round ((((18 : Int) : ℚ)) / 3600) =
      some (5764607523034235 / 1152921504606846976) :=
    Float64.round_eq_of_pos _ (-8) 5764607523034235 _ (by norm_num) (by decide) (by norm_num)
      (by norm_num) (by norm_num) (by norm_num) (by norm_num) (by norm_num) (by norm_num)
  have hscaled : Float64.round ((5764607523034235 / 1152921504606846976 : ℚ) * 100) =
      some (1 / 2) :=
    Float64.round_eq_of_pos _ (-1) 4503599627370496 _ (by norm_num) (by decide) (by norm_num)
      (by norm_num) (by norm_num) (by norm_num) (by norm_num) (by norm_num) (by norm_num)
  have hround : Round (1 / 2 : ℚ) = 1 := by
    unfold Round
    rw [if_pos (by norm_num)]
    have hfloor : ⌊(1 / 2 : ℚ) + 1 / 2⌋ = 1 :=
      Int.floor_eq_iff.mpr ⟨by norm_num, by norm_num⟩
    rw [hfloor]
    norm_num
  unfold convertSecondsToHoursFloat64
  rw [hval, hconverted]
  simp only [hvalue, hscaled, hround]

theorem convertSecondsToHours_rounds_witness :
    convertSecondsToHoursFloat64 5400 = some (3 / 2) ∧
    convertSecondsToHoursFloat64 3661 = Float64.round (102 / 100) ∧
    convertSecondsToHoursFloat64 7200 = some 2 ∧
    convertSecondsToHoursFloat64 18 = Float64.round (1 / 100) := by
  have h5400 : ((5400 : GoInt64).val : ℚ) = 5400 := by
    norm_num [show (5400 : GoInt64).val = 5400 from rfl]
  have h3661 : ((3661 : GoInt64).val : ℚ) = 3661 := by
    norm_num [show (3661 : GoInt64).val = 3661 from rfl]
  have h7200 : ((7200 : GoInt64).val : ℚ) = 7200 := by
    norm_num [show (7200 : GoInt64).val = 7200 from rfl]
  have r5400 : Round ((5400 : ℚ) / 36) = 150 := by
    have := Round_div_36 5400 (by decide)
    norm_num at this ⊢
    exact this
  have r3661 : Round ((3661 : ℚ) / 36) = 102 := by
    have := Round_div_36 3661 (by decide)
    norm_num at this ⊢
    exact this
  have r7200 : Round ((7200 : ℚ) / 36) = 200 := by
    have := Round_div_36 7200 (by decide)
    norm_num at this ⊢
    exact this
  refine ⟨?_, ?_, ?_, convertSecondsToHoursFloat64_18⟩
  · rw [(convertSecondsToHours_rounds 5400 (by decide) (by decide)).2.1 (by decide), h5400, r5400]
    exact Float64.round_eq_of_pos _ 0 6755399441055744 _ (by norm_num) (by decide) (by norm_num)
      (by norm_num) (by norm_num) (by norm_num) (by norm_num) (by norm_num) (by norm_num)
  · rw [(convertSecondsToHours_rounds 3661 (by decide) (by decide)).2.1 (by decide), h3661, r3661]
  · rw [(convertSecondsToHours_rounds 7200 (by decide) (by decide)).2.1 (by decide), h7200, r7200]
    exact Float64.round_eq_of_pos _ 1 4503599627370496 _ (by norm_num) (by decide) (by norm_num)
      (by norm_num) (by norm_num) (by norm_num) (by norm_num) (by norm_num) (by norm_num)

/-- C12 as stated fails: 522 seconds are 14.5 hundredths of an hour, which
`math.Round` would round to 15 and the claim to 0.15, but in `float64` the
quotient 522 / 3600 times 100 is 14.499999999999998, and
`convertSecondsToHours` returns 0.14. -/
theorem convertSecondsToHours_rounds_counterexample :
    convertSecondsToHoursFloat64 522 = Float64.round (14 / 100) ∧
    Round ((522 : ℚ) / 36) = 15 ∧
    Float64.round (14 / 100) = some (1261007895663739 / 9007199254740992) ∧
    Float64.round (15 / 100) = some (5404319552844595 / 36028797018963968) ∧
    (1261007895663739 / 9007199254740992 : ℚ) ≠ 5404319552844595 / 36028797018963968 := by
  have hval : ((522 : GoInt64).val : ℚ) = ((522 : Int) : ℚ) := rfl
  have hconverted : Float64.round (((522 : Int) : ℚ)) = some (((522 : Int) : ℚ)) :=
    Float64.round_intCast 522 (by decide)
  have hvalue : Float64.round ((((522 : Int) : ℚ)) / 3600) =
      some (5224175567749775 / 36028797018963968) :=
    Float64.round_eq_of_pos _ (-3) 5224175567749775 _ (by norm_num) (by decide) (by norm_num)
      (by norm_num) (by norm_num) (by norm_num) (by norm_num) (by norm_num) (by norm_num)
  have hscaled : Float64.round ((5224175567749775 / 36028797018963968 : ℚ) * 100) =
      some (8162774324609023 / 562949953421312) :=
    Float64.round_eq_of_pos _ 3 8162774324609023 _ (by norm_num) (by decide) (by norm_num)
      (by norm_num) (by norm_num) (by norm_num) (by norm_num) (by norm_num) (by norm_num)
  have hround : Round (8162774324609023 / 562949953421312 : ℚ) = 14 := by
    unfold Round
    rw [if_pos (by norm_num)]
    have hfloor : ⌊(8162774324609023 / 562949953421312 : ℚ) + 1 / 2⌋ = 14 :=
      Int.floor_eq_iff.mpr ⟨by norm_num, by norm_num⟩
    rw [hfloor]
    norm_num
  refine ⟨?_, ?_, ?_, ?_, by norm_num⟩
  · unfold convertSecondsToHoursFloat64
    rw [hval, hconverted]
    simp only [hvalue, hscaled, hround]
  · have := Round_div_36 522 (by decide)
    norm_num at this ⊢
    exact this
  · exact Float64.round_eq_of_pos _ (-3) 5044031582654956 _ (by norm_num) (by decide)
      (by norm_num) (by norm_num) (by norm_num) (by norm_num) (by norm_num) (by norm_num)
      (by norm_num)
  · exact Float64.round_eq_of_pos _ (-3) 5404319552844595 _ (by norm_num) (by decide)
      (by norm_num) (by norm_num) (by norm_num) (by norm_num) (by norm_num) (by norm_num)
      (by norm_num)

end PmReport
